import Mathlib

/-!
# Gazer bounded model checker: reachability encoding and trace extraction

A shallow embedding of `src/LLVM/Analysis/BmcPass.cpp` and
`src/LLVM/Verifier/BmcPass.cpp`.

Conventions of the embedding.

* A `BasicBlock*` is the position of the block in the function's block list
  (`BlockId`), so two distinct blocks never share an identity.
* An `llvm::Value*` that is an instruction is the `id` field of that instruction.
* A `DenseMap` is an association list kept in insertion order; the C++ iteration
  order of a `DenseMap` is unspecified and no theorem depends on it.
* `assert` failures, null dereferences and out-of-range accesses are the result
  `none`.
* The expression type `E`, the expression builder and the instruction translator
  of `gazer/LLVM/Ir2Expr.h` are parameters of the embedding.
-/

namespace Gazer

/-! ## LLVM IR data model (what the pass reads from the IR) -/

/-- Identity of a basic block: its position in the function's block list. -/
abbrev BlockId := Nat

/-- Identity of an `llvm::Value` that is not a constant. -/
abbrev ValueId := Nat

/-- An `llvm::Value*` as the pass observes it. -/
inductive Value where
  | ConstantInt (bits : Nat) (value : Nat)
  | Inst (id : ValueId)
  | Other (id : ValueId)
  deriving DecidableEq, Repr

/-- The LLVM type of an instruction, as far as the pass looks at it. -/
inductive LLType where
  | integer (bits : Nat)
  | other
  deriving DecidableEq, Repr

/-- A call argument: a plain value, or one of the metadata wrappers read by the
trace extractor. -/
inductive Operand where
  | Val (v : Value)
  | MDValue (v : Value)
  | MDGlobal (name : String)
  | MDOther
  deriving DecidableEq, Repr

/-- Instruction kinds distinguished by the pass. `DbgValue` is the
`llvm.dbg.value` intrinsic call (a `CallInst` whose callee is that intrinsic). -/
inductive InstKind where
  | PHI (incoming : List (Value × BlockId))
  | Call (callee : Option String) (args : List Operand)
  | DbgValue (value : Option Value) (diVariable : Option String)
  | Terminator (succs : List BlockId)
  | Other
  deriving DecidableEq, Repr

/-- Source position (`DebugLoc`): line and column. -/
structure DebugLoc where
  line : Nat
  col : Nat
  deriving DecidableEq, Repr

/-- An LLVM instruction. -/
structure Inst where
  id : ValueId
  name : String
  type : LLType
  kind : InstKind
  debugLoc : Option DebugLoc
  deriving DecidableEq, Repr

/-- A basic block: its instruction list. -/
structure BasicBlock where
  insts : List Inst
  deriving DecidableEq, Repr

/-- A function: its basic block list, in layout order. -/
structure Function where
  blocks : List BasicBlock
  deriving DecidableEq, Repr

/-- The array of the topological sort: `topo[i]` is a `BasicBlock*`. -/
abbrev TopologicalSort := List BlockId

namespace Inst

/-- Is the instruction a PHI node. -/
def isPHI (i : Inst) : Bool :=
  match i.kind with
  | .PHI _ => true
  | _ => false

/-- Mirror of `Instruction::isTerminator`. -/
def isTerminator (i : Inst) : Bool :=
  match i.kind with
  | .Terminator _ => true
  | _ => false

/-- Mirror of `getOpcode() == Instruction::Call`. -/
def isCall (i : Inst) : Bool :=
  match i.kind with
  | .Call _ _ => true
  | .DbgValue _ _ => true
  | _ => false

/-- Mirror of `CallInst::getCalledFunction`, giving the callee's name; `none` is
the null pointer of an indirect call. -/
def getCalledFunction (i : Inst) : Option String :=
  match i.kind with
  | .Call callee _ => callee
  | .DbgValue _ _ => some "llvm.dbg.value"
  | _ => none

/-- The successor list of a terminator (empty for anything else). -/
def successors (i : Inst) : List BlockId :=
  match i.kind with
  | .Terminator succs => succs
  | _ => []

/-- Mirror of `getNumSuccessors`. -/
def getNumSuccessors (i : Inst) : Nat := i.successors.length

end Inst

namespace BasicBlock

/-- Mirror of `getTerminator`: the last instruction when it is a terminator. -/
def getTerminator (bb : BasicBlock) : Option Inst :=
  match bb.insts.getLast? with
  | some t => if t.isTerminator then some t else none
  | none => none

/-- The instructions from `getFirstInsertionPt()` to `end()`: everything after
the leading PHI nodes. -/
def fromFirstInsertionPt (bb : BasicBlock) : List Inst :=
  bb.insts.dropWhile Inst.isPHI

/-- The instructions from `begin()` to `getFirstInsertionPt()`: the leading PHI
nodes. -/
def untilFirstInsertionPt (bb : BasicBlock) : List Inst :=
  bb.insts.takeWhile Inst.isPHI

end BasicBlock

namespace Function

/-- Dereference of a `BasicBlock*`. -/
def block (F : Function) (b : BlockId) : Option BasicBlock := F.blocks[b]?

/-- The successors of block `b`: those of its terminator. -/
def successors (F : Function) (b : BlockId) : List BlockId :=
  match F.block b with
  | some bb =>
    match bb.getTerminator with
    | some t => t.successors
    | none => []
  | none => []

/-- Mirror of `llvm::predecessors(bb)`: one entry per terminator use of `bb`, so a
block that branches to `bb` on two successor slots is listed twice. Listed in
layout order of the using blocks. -/
def predecessors (F : Function) (bb : BlockId) : List BlockId :=
  (List.range F.blocks.length).flatMap
    (fun p => ((F.successors p).filter (fun s => s = bb)).map (fun _ => p))

end Function

/-! ## Maps -/

/-- A `DenseMap`, kept as an association list in insertion order. -/
abbrev DenseMap (K V : Type) := List (K × V)

namespace DenseMap

variable {K V : Type} [DecidableEq K]

/-- Mirror of `find`: `none` stands for `end()`. -/
def find (m : DenseMap K V) (k : K) : Option V := List.lookup k m

/-- Mirror of `insert`: an existing key keeps its value. -/
def insert (m : DenseMap K V) (k : K) (v : V) : DenseMap K V :=
  match m.find k with
  | some _ => m
  | none => m ++ [(k, v)]

/-- Mirror of `m[k] = v`: an existing key is overwritten. -/
def set (m : DenseMap K V) (k : K) (v : V) : DenseMap K V :=
  match m.find k with
  | some _ => m.map (fun kv => if kv.1 = k then (k, v) else kv)
  | none => m ++ [(k, v)]

end DenseMap

/-! ## Expression builder and instruction translator (parameters) -/

/-- The part of `ExprBuilder` and of the Boolean literals that the encoder calls:
`BoolLiteralExpr::getTrue()`, `getFalse()`, the binary `And`, and the `And` and
`Or` over an iterator range. -/
structure ExprBuilder (E : Type) where
  getTrue : E
  getFalse : E
  And : E → E → E
  AndRange : List E → E
  OrRange : List E → E

/-- The translator `InstToExpr` of `gazer/LLVM/Ir2Expr.h` as the encoder calls it:
`transform(inst)`, `transform(terminator, succIdx)` and
`transform(phi, succIdx, from)`. -/
structure InstToExpr (E : Type) where
  builder : ExprBuilder E
  transform : Inst → E
  transformTerminator : Inst → Nat → E
  transformPHI : Inst → Nat → BlockId → E

/-! ## `isErrorBlock` -/

/-- Mirror of `isErrorFunctionName`. -/
def isErrorFunctionName (name : String) : Bool :=
  name == "__VERIFIER_error" || name == "__assert_fail" || name == "__gazer_error"

/-- The loop of `isErrorBlock` over the instructions of a block. A call without a
called function dereferences a null pointer: `none`. -/
def isErrorBlockLoop : List Inst → Option Bool
  | [] => some false
  | instr :: rest =>
    if instr.isCall then
      match instr.getCalledFunction with
      | none => none
      | some name => if isErrorFunctionName name then some true else isErrorBlockLoop rest
    else isErrorBlockLoop rest

/-- Mirror of `isErrorBlock`. -/
def isErrorBlock (bb : BasicBlock) : Option Bool := isErrorBlockLoop bb.insts

/-! ## `encodeEdge` -/

section Encoder

variable {E : Type} [DecidableEq E]

/-- The formula of the straight-line part of a block: the conjunction of the
translations of the instructions after the leading PHI nodes, terminators
skipped (lines 288-300). -/
def bodyFormula (tr : InstToExpr E) (bb : BasicBlock) : E :=
  tr.builder.AndRange
    ((bb.fromFirstInsertionPt.filter (fun it => !it.isTerminator)).map tr.transform)

/-- Mirror of `encodeEdge(from, to, ir2expr, cache)`; returns the formula and the
cache after the call. -/
def encodeEdge (F : Function) (tr : InstToExpr E) (fromBB toBB : BlockId)
    (cache : DenseMap BlockId E) : Option (E × DenseMap BlockId E) :=
  match F.block fromBB, F.block toBB with
  | some fromBlock, some toBlock =>
    match fromBlock.getTerminator with
    | none => none
    | some terminator =>
      let succIdx := terminator.successors.indexOf toBB
      if succIdx = terminator.getNumSuccessors then none
      else
        let cached : E × DenseMap BlockId E :=
          match cache.find fromBB with
          | none =>
            let fromExpr := bodyFormula tr fromBlock
            (fromExpr, cache.set fromBB fromExpr)
          | some e => (e, cache)
        let exprs := [cached.1] ++ [tr.transformTerminator terminator succIdx]
          ++ toBlock.untilFirstInsertionPt.map (fun it => tr.transformPHI it succIdx fromBB)
        some (tr.builder.AndRange exprs, cached.2)
  | _, _ => none

/-! ## `encode` -/

/-- The map `blocks` built by `blocks.insert({topo[i], i})` for `i < numBB`. -/
def buildBlockMap (topo : TopologicalSort) :
    List Nat → DenseMap BlockId Nat → Option (DenseMap BlockId Nat)
  | [], m => some m
  | i :: rest, m =>
    match topo[i]? with
    | none => none
    | some b => buildBlockMap topo rest (m.insert b i)

/-- The loop over the predecessors of `bb` (lines 358-373); the state is the
vector `exprs` and the body cache. -/
def encodePredecessors (F : Function) (tr : InstToExpr E) (blocks : DenseMap BlockId Nat)
    (dp : List E) (i : Nat) (bb : BlockId) :
    List BlockId → List E × DenseMap BlockId E → Option (List E × DenseMap BlockId E)
  | [], st => some st
  | pred :: rest, (exprs, cache) =>
    match blocks.find pred with
    | none => none
    | some predIdx =>
      if predIdx < i then
        match dp[predIdx]? with
        | none => none
        | some predFormula =>
          if predFormula ≠ tr.builder.getFalse then
            match encodeEdge F tr pred bb cache with
            | none => none
            | some (edge, cache1) =>
              encodePredecessors F tr blocks dp i bb rest
                (exprs ++ [tr.builder.And predFormula edge], cache1)
          else encodePredecessors F tr blocks dp i bb rest (exprs, cache)
      else none

/-- The loop `for (i = 1; i < numBB; ++i)` (lines 354-379); the state is the vector
`dp` and the body cache. -/
def encodeLoop (F : Function) (topo : TopologicalSort) (tr : InstToExpr E)
    (blocks : DenseMap BlockId Nat) :
    List Nat → List E × DenseMap BlockId E → Option (List E × DenseMap BlockId E)
  | [], st => some st
  | i :: rest, (dp, cache) =>
    match topo[i]? with
    | none => none
    | some bb =>
      match encodePredecessors F tr blocks dp i bb (F.predecessors bb) ([], cache) with
      | none => none
      | some (exprs, cache1) =>
        if exprs ≠ [] then
          encodeLoop F topo tr blocks rest (dp.set i (tr.builder.OrRange exprs), cache1)
        else encodeLoop F topo tr blocks rest (dp, cache1)

/-- Lines 341-379 of `encode`: the vector `dp` of reachability formulas, with the
body cache at the end of the loop. -/
def encodeReachability (F : Function) (topo : TopologicalSort) (tr : InstToExpr E) :
    Option (List E × DenseMap BlockId E) :=
  let numBB := F.blocks.length
  match buildBlockMap topo (List.range numBB) [] with
  | none => none
  | some blocks =>
    if numBB = 0 then none
    else
      encodeLoop F topo tr blocks (List.range' 1 (numBB - 1))
        ((List.replicate numBB tr.builder.getFalse).set 0 tr.builder.getTrue, [])

/-- The loop that fills `errorBlocks` (lines 334-339). -/
def collectErrorBlocks (F : Function) (topo : TopologicalSort) :
    List Nat → DenseMap Nat BlockId → Option (DenseMap Nat BlockId)
  | [], m => some m
  | i :: rest, m =>
    match topo[i]? with
    | none => none
    | some b =>
      match F.block b with
      | none => none
      | some bb =>
        match isErrorBlock bb with
        | none => none
        | some true => collectErrorBlocks F topo rest (m.insert i b)
        | some false => collectErrorBlocks F topo rest m

/-- The loop that fills `result` from `errorBlocks` (lines 381-386). -/
def collectResult (dp : List E) :
    List (Nat × BlockId) → DenseMap BlockId E → Option (DenseMap BlockId E)
  | [], result => some result
  | (idx, block) :: rest, result =>
    match dp[idx]? with
    | none => none
    | some e => collectResult dp rest (result.set block e)

/-- Mirror of `encode`: the map from each error block to its reachability
formula. -/
def encode (F : Function) (topo : TopologicalSort) (tr : InstToExpr E) :
    Option (DenseMap BlockId E) :=
  match collectErrorBlocks F topo (List.range F.blocks.length) [] with
  | none => none
  | some errorBlocks =>
    match encodeReachability F topo tr with
    | none => none
    | some (dp, _) => collectResult dp errorBlocks []

end Encoder

/-! ## Predecessor identifications (`BmcPass::runOnFunction`, lines 412-453) -/

namespace DenseMap

/-- Mirror of reading `blocks[key]` on a map of indices: a missing key is
default-constructed, which reads as `0` (and reads as `0` again afterwards). -/
def subscript {K : Type} [DecidableEq K] (m : DenseMap K Nat) (k : K) : Nat :=
  (m.find k).getD 0

end DenseMap

namespace Inst

/-- The incoming (value, block) pairs of a PHI node. -/
def incoming (i : Inst) : List (Value × BlockId) :=
  match i.kind with
  | .PHI inc => inc
  | _ => []

/-- Mirror of `getNumIncomingValues`. -/
def getNumIncomingValues (i : Inst) : Nat := i.incoming.length

end Inst

namespace Function

/-- The identities of all instructions of the function. -/
def instIds (F : Function) : List ValueId :=
  F.blocks.flatMap (fun b => b.insts.map Inst.id)

/-- The identity given to a newly allocated instruction: one that no instruction
of the function has. -/
def freshValueId (F : Function) : ValueId := F.instIds.foldr max 0 + 1

/-- Mirror of `bb.getInstList().push_front(inst)`. -/
def pushFront (F : Function) (bb : BlockId) (inst : Inst) : Function :=
  match F.blocks[bb]? with
  | some b => { blocks := F.blocks.set bb { insts := inst :: b.insts } }
  | none => F

/-- The instruction with a given identity, if the function has one. -/
def findInst (F : Function) (id : ValueId) : Option Inst :=
  (F.blocks.flatMap (fun b => b.insts)).find? (fun i => i.id = id)

end Function

/-- The map `blocks` of `runOnFunction`: `blocks.insert({topo[i], i})` for
`i < topo.size()`. -/
def topoBlockMap (topo : TopologicalSort) : DenseMap BlockId Nat :=
  (List.range topo.length).foldl
    (fun m i => match topo[i]? with
      | some b => m.insert b i
      | none => m) []

/-- The PHI node that `runOnFunction` creates for block `bb`: type `i32`, name
`pred<bbID>`, one incoming constant `APInt(32, predID)` per predecessor. -/
def createPredecessorPhi (F : Function) (blocks : DenseMap BlockId Nat) (bb : BlockId) : Inst :=
  { id := F.freshValueId
    name := "pred" ++ toString (blocks.subscript bb)
    type := .integer 32
    kind := .PHI ((F.predecessors bb).map
      (fun pred => (Value.ConstantInt 32 (blocks.subscript pred % 2 ^ 32), pred)))
    debugLoc := none }

/-- One iteration of `for (BasicBlock& bb : function)` (lines 421-453); the state is
the function and the map `preds`. -/
def predecessorIdentificationStep (blocks : DenseMap BlockId Nat)
    (st : Function × DenseMap BlockId Value) (bb : BlockId) :
    Function × DenseMap BlockId Value :=
  let phi := createPredecessorPhi st.1 blocks bb
  if phi.getNumIncomingValues > 1 then
    (st.1.pushFront bb phi, st.2.set bb (Value.Inst phi.id))
  else
    match phi.incoming with
    | [(v, _)] => (st.1, st.2.set bb v)
    | _ => st

/-- Lines 419-453 of `runOnFunction`: the function with the inserted PHI nodes and
the map `preds`. -/
def createPredecessorIdentifications (F : Function) (blocks : DenseMap BlockId Nat) :
    Function × DenseMap BlockId Value :=
  (List.range F.blocks.length).foldl (predecessorIdentificationStep blocks) (F, [])

/-! ## `BmcTrace::Create`

The definition of `BmcTrace::Create` at lines 81-230 of `BmcPass.cpp`. In this
revision the definition is disabled by `#if 0`, and the definition that
`runOnFunction` calls lives in `gazer/LLVM/BMC/BmcTrace.h`, which is not part of
the sources at hand; the embedding follows the definition in `BmcPass.cpp`. -/

/-- A `Variable*`. -/
structure Variable where
  name : String
  deriving DecidableEq, Repr

/-- A literal of a model. `IntLiteral` is `IntLiteralExpr` (an `APInt` of a given
width); everything else is another literal class. -/
inductive LiteralExpr where
  | BoolLiteral (b : Bool)
  | IntLiteral (bits : Nat) (value : Nat)
  | OtherLiteral (text : String)
  deriving DecidableEq, Repr

/-- A solver model. -/
abbrev Valuation := DenseMap Variable LiteralExpr

/-- The map `InstToExpr::ValueToVariableMapT`. -/
abbrev ValueToVariableMap := DenseMap Value Variable

/-- Mirror of `APInt::getLimitedValue()`: saturates at `UINT64_MAX`. -/
def getLimitedValue (v : Nat) : Nat := min v (2 ^ 64 - 1)

/-- The computation of `predId` from the recorded predecessor value
(lines 101-116). -/
def predIdOf (valueMap : ValueToVariableMap) (model : Valuation) (v : Value) : Option Nat :=
  match v with
  | .ConstantInt _ value => some (getLimitedValue value)
  | _ =>
    match valueMap.find v with
    | none => none
    | some var =>
      match model.find var with
      | none => none
      | some (.IntLiteral _ value) => some (getLimitedValue value)
      | some _ => none

/-- The loop `while (hasParent)` (lines 96-124). `fuel` bounds the number of
iterations; `none` is an abort or exhausted fuel. -/
def traceBlocksLoop (topo : TopologicalSort) (preds : DenseMap BlockId Value)
    (valueMap : ValueToVariableMap) (model : Valuation) :
    Nat → BlockId → List BlockId → Option (List BlockId)
  | 0, _, _ => none
  | fuel + 1, current, traceBlocks =>
    let traceBlocks1 := traceBlocks ++ [current]
    match preds.find current with
    | some predValue =>
      match predIdOf valueMap model predValue with
      | none => none
      | some predId =>
        match topo[predId]? with
        | none => none
        | some next => traceBlocksLoop topo preds valueMap model fuel next traceBlocks1
    | none => some traceBlocks1

/-- Lines 93-126: the reversed block list `traceBlocks`. -/
def createTraceBlocks (topo : TopologicalSort) (preds : DenseMap BlockId Value)
    (valueMap : ValueToVariableMap) (model : Valuation) (errorBlock : BlockId) (fuel : Nat) :
    Option (List BlockId) :=
  (traceBlocksLoop topo preds valueMap model fuel errorBlock []).map List.reverse

/-- Mirror of `BmcTrace::LocationInfo`. -/
structure LocationInfo where
  row : Int
  column : Int
  deriving DecidableEq, Repr

/-- Mirror of `BmcTrace::Assignment`; `none` is a null pointer. -/
structure Assignment where
  var : Option Variable
  expr : Option LiteralExpr
  value : Value
  location : LocationInfo
  variableName : String
  deriving DecidableEq, Repr

/-- The location of a `DebugLoc`, or `(-1, -1)` without one. -/
def locationOf (d : Option DebugLoc) : LocationInfo :=
  match d with
  | some loc => { row := loc.line, column := loc.col }
  | none => { row := -1, column := -1 }

/-- The body of the loop over the instructions of a trace block (lines 129-226) for
one instruction: `some none` is an iteration that appends nothing, `some (some a)`
appends `a`, `none` is an abort. -/
def traceInstruction (F : Function) (valueMap : ValueToVariableMap) (model : Valuation)
    (instr : Inst) : Option (Option Assignment) :=
  match instr.kind with
  | .DbgValue (some value) (some diVar) =>
    match valueMap.find value with
    | none => some none
    | some var =>
      match model.find var with
      | none => some none
      | some expr =>
        let location : LocationInfo :=
          match value with
          | .Inst id =>
            match (F.findInst id).bind (fun valInst => valInst.debugLoc) with
            | some loc => locationOf (some loc)
            | none => locationOf instr.debugLoc
          | _ => { row := -1, column := -1 }
        some (some { var := some var, expr := some expr, value := value
                     location := location, variableName := diVar })
  | .DbgValue _ _ => some none
  | .Call none _ => none
  | .Call (some callee) args =>
    if callee = "gazer.inlined_global.write" then
      match args with
      | .MDValue value :: .MDGlobal globalName :: _ =>
        let expr : Option LiteralExpr :=
          match value with
          | .ConstantInt bits v => some (.IntLiteral bits v)
          | _ =>
            match valueMap.find value with
            | none => none
            | some var => model.find var
        some (some { var := none, expr := expr, value := value
                     location := locationOf instr.debugLoc, variableName := globalName })
      | _ => none
    else some none
  | _ => some none

/-- The loop over the instructions of one trace block. -/
def traceBlockAssignments (F : Function) (valueMap : ValueToVariableMap) (model : Valuation) :
    List Inst → List Assignment → Option (List Assignment)
  | [], assigns => some assigns
  | instr :: rest, assigns =>
    match traceInstruction F valueMap model instr with
    | none => none
    | some none => traceBlockAssignments F valueMap model rest assigns
    | some (some a) => traceBlockAssignments F valueMap model rest (assigns ++ [a])

/-- The loop over the trace blocks (lines 128-227). -/
def traceAssignments (F : Function) (valueMap : ValueToVariableMap) (model : Valuation) :
    List BlockId → List Assignment → Option (List Assignment)
  | [], assigns => some assigns
  | bb :: rest, assigns =>
    match F.block bb with
    | none => none
    | some block =>
      match traceBlockAssignments F valueMap model block.insts assigns with
      | none => none
      | some assigns1 => traceAssignments F valueMap model rest assigns1

/-- Mirror of `BmcTrace`: the blocks and the assignments. -/
structure BmcTrace where
  blocks : List BlockId
  assignments : List Assignment
  deriving DecidableEq, Repr

/-- Mirror of `BmcTrace::Create` (lines 81-230). -/
def BmcTrace.Create (F : Function) (topo : TopologicalSort) (preds : DenseMap BlockId Value)
    (errorBlock : BlockId) (model : Valuation) (valueMap : ValueToVariableMap) (fuel : Nat) :
    Option BmcTrace :=
  match createTraceBlocks topo preds valueMap model errorBlock fuel with
  | none => none
  | some traceBlocks =>
    match traceAssignments F valueMap model traceBlocks [] with
    | none => none
    | some assigns => some { blocks := traceBlocks, assignments := assigns }

/-! ## The query loop of `runOnFunction` (lines 460-508) -/

/-- What the solver calls of one query do inside the `try` block: `solver.add`
throws a `z3::exception`, `solver.run` throws, `solver.run` returns `SAT` and
`getModel` throws, `solver.run` returns `SAT` and `getModel` returns a model, or
`solver.run` returns `UNSAT` or another status. -/
inductive SolverOutcome where
  | addThrows (msg : String)
  | runThrows (msg : String)
  | getModelThrows (msg : String)
  | SAT (model : Valuation)
  | UNSAT
  | UNKNOWN
  deriving DecidableEq, Repr

/-- The outcome is the status `SAT` with its model, no solver call having
thrown. -/
def SolverOutcome.isSAT : SolverOutcome → Bool
  | .SAT _ => true
  | _ => false

/-- What the pass writes to `llvm::errs()`: the announcement of a query, or any
other piece of text. -/
inductive Output where
  | checking (block : BlockId)
  | line (text : String)
  deriving DecidableEq, Repr

/-- The loop `for (auto& entry : result)` of `runOnFunction`. The solver and the
text that the trace writer prints for a model are parameters. -/
def checkQueries {E : Type} (solver : BlockId → E → SolverOutcome)
    (writeTrace : BlockId → Valuation → List String) :
    List (BlockId × E) → List Output
  | [] => []
  | (block, formula) :: rest =>
    let announce := [Output.checking block, Output.line "   Transforming formula."]
    match solver block formula with
    | .addThrows msg =>
      announce ++ [Output.line msg] ++ checkQueries solver writeTrace rest
    | .runThrows msg =>
      announce ++ [Output.line "   Running solver.", Output.line msg]
        ++ checkQueries solver writeTrace rest
    | .getModelThrows msg =>
      announce ++ [Output.line "   Running solver.", Output.line "   Formula is SAT",
        Output.line msg] ++ checkQueries solver writeTrace rest
    | .SAT model =>
      announce ++ [Output.line "   Running solver.", Output.line "   Formula is SAT",
        Output.line "Error trace:", Output.line "-----------"]
        ++ (writeTrace block model).map Output.line ++ [Output.line "Assertion failure found."]
    | .UNSAT =>
      announce ++ [Output.line "   Running solver.", Output.line "   Formula is UNSAT"]
        ++ checkQueries solver writeTrace rest
    | .UNKNOWN =>
      announce ++ [Output.line "   Running solver.", Output.line "   Unknown solver state."]
        ++ checkQueries solver writeTrace rest

/-- The blocks whose query was announced, in order. -/
def checkedBlocks (out : List Output) : List BlockId :=
  out.filterMap (fun o => match o with
    | .checking b => some b
    | .line _ => none)

/-- Mirror of `BmcPass::runOnFunction`: the text written and the returned flag. The
translator is built from the function after the PHI insertion. -/
def runOnFunction {E : Type} [DecidableEq E] (F : Function) (topo : TopologicalSort)
    (mkInstToExpr : Function → InstToExpr E) (solver : BlockId → E → SolverOutcome)
    (writeTrace : BlockId → Valuation → List String) : Option (List Output × Bool) :=
  let blocks := topoBlockMap topo
  let st := createPredecessorIdentifications F blocks
  match encode st.1 topo (mkInstToExpr st.1) with
  | none => none
  | some result =>
    some ([Output.line "Program size: ",
           Output.line ("   Blocks: " ++ toString F.blocks.length),
           Output.line "Encoding program into SMT formula."]
          ++ checkQueries solver writeTrace result, false)

/-! ## `BoundedModelCheckerPass::runOnModule` -/

/-- What `runOnModule` observes of the result `mResult` of `bmc.check(system)`:
whether it casts to `FailResult`, and what `isSuccess()` returns. -/
structure VerificationResult where
  isFail : Bool
  isSuccess : Bool
  deriving DecidableEq, Repr

/-- Mirror of `BoundedModelCheckerPass::runOnModule`: the text written to
`llvm::outs()` and the returned flag. -/
def runOnModule (mResult : VerificationResult) : List String × Bool :=
  if mResult.isFail then (["Verification FAILED.\n"], false)
  else if mResult.isSuccess then (["Verification SUCCESSFUL.\n"], false)
  else ([], false)

/-! ## A concrete expression layer -/

mutual
/-- Modelled from the spec: the expression kinds of section 3 that the encoder's
formulas are built from (the expression classes of `gazer/Core` are not part of
the sources at hand). -/
inductive Expr where
  | BoolLit (b : Bool)
  | BvLit (value : Nat) (width : Nat)
  | VarRef (v : Variable)
  | Not (e : Expr)
  | And (es : ExprList)
  | Or (es : ExprList)
  | Eq (a b : Expr)
  | NotEq (a b : Expr)
  deriving DecidableEq, Repr
/-- Operand lists of the variadic kinds `And` and `Or`. -/
inductive ExprList where
  | nil
  | cons (e : Expr) (es : ExprList)
  deriving DecidableEq, Repr
end

/-- The operand list of a sequence of expressions. -/
def ExprList.ofList : List Expr → ExprList
  | [] => .nil
  | e :: es => .cons e (ExprList.ofList es)

/-- The Boolean read from a literal; anything but `true` reads as `false`. -/
def LiteralExpr.toBool : LiteralExpr → Bool
  | .BoolLiteral b => b
  | _ => false

mutual
/-- Modelled from the spec: the value of an expression under a valuation
(section 3, a valuation maps variables to literals). A variable outside the
valuation reads as a literal that is neither Boolean nor integer. -/
def Expr.eval (m : Valuation) : Expr → LiteralExpr
  | .BoolLit b => .BoolLiteral b
  | .BvLit value width => .IntLiteral width value
  | .VarRef v => (m.find v).getD (.OtherLiteral "")
  | .Not e => .BoolLiteral (!(e.eval m).toBool)
  | .And es => .BoolLiteral (es.evalAll m)
  | .Or es => .BoolLiteral (es.evalAny m)
  | .Eq a b => .BoolLiteral (decide (a.eval m = b.eval m))
  | .NotEq a b => .BoolLiteral (!decide (a.eval m = b.eval m))
/-- All operands hold. -/
def ExprList.evalAll (m : Valuation) : ExprList → Bool
  | .nil => true
  | .cons e es => (e.eval m).toBool && es.evalAll m
/-- Some operand holds. -/
def ExprList.evalAny (m : Valuation) : ExprList → Bool
  | .nil => false
  | .cons e es => (e.eval m).toBool || es.evalAny m
end

/-- The formula `e` is true under the valuation `m`. -/
def Expr.holds (m : Valuation) (e : Expr) : Bool := (e.eval m).toBool

/-- Modelled from the spec: the non-folding builder of section 4.B, which returns
a new node per call. -/
def CreateExprBuilder : ExprBuilder Expr :=
  { getTrue := .BoolLit true
    getFalse := .BoolLit false
    And := fun a b => .And (ExprList.ofList [a, b])
    AndRange := fun l => .And (ExprList.ofList l)
    OrRange := fun l => .Or (ExprList.ofList l) }

/-- Modelled from the spec: the binary `And` of the folding builder with the
rewrites of section 4.B: `And(x,true)` is `x`, `And(x,false)` is `false` (on
either side) and `And(x,x)` is `x`. -/
def foldingAnd (a b : Expr) : Expr :=
  if a = .BoolLit true then b
  else if b = .BoolLit true then a
  else if a = .BoolLit false then .BoolLit false
  else if b = .BoolLit false then .BoolLit false
  else if a = b then a
  else .And (ExprList.ofList [a, b])

/-- Modelled from the spec: variadic `And` of the folding builder: the empty
sequence gives the neutral element, a singleton gives its element. -/
def foldingAndRange : List Expr → Expr
  | [] => .BoolLit true
  | [e] => e
  | l => .And (ExprList.ofList l)

/-- Modelled from the spec: variadic `Or` of the folding builder: the empty
sequence gives the neutral element, a singleton gives its element. -/
def foldingOrRange : List Expr → Expr
  | [] => .BoolLit false
  | [e] => e
  | l => .Or (ExprList.ofList l)

/-- Modelled from the spec: the folding builder of section 4.B. -/
def CreateFoldingExprBuilder : ExprBuilder Expr :=
  { getTrue := .BoolLit true
    getFalse := .BoolLit false
    And := foldingAnd
    AndRange := foldingAndRange
    OrRange := foldingOrRange }

/-! ## Notions used to state the properties of the encoder -/

section Notions

variable {E : Type} [DecidableEq E]

/-- The topological numbering that `encode` relies on: `topo` lists every block of
the function exactly once, the function has a block, and every predecessor of a
block comes before it. -/
def TopologicalOrder (F : Function) (topo : TopologicalSort) : Prop :=
  topo.Perm (List.range F.blocks.length) ∧ 0 < F.blocks.length ∧
    ∀ b ∈ topo, ∀ p ∈ F.predecessors b, topo.indexOf p < topo.indexOf b

instance (F : Function) (topo : TopologicalSort) : Decidable (TopologicalOrder F topo) := by
  unfold TopologicalOrder
  infer_instance

/-- The formula of the edge `(p, b)`: what `encodeEdge` returns on an empty
cache. -/
def edgeFormula (F : Function) (tr : InstToExpr E) (p b : BlockId) : Option E :=
  (encodeEdge F tr p b []).map Prod.fst

/-- Every entry of the body cache is the body formula of its block. -/
def CacheCoherent (F : Function) (tr : InstToExpr E) (cache : DenseMap BlockId E) : Prop :=
  ∀ b e, cache.find b = some e → ∃ blk, F.block b = some blk ∧ e = bodyFormula tr blk

/-- The operands of the conjunction that `encodeEdge` builds for the edge from
`fromBB` to `toBB`: the body formula of `fromBB`, the translation of its terminator
for the successor slot of `toBB`, and the translations of the leading PHI nodes of
`toBB`. -/
def edgeOperands (tr : InstToExpr E) (fromBlock toBlock : BasicBlock) (terminator : Inst)
    (fromBB toBB : BlockId) : List E :=
  bodyFormula tr fromBlock ::
    tr.transformTerminator terminator (terminator.successors.indexOf toBB) ::
    toBlock.untilFirstInsertionPt.map
      (fun it => tr.transformPHI it (terminator.successors.indexOf toBB) fromBB)

/-- The disjunct that predecessor `p` contributes to the formula of block `b`:
`And(R[p], edge(p, b))`, and nothing when `R[p]` is the literal `False`. -/
def contribution (F : Function) (topo : TopologicalSort) (tr : InstToExpr E) (dp : List E)
    (b p : BlockId) : Option E :=
  match dp[topo.indexOf p]?, edgeFormula F tr p b with
  | some f, some e => if f ≠ tr.builder.getFalse then some (tr.builder.And f e) else none
  | _, _ => none

/-- The disjuncts of block `b`, one per contributing predecessor, in the order of
the predecessors. -/
def contributions (F : Function) (topo : TopologicalSort) (tr : InstToExpr E) (dp : List E)
    (b : BlockId) : List E :=
  (F.predecessors b).filterMap (contribution F topo tr dp b)

/-- The disjunction of a list of disjuncts; the literal `False` without any. -/
def disjunction (B : ExprBuilder E) (exprs : List E) : E :=
  if exprs = [] then B.getFalse else B.OrRange exprs

/-- The recurrence of the reachability formulas: `R[0] = True` and, for `i ≥ 1`,
`R[i]` is the disjunction of the contributions of the predecessors of block
`topo[i]`. -/
def ReachabilityTable (F : Function) (topo : TopologicalSort) (tr : InstToExpr E)
    (dp : List E) : Prop :=
  dp.length = F.blocks.length ∧ dp[0]? = some tr.builder.getTrue ∧
    ∀ i b, 1 ≤ i → topo[i]? = some b →
      dp[i]? = some (disjunction tr.builder (contributions F topo tr dp b))

/-- The value of `R[p] ∧ edge` under `sem`; `false` when either formula is
missing. -/
def conjunctValue {E : Type} (sem : E → Bool) (Rp edge : Option E) : Bool :=
  match Rp, edge with
  | some f, some e => sem f && sem e
  | _, _ => false

/-- The builder keeps the meaning of the connectives under every valuation. -/
structure BuilderSound {Val : Type} (B : ExprBuilder E) (eval : Val → E → Bool) : Prop where
  getTrue : ∀ m, eval m B.getTrue = true
  getFalse : ∀ m, eval m B.getFalse = false
  And : ∀ m a b, eval m (B.And a b) = (eval m a && eval m b)
  AndRange : ∀ m l, eval m (B.AndRange l) = l.all (eval m)
  OrRange : ∀ m l, eval m (B.OrRange l) = l.any (eval m)

/-- The edge `(b, b1)` is an edge of the control-flow graph and its edge formula is
true under `sem`. -/
def EdgeHolds (F : Function) (tr : InstToExpr E) (sem : E → Bool) (b b1 : BlockId) : Prop :=
  b ∈ F.predecessors b1 ∧ ∃ e, edgeFormula F tr b b1 = some e ∧ sem e = true

/-- A path of the control-flow graph from `topo[0]` to `topo[i]` all of whose edge
formulas are true under `sem`. -/
def FeasiblePath (F : Function) (topo : TopologicalSort) (tr : InstToExpr E) (sem : E → Bool)
    (i : Nat) (path : List BlockId) : Prop :=
  path.head? = topo[0]? ∧ path.getLast? = topo[i]? ∧ path.Chain' (EdgeHolds F tr sem)

end Notions

/-- The PHI nodes of the block are grouped at its top, as the LLVM verifier
requires: no PHI node comes after a non-PHI instruction. -/
def BasicBlock.phisGrouped (bb : BasicBlock) : Prop :=
  ∀ it ∈ bb.insts.dropWhile Inst.isPHI, it.isPHI = false

instance (bb : BasicBlock) : Decidable bb.phisGrouped := by
  unfold BasicBlock.phisGrouped
  infer_instance

/-- The error routine names of the specification (section 4.G, step 3). -/
def specErrorRoutineNames : List String :=
  ["__VERIFIER_error", "__assert_fail", "__gazer_error", "gazer.error_code"]

/-- The error routine names that `isErrorFunctionName` compares with. -/
def codeErrorRoutineNames : List String :=
  ["__VERIFIER_error", "__assert_fail", "__gazer_error"]

/-- The block contains a call to a routine whose name is in `names`. -/
def callsRoutineIn (names : List String) (bb : BasicBlock) : Bool :=
  bb.insts.any (fun i => i.isCall &&
    match i.getCalledFunction with
    | some name => decide (name ∈ names)
    | none => false)

/-- Every call of the block has a statically known callee. -/
def noIndirectCall (bb : BasicBlock) : Prop :=
  ∀ i ∈ bb.insts, i.isCall = true → i.getCalledFunction ≠ none

instance (bb : BasicBlock) : Decidable (noIndirectCall bb) := by
  unfold noIndirectCall
  infer_instance

/-- The query set `result` has exactly one entry per block that calls a routine
named in `names`, the reachability formula of that block, and no other entry. -/
def QuerySetFor {E : Type} (names : List String) (F : Function) (topo : TopologicalSort)
    (dp : List E) (result : DenseMap BlockId E) : Prop :=
  (result.map Prod.fst).Nodup ∧
    ∀ b, result.find b =
      match F.block b with
      | some blk => if callsRoutineIn names blk then dp[topo.indexOf b]? else none
      | none => none

/-- What the predecessor identification leaves for a block `b` whose content was
`blk`, with `index` the numbering of the blocks: with several incoming edges a PHI
node of type `i32` named `pred<index b>` at the front of the block, which is not an
instruction of `F` and has one incoming constant per predecessor, recorded in
`preds`; with one incoming edge the constant of the predecessor and an unchanged
block; with none an unchanged block and nothing in `preds`. -/
def PredecessorRecord (F : Function) (index : BlockId → Nat) (F1 : Function)
    (preds : DenseMap BlockId Value) (b : BlockId) (blk : BasicBlock) : Prop :=
  (1 < (F.predecessors b).length →
    ∃ phi : Inst, F1.block b = some { insts := phi :: blk.insts } ∧
      preds.find b = some (Value.Inst phi.id) ∧ phi.id ∉ F.instIds ∧
      phi.name = "pred" ++ toString (index b) ∧ phi.type = LLType.integer 32 ∧
      phi.kind = InstKind.PHI ((F.predecessors b).map
        (fun p => (Value.ConstantInt 32 (index p % 2 ^ 32), p)))) ∧
  (∀ p, F.predecessors b = [p] →
    F1.block b = some blk ∧ preds.find b = some (Value.ConstantInt 32 (index p % 2 ^ 32))) ∧
  (F.predecessors b = [] → F1.block b = some blk ∧ preds.find b = none)

/-- The PHI-assignment formula of a predecessor witness pins the witness to the
predecessor: whenever block `b` has a recorded witness PHI and the translation of
that PHI for the edge from `p` is true under `sem`, the predecessor id that the
trace extractor reads from the model is the topological index of `p`. -/
def PredecessorWitnessesSound {E : Type} (F1 : Function) (topo : TopologicalSort)
    (preds : DenseMap BlockId Value) (tr : InstToExpr E) (sem : E → Bool)
    (valueMap : ValueToVariableMap) (model : Valuation) : Prop :=
  ∀ b ∈ topo, ∀ p ∈ F1.predecessors b,
    ∀ phi ∈ (F1.block b).bind (fun blk => blk.insts.head?),
      ∀ t ∈ (F1.block p).bind BasicBlock.getTerminator,
        preds.find b = some (Value.Inst phi.id) →
        sem (tr.transformPHI phi (t.successors.indexOf b) p) = true →
        predIdOf valueMap model (Value.Inst phi.id) = some (topo.indexOf p)

instance {E : Type} (F1 : Function) (topo : TopologicalSort)
    (preds : DenseMap BlockId Value) (tr : InstToExpr E) (sem : E → Bool)
    (valueMap : ValueToVariableMap) (model : Valuation) :
    Decidable (PredecessorWitnessesSound F1 topo preds tr sem valueMap model) := by
  unfold PredecessorWitnessesSound
  infer_instance

/-- The instructions of block `b` (none for a block that does not exist). -/
def Function.instsOf (F : Function) (b : BlockId) : List Inst :=
  match F.block b with
  | some blk => blk.insts
  | none => []

/-- The three user-visible outcomes of the specification (section 7). -/
def userVisibleOutcomes : List String :=
  ["Verification SUCCESSFUL.\n", "Verification FAILED.\n", "Verification INCONCLUSIVE.\n"]

/-! ## Example programs -/

/-- Modelled from the spec: the operand of a PHI translation, a bit-vector literal
for a constant and the variable of any other value. -/
def operandExpr (valueMap : ValueToVariableMap) (v : Value) : Expr :=
  match v with
  | .ConstantInt bits value => .BvLit value bits
  | _ =>
    match valueMap.find v with
    | some var => .VarRef var
    | none => .BoolLit false

/-- Modelled from the spec: the PHI-assignment formula on the edge from `fromBB`,
which equates the PHI's variable with the incoming value of that edge. -/
def phiFormula (valueMap : ValueToVariableMap) (phi : Inst) (fromBB : BlockId) : Expr :=
  match phi.incoming.find? (fun vb => vb.2 = fromBB) with
  | some (v, _) => .Eq (operandExpr valueMap (.Inst phi.id)) (operandExpr valueMap v)
  | none => .BoolLit false

/-- An instruction without type and debug location. -/
def mkInst (id : ValueId) (name : String) (kind : InstKind) : Inst :=
  { id := id, name := name, type := .other, kind := kind, debugLoc := none }

/-- A diamond: block 0 branches on `cmp` to blocks 2 and 3, which both jump to
block 1, and block 1 calls `__VERIFIER_error`. -/
def diamond : Function :=
  { blocks := [
      { insts := [mkInst 1 "cmp" .Other, mkInst 2 "" (.Terminator [2, 3])] },
      { insts := [mkInst 3 "" (.Call (some "__VERIFIER_error") []),
                  mkInst 4 "" (.Terminator [])] },
      { insts := [mkInst 5 "x" .Other, mkInst 6 "" (.Terminator [1])] },
      { insts := [mkInst 7 "" (.Terminator [1])] } ] }

/-- A topological order of `diamond`. -/
def diamondTopo : TopologicalSort := [0, 2, 3, 1]

/-- The variables of the values of `diamond`; instruction 8 is the PHI that the
predecessor identification inserts into block 1. -/
def diamondValueMap : ValueToVariableMap :=
  [(.Inst 1, ⟨"cmp"⟩), (.Inst 5, ⟨"x"⟩), (.Inst 8, ⟨"pred3"⟩), (.Other 100, ⟨"loc"⟩)]

/-- A translator for `diamond`: `cmp` is defined as `loc != 0`, the branch of
block 0 is guarded by `cmp` and by its negation. -/
def diamondTranslator : InstToExpr Expr :=
  { builder := CreateFoldingExprBuilder
    transform := fun inst =>
      if inst.id = 1 then .Eq (.VarRef ⟨"cmp"⟩) (.NotEq (.VarRef ⟨"loc"⟩) (.BvLit 0 32))
      else .BoolLit true
    transformTerminator := fun t succIdx =>
      if t.id = 2 then (if succIdx = 0 then .VarRef ⟨"cmp"⟩ else .Not (.VarRef ⟨"cmp"⟩))
      else .BoolLit true
    transformPHI := fun phi _ fromBB => phiFormula diamondValueMap phi fromBB }

/-- The function `diamond` after the predecessor identification. -/
def diamondWithPreds : Function :=
  (createPredecessorIdentifications diamond (topoBlockMap diamondTopo)).1

/-- The map `preds` of `diamond`. -/
def diamondPreds : DenseMap BlockId Value :=
  (createPredecessorIdentifications diamond (topoBlockMap diamondTopo)).2

/-- A model of the query of `diamond`: the run through block 2. -/
def diamondModel : Valuation :=
  [(⟨"cmp"⟩, .BoolLiteral true), (⟨"loc"⟩, .IntLiteral 32 5), (⟨"pred3"⟩, .IntLiteral 32 1)]

/-- The reachability formulas of `diamond` after the predecessor
identification. -/
def diamondReachability : List Expr :=
  ((encodeReachability diamondWithPreds diamondTopo diamondTranslator).map Prod.fst).getD []

/-- The query of the error block of `diamond` (block 1, at index 3 of the
topological order). -/
def diamondQuery : Expr := (diamondReachability[3]?).getD (.BoolLit false)

/-- A solver for the example queries: block 0 is `UNSAT`, the solver throws on
block 1, block 2 is `SAT` and every other block is unknown. -/
def exampleSolver (b : BlockId) (_ : Expr) : SolverOutcome :=
  match b with
  | 0 => .UNSAT
  | 1 => .runThrows "z3 exception"
  | 2 => .SAT []
  | _ => .UNKNOWN

/-- A trace writer for the examples. -/
def exampleWriter (_ : BlockId) (_ : Valuation) : List String := ["trace"]

/-- A function whose only block holds a definition `x`, a debug-value annotation
of `x`, a `gazer.inlined_global.write` of `x` to the global `g`, and a call of
`__VERIFIER_error`. -/
def annotatedFunction : Function :=
  { blocks := [
      { insts := [
          mkInst 1 "x" .Other,
          mkInst 2 "" (.DbgValue (some (.Inst 1)) (some "x")),
          mkInst 3 "" (.Call (some "gazer.inlined_global.write")
            [.MDValue (.Inst 1), .MDGlobal "g"]),
          mkInst 4 "" (.Call (some "__VERIFIER_error") []),
          mkInst 5 "" (.Terminator [])] } ] }

/-- The variable of `x` in `annotatedFunction`. -/
def annotatedValueMap : ValueToVariableMap := [(.Inst 1, ⟨"x"⟩)]

/-- The control-flow graph of `passbyref0_false`: the entry block reads `loc`,
compares it with zero and branches on `loc != 0` to block 1, which calls
`__VERIFIER_error`; block 2 returns. -/
def passbyref0 : Function :=
  { blocks := [
      { insts := [mkInst 1 "loc" .Other, mkInst 2 "cmp" .Other,
                  mkInst 3 "" (.Terminator [1, 2])] },
      { insts := [mkInst 4 "" (.Call (some "__VERIFIER_error") []),
                  mkInst 5 "" (.Terminator [])] },
      { insts := [mkInst 6 "" (.Terminator [])] } ] }

/-- The topological order of `passbyref0`. -/
def passbyref0Topo : TopologicalSort := [0, 1, 2]

/-- The variables of `passbyref0`. -/
def passbyref0ValueMap : ValueToVariableMap := [(.Inst 1, ⟨"loc"⟩), (.Inst 2, ⟨"cmp"⟩)]

/-- A function whose only block calls `gazer.error_code`. -/
def errorCodeFunction : Function :=
  { blocks := [
      { insts := [mkInst 1 "" (.Call (some "gazer.error_code") []),
                  mkInst 2 "" (.Terminator [])] } ] }

/-! ## Notions used to state the properties of the body cache and of the walk -/

section CacheNotions

variable {E : Type}

/-- The encoder of an edge without the body cache: as `encodeEdge`, with the
formula of the straight-line part of `fromBB` translated at every call. -/
def encodeEdgeUncached (F : Function) (tr : InstToExpr E) (fromBB toBB : BlockId) :
    Option E :=
  match F.block fromBB, F.block toBB with
  | some fromBlock, some toBlock =>
    match fromBlock.getTerminator with
    | none => none
    | some terminator =>
      let succIdx := terminator.successors.indexOf toBB
      if succIdx = terminator.getNumSuccessors then none
      else
        some (tr.builder.AndRange
          ([bodyFormula tr fromBlock] ++ [tr.transformTerminator terminator succIdx]
            ++ toBlock.untilFirstInsertionPt.map
              (fun it => tr.transformPHI it succIdx fromBB)))
  | _, _ => none

/-- A sequence of `encodeEdge` calls that share one body cache, each call on the
cache that the call before it left: the formulas returned, and the cache at the
end. -/
def encodeEdgeCalls (F : Function) (tr : InstToExpr E) :
    List (BlockId × BlockId) → DenseMap BlockId E → Option (List E × DenseMap BlockId E)
  | [], cache => some ([], cache)
  | (fromBB, toBB) :: rest, cache =>
    match encodeEdge F tr fromBB toBB cache with
    | none => none
    | some (e, cache1) =>
      match encodeEdgeCalls F tr rest cache1 with
      | none => none
      | some (es, cache2) => some (e :: es, cache2)

/-- The same sequence of calls on the encoder without the cache. -/
def encodeEdgeUncachedCalls (F : Function) (tr : InstToExpr E) :
    List (BlockId × BlockId) → Option (List E)
  | [] => some []
  | (fromBB, toBB) :: rest =>
    match encodeEdgeUncached F tr fromBB toBB with
    | none => none
    | some e =>
      match encodeEdgeUncachedCalls F tr rest with
      | none => none
      | some es => some (e :: es)

/-- The blocks whose straight-line part a sequence of `encodeEdge` calls
translates, in the order of the calls: a call translates `body(from)` exactly when
it finds no cache entry for `from` (the branch `cacheResult == cache.end()`). -/
def bodyTranslations (F : Function) (tr : InstToExpr E) :
    List (BlockId × BlockId) → DenseMap BlockId E → List BlockId
  | [], _ => []
  | (fromBB, toBB) :: rest, cache =>
    match encodeEdge F tr fromBB toBB cache with
    | none => []
    | some (_, cache1) =>
      (if (cache.find fromBB).isNone then [fromBB] else [])
        ++ bodyTranslations F tr rest cache1

end CacheNotions

/-- Every recorded predecessor value of a block at index `i` of the topological
order gives, as `predId`, an index strictly smaller than `i`. -/
def predecessorsDecrease (topo : TopologicalSort) (preds : DenseMap BlockId Value)
    (valueMap : ValueToVariableMap) (model : Valuation) : Bool :=
  (List.range topo.length).all fun i =>
    match topo[i]? with
    | none => true
    | some current =>
      match preds.find current with
      | none => true
      | some predValue =>
        match predIdOf valueMap model predValue with
        | none => false
        | some predId => decide (predId < i)

/-- A block with an indirect call `call void %fp()` followed by `ret`. -/
def indirectCallBlock : BasicBlock :=
  ⟨[⟨0, "", .other, .Call none [], none⟩, ⟨1, "", .other, .Terminator [], none⟩]⟩

/-- A block that calls `__VERIFIER_error` and then makes an indirect call. -/
def errorThenIndirectCallBlock : BasicBlock :=
  ⟨[⟨0, "", .other, .Call (some "__VERIFIER_error") [], none⟩,
    ⟨1, "", .other, .Call none [], none⟩, ⟨2, "", .other, .Terminator [], none⟩]⟩

/-! # The instruction translator (`src/LLVM/Automaton/InstToExpr.cpp`)

The translator works on a newer expression interface than the encoder above
(`BvType`, unbounded `IntType`, `FloatType`), so it has its own data model. An
expression is the tree of the builder calls that make it: `mExprBuilder.Add(a, b)`
is the node `Add` with the operands `a` and `b`, whatever a folding builder would
make of it. `llvm_unreachable`, failed `assert`s and failed casts are the result
`none`. -/

namespace Automaton

/-! ## Types, variables and expressions -/

/-- Floating-point formats (section 3 of the specification). -/
inductive FloatKind where
  | Half
  | Single
  | Double
  | Fp80
  | Quad
  | PPC_128
  deriving DecidableEq, Repr

/-- Modelled from the spec: the types of `gazer::Type` (section 3); the class is
declared in `gazer/Core/Type.h`, which is not part of the sources at hand. -/
inductive GazerType where
  | BoolType
  | IntType
  | BvType (width : Nat)
  | FloatType (kind : FloatKind)
  | ArrayType (index : GazerType) (element : GazerType)
  deriving DecidableEq, Repr

namespace GazerType

/-- Mirror of `isBoolType`. -/
def isBoolType : GazerType → Bool
  | .BoolType => true
  | _ => false

/-- Mirror of `isIntType`. -/
def isIntType : GazerType → Bool
  | .IntType => true
  | _ => false

/-- Mirror of `isBvType`. -/
def isBvType : GazerType → Bool
  | .BvType _ => true
  | _ => false

/-- Modelled from the spec: `isArithmetic`, true of the one arithmetic type of
section 3, the mathematical integers. -/
def isArithmetic : GazerType → Bool
  | .IntType => true
  | _ => false

end GazerType

/-- A variable of an automaton: a name and a type. -/
structure Variable where
  name : String
  type : GazerType
  deriving DecidableEq, Repr

/-- An `llvm::APFloat` as far as the translator and the NaN tests look at it: its
format, whether it is a NaN, and its bit pattern. -/
structure APFloat where
  semantics : FloatKind
  isNaN : Bool
  bits : Nat
  deriving DecidableEq, Repr

/-- Mirror of `llvm::APFloat::roundingMode`. -/
inductive RoundingMode where
  | rmNearestTiesToEven
  | rmTowardPositive
  | rmTowardNegative
  | rmTowardZero
  | rmNearestTiesToAway
  deriving DecidableEq, Repr

/-- Expression kinds with one operand. -/
inductive UnaryKind where
  | Not
  | FIsNan
  deriving DecidableEq, Repr

/-- Expression kinds with two operands. -/
inductive BinaryKind where
  | And | Or | Xor
  | Eq | NotEq
  | Add | Sub | Mul | Div | Mod
  | Lt | LtEq | Gt | GtEq
  | BvSDiv | BvUDiv | BvSRem | BvURem
  | Shl | LShr | AShr
  | BvAnd | BvOr | BvXor
  | BvULt | BvULtEq | BvUGt | BvUGtEq
  | BvSLt | BvSLtEq | BvSGt | BvSGtEq
  | FEq | FGt | FGtEq | FLt | FLtEq
  deriving DecidableEq, Repr

/-- Variadic expression kinds. -/
inductive NaryKind where
  | And
  | Or
  deriving DecidableEq, Repr

/-- Bit-vector casts to a target type. -/
inductive BvCastKind where
  | ZExt
  | SExt
  | Trunc
  deriving DecidableEq, Repr

/-- Floating-point arithmetic kinds, which carry a rounding mode. -/
inductive FpArithKind where
  | FAdd
  | FSub
  | FMul
  | FDiv
  deriving DecidableEq, Repr

/-- Casts from and to floating point, which carry a target type and a rounding
mode. -/
inductive FpCastKind where
  | FCast
  | SignedToFp
  | UnsignedToFp
  | FpToSigned
  | FpToUnsigned
  deriving DecidableEq, Repr

mutual
/-- Modelled from the spec: the expression kinds of section 3 that the translator
builds (the expression classes of `gazer/Core` are not part of the sources at
hand), as the tree of builder calls. -/
inductive Expr where
  | BoolLit (b : Bool)
  | IntLit (value : Int)
  | BvLit (value : Nat) (width : Nat)
  | FloatLit (value : APFloat)
  | Undef (type : GazerType)
  | VarRef (v : Variable)
  | Unary (kind : UnaryKind) (a : Expr)
  | Binary (kind : BinaryKind) (a b : Expr)
  | Select (cond a b : Expr)
  | Nary (kind : NaryKind) (ops : ExprList)
  | BvCast (kind : BvCastKind) (a : Expr) (type : GazerType)
  | FpArith (kind : FpArithKind) (a b : Expr) (rm : RoundingMode)
  | FpCast (kind : FpCastKind) (a : Expr) (type : GazerType) (rm : RoundingMode)
  deriving DecidableEq, Repr
/-- Operand lists of the variadic kinds. -/
inductive ExprList where
  | nil
  | cons (e : Expr) (es : ExprList)
  deriving DecidableEq, Repr
end

/-- The operand list of a sequence of expressions. -/
def ExprList.ofList : List Expr → ExprList
  | [] => .nil
  | e :: es => .cons e (ExprList.ofList es)

/-- Mirror of `Variable::getRefExpr`. -/
def Variable.getRefExpr (v : Variable) : Expr := .VarRef v

/-- Is the kind one whose result is Boolean (logic and comparisons). -/
def BinaryKind.isPredicate : BinaryKind → Bool
  | .And | .Or | .Xor | .Eq | .NotEq | .Lt | .LtEq | .Gt | .GtEq
  | .BvULt | .BvULtEq | .BvUGt | .BvUGtEq | .BvSLt | .BvSLtEq | .BvSGt | .BvSGtEq
  | .FEq | .FGt | .FGtEq | .FLt | .FLtEq => true
  | _ => false

/-- Modelled from the spec: `Expr::getType` (section 3: every node has a type).
Logic and comparisons are Boolean, a literal has the type of its value, a cast has
its target type, and the other operators have the type of their first value
operand. -/
def Expr.getType : Expr → GazerType
  | .BoolLit _ => .BoolType
  | .IntLit _ => .IntType
  | .BvLit _ width => .BvType width
  | .FloatLit value => .FloatType value.semantics
  | .Undef type => type
  | .VarRef v => v.type
  | .Unary _ _ => .BoolType
  | .Binary kind a _ => if kind.isPredicate then .BoolType else a.getType
  | .Select _ a _ => a.getType
  | .Nary _ _ => .BoolType
  | .BvCast _ _ type => type
  | .FpArith _ a _ _ => a.getType
  | .FpCast _ _ type _ => type

/-! ## The expression builder

Each builder method makes the node of its kind. -/

namespace mExprBuilder

/-- Mirror of `True()`. -/
abbrev True : Expr := .BoolLit true
/-- Mirror of `False()`. -/
abbrev False : Expr := .BoolLit false
/-- Mirror of `IntLit(value)`. -/
abbrev IntLit (value : Int) : Expr := .IntLit value
/-- Mirror of `BvLit(value, bits)`. -/
abbrev BvLit (value : Nat) (bits : Nat) : Expr := .BvLit value bits
/-- Mirror of `FloatLit(value)`. -/
abbrev FloatLit (value : APFloat) : Expr := .FloatLit value
/-- Mirror of `Undef(type)`. -/
abbrev Undef (type : GazerType) : Expr := .Undef type
/-- Mirror of `Not(a)`. -/
abbrev Not (a : Expr) : Expr := .Unary .Not a
/-- Mirror of `FIsNan(a)`. -/
abbrev FIsNan (a : Expr) : Expr := .Unary .FIsNan a
/-- Mirror of `And(a, b)`. -/
abbrev And (a b : Expr) : Expr := .Binary .And a b
/-- Mirror of `Or(a, b)`. -/
abbrev Or (a b : Expr) : Expr := .Binary .Or a b
/-- Mirror of `Or({...})` on an initializer list. -/
abbrev OrList (ops : List Expr) : Expr := .Nary .Or (ExprList.ofList ops)
/-- Mirror of `Xor(a, b)`. -/
abbrev Xor (a b : Expr) : Expr := .Binary .Xor a b
/-- Mirror of `Eq(a, b)`. -/
abbrev Eq (a b : Expr) : Expr := .Binary .Eq a b
/-- Mirror of `NotEq(a, b)`. -/
abbrev NotEq (a b : Expr) : Expr := .Binary .NotEq a b
/-- Mirror of `Select(cond, a, b)`. -/
abbrev Select (cond a b : Expr) : Expr := .Select cond a b
/-- Mirror of `Add(a, b)`. -/
abbrev Add (a b : Expr) : Expr := .Binary .Add a b
/-- Mirror of `Sub(a, b)`. -/
abbrev Sub (a b : Expr) : Expr := .Binary .Sub a b
/-- Mirror of `Mul(a, b)`. -/
abbrev Mul (a b : Expr) : Expr := .Binary .Mul a b
/-- Mirror of `Div(a, b)`. -/
abbrev Div (a b : Expr) : Expr := .Binary .Div a b
/-- Mirror of `Mod(a, b)`. -/
abbrev Mod (a b : Expr) : Expr := .Binary .Mod a b
/-- Mirror of `Lt(a, b)`. -/
abbrev Lt (a b : Expr) : Expr := .Binary .Lt a b
/-- Mirror of `LtEq(a, b)`. -/
abbrev LtEq (a b : Expr) : Expr := .Binary .LtEq a b
/-- Mirror of `Gt(a, b)`. -/
abbrev Gt (a b : Expr) : Expr := .Binary .Gt a b
/-- Mirror of `GtEq(a, b)`. -/
abbrev GtEq (a b : Expr) : Expr := .Binary .GtEq a b
/-- Mirror of `BvSDiv(a, b)`. -/
abbrev BvSDiv (a b : Expr) : Expr := .Binary .BvSDiv a b
/-- Mirror of `BvUDiv(a, b)`. -/
abbrev BvUDiv (a b : Expr) : Expr := .Binary .BvUDiv a b
/-- Mirror of `BvSRem(a, b)`. -/
abbrev BvSRem (a b : Expr) : Expr := .Binary .BvSRem a b
/-- Mirror of `BvURem(a, b)`. -/
abbrev BvURem (a b : Expr) : Expr := .Binary .BvURem a b
/-- Mirror of `Shl(a, b)`. -/
abbrev Shl (a b : Expr) : Expr := .Binary .Shl a b
/-- Mirror of `LShr(a, b)`. -/
abbrev LShr (a b : Expr) : Expr := .Binary .LShr a b
/-- Mirror of `AShr(a, b)`. -/
abbrev AShr (a b : Expr) : Expr := .Binary .AShr a b
/-- Mirror of `BvAnd(a, b)`. -/
abbrev BvAnd (a b : Expr) : Expr := .Binary .BvAnd a b
/-- Mirror of `BvOr(a, b)`. -/
abbrev BvOr (a b : Expr) : Expr := .Binary .BvOr a b
/-- Mirror of `BvXor(a, b)`. -/
abbrev BvXor (a b : Expr) : Expr := .Binary .BvXor a b
/-- Mirror of `BvULt(a, b)`. -/
abbrev BvULt (a b : Expr) : Expr := .Binary .BvULt a b
/-- Mirror of `BvULtEq(a, b)`. -/
abbrev BvULtEq (a b : Expr) : Expr := .Binary .BvULtEq a b
/-- Mirror of `BvUGt(a, b)`. -/
abbrev BvUGt (a b : Expr) : Expr := .Binary .BvUGt a b
/-- Mirror of `BvUGtEq(a, b)`. -/
abbrev BvUGtEq (a b : Expr) : Expr := .Binary .BvUGtEq a b
/-- Mirror of `BvSLt(a, b)`. -/
abbrev BvSLt (a b : Expr) : Expr := .Binary .BvSLt a b
/-- Mirror of `BvSLtEq(a, b)`. -/
abbrev BvSLtEq (a b : Expr) : Expr := .Binary .BvSLtEq a b
/-- Mirror of `BvSGt(a, b)`. -/
abbrev BvSGt (a b : Expr) : Expr := .Binary .BvSGt a b
/-- Mirror of `BvSGtEq(a, b)`. -/
abbrev BvSGtEq (a b : Expr) : Expr := .Binary .BvSGtEq a b
/-- Mirror of `FEq(a, b)`. -/
abbrev FEq (a b : Expr) : Expr := .Binary .FEq a b
/-- Mirror of `FGt(a, b)`. -/
abbrev FGt (a b : Expr) : Expr := .Binary .FGt a b
/-- Mirror of `FGtEq(a, b)`. -/
abbrev FGtEq (a b : Expr) : Expr := .Binary .FGtEq a b
/-- Mirror of `FLt(a, b)`. -/
abbrev FLt (a b : Expr) : Expr := .Binary .FLt a b
/-- Mirror of `FLtEq(a, b)`. -/
abbrev FLtEq (a b : Expr) : Expr := .Binary .FLtEq a b
/-- Mirror of `ZExt(a, type)`. -/
abbrev ZExt (a : Expr) (type : GazerType) : Expr := .BvCast .ZExt a type
/-- Mirror of `SExt(a, type)`. -/
abbrev SExt (a : Expr) (type : GazerType) : Expr := .BvCast .SExt a type
/-- Mirror of `Trunc(a, type)`. -/
abbrev Trunc (a : Expr) (type : GazerType) : Expr := .BvCast .Trunc a type
/-- Mirror of `FAdd(a, b, rm)`. -/
abbrev FAdd (a b : Expr) (rm : RoundingMode) : Expr := .FpArith .FAdd a b rm
/-- Mirror of `FSub(a, b, rm)`. -/
abbrev FSub (a b : Expr) (rm : RoundingMode) : Expr := .FpArith .FSub a b rm
/-- Mirror of `FMul(a, b, rm)`. -/
abbrev FMul (a b : Expr) (rm : RoundingMode) : Expr := .FpArith .FMul a b rm
/-- Mirror of `FDiv(a, b, rm)`. -/
abbrev FDiv (a b : Expr) (rm : RoundingMode) : Expr := .FpArith .FDiv a b rm
/-- Mirror of `FCast(a, type, rm)`. -/
abbrev FCast (a : Expr) (type : GazerType) (rm : RoundingMode) : Expr :=
  .FpCast .FCast a type rm
/-- Mirror of `SignedToFp(a, type, rm)`. -/
abbrev SignedToFp (a : Expr) (type : GazerType) (rm : RoundingMode) : Expr :=
  .FpCast .SignedToFp a type rm
/-- Mirror of `UnsignedToFp(a, type, rm)`. -/
abbrev UnsignedToFp (a : Expr) (type : GazerType) (rm : RoundingMode) : Expr :=
  .FpCast .UnsignedToFp a type rm
/-- Mirror of `FpToSigned(a, type, rm)`. -/
abbrev FpToSigned (a : Expr) (type : GazerType) (rm : RoundingMode) : Expr :=
  .FpCast .FpToSigned a type rm
/-- Mirror of `FpToUnsigned(a, type, rm)`. -/
abbrev FpToUnsigned (a : Expr) (type : GazerType) (rm : RoundingMode) : Expr :=
  .FpCast .FpToUnsigned a type rm

end mExprBuilder

/-! ## LLVM values and instructions (what the translator reads from the IR) -/

/-- An `llvm::Type` as far as the translator looks at it. -/
inductive LLVMType where
  | IntegerTy (bits : Nat)
  | FloatingPointTy (kind : FloatKind)
  | PointerTy
  | OtherTy
  deriving DecidableEq, Repr

namespace LLVMType

/-- Mirror of `isIntegerTy(bits)`. -/
def isIntegerTy (t : LLVMType) (bits : Nat) : Bool :=
  match t with
  | .IntegerTy b => b == bits
  | _ => false

/-- Mirror of `isFloatingPointTy`. -/
def isFloatingPointTy : LLVMType → Bool
  | .FloatingPointTy _ => true
  | _ => false

/-- Mirror of `isPointerTy`. -/
def isPointerTy : LLVMType → Bool
  | .PointerTy => true
  | _ => false

/-- Mirror of `getIntegerBitWidth`, which asserts that the type is an integer
type. -/
def getIntegerBitWidth : LLVMType → Option Nat
  | .IntegerTy b => some b
  | _ => none

end LLVMType

/-- The classes of `llvm::Value` that `operand` tells apart. A `ConstantInt` holds
the unsigned value of its `APInt`; instructions, arguments and global variables
are known by their identity. -/
inductive ValueKind where
  | ConstantInt (value : Nat)
  | ConstantFP (value : APFloat)
  | Instruction (id : Nat)
  | Argument (id : Nat)
  | GlobalVariable (id : Nat)
  | UndefValue
  | OtherConstant
  deriving DecidableEq, Repr

/-- An `llvm::Value`: its type and its class. -/
structure Value where
  type : LLVMType
  kind : ValueKind
  deriving DecidableEq, Repr

/-- Mirror of `llvm::Instruction::BinaryOps`. -/
inductive BinaryOps where
  | Add | FAdd | Sub | FSub | Mul | FMul | UDiv | SDiv | FDiv | URem | SRem | FRem
  | Shl | LShr | AShr | And | Or | Xor
  deriving DecidableEq, Repr

/-- Mirror of `llvm::Instruction::CastOps`. -/
inductive CastOps where
  | Trunc | ZExt | SExt | FPToUI | FPToSI | UIToFP | SIToFP | FPTrunc | FPExt
  | PtrToInt | IntToPtr | BitCast | AddrSpaceCast
  deriving DecidableEq, Repr

/-- Mirror of `llvm::CmpInst::Predicate`. -/
inductive Predicate where
  | FCMP_FALSE | FCMP_OEQ | FCMP_OGT | FCMP_OGE | FCMP_OLT | FCMP_OLE | FCMP_ONE
  | FCMP_ORD | FCMP_UNO | FCMP_UEQ | FCMP_UGT | FCMP_UGE | FCMP_ULT | FCMP_ULE
  | FCMP_UNE | FCMP_TRUE
  | ICMP_EQ | ICMP_NE | ICMP_UGT | ICMP_UGE | ICMP_ULT | ICMP_ULE
  | ICMP_SGT | ICMP_SGE | ICMP_SLT | ICMP_SLE
  deriving DecidableEq, Repr

namespace Predicate

/-- Mirror of `CmpInst::isOrdered`. -/
def isOrdered : Predicate → Bool
  | .FCMP_OEQ | .FCMP_ONE | .FCMP_OGT | .FCMP_OLT | .FCMP_OGE | .FCMP_OLE
  | .FCMP_ORD => true
  | _ => false

/-- Mirror of `CmpInst::isUnordered`. -/
def isUnordered : Predicate → Bool
  | .FCMP_UEQ | .FCMP_UNE | .FCMP_UGT | .FCMP_ULT | .FCMP_UGE | .FCMP_ULE
  | .FCMP_UNO => true
  | _ => false

/-- Mirror of `CmpInst::isUnsigned`. -/
def isUnsigned : Predicate → Bool
  | .ICMP_UGT | .ICMP_UGE | .ICMP_ULT | .ICMP_ULE => true
  | _ => false

end Predicate

/-- An `llvm::BinaryOperator`: its identity, result type, opcode and operands. -/
structure BinaryOperator where
  id : Nat
  type : LLVMType
  opcode : BinaryOps
  lhs : Value
  rhs : Value
  deriving DecidableEq, Repr

/-- An `llvm::CastInst`. -/
structure CastInst where
  id : Nat
  type : LLVMType
  opcode : CastOps
  op : Value
  deriving DecidableEq, Repr

/-- An `llvm::ICmpInst` or `llvm::FCmpInst`. -/
structure CmpInst where
  id : Nat
  predicate : Predicate
  lhs : Value
  rhs : Value
  deriving DecidableEq, Repr

/-- An `llvm::SelectInst`. -/
structure SelectInst where
  id : Nat
  type : LLVMType
  condition : Value
  trueValue : Value
  falseValue : Value
  deriving DecidableEq, Repr

/-- An `llvm::CallInst`: its result type and the called function, `none` for an
indirect call. -/
structure CallInst where
  id : Nat
  type : LLVMType
  calledFunction : Option String
  deriving DecidableEq, Repr

/-- An instruction that the memory model translates (load, alloca,
getelementptr). -/
structure MemoryInst where
  id : Nat
  type : LLVMType
  deriving DecidableEq, Repr

/-- The instruction as an `llvm::Value*`. -/
def BinaryOperator.toValue (i : BinaryOperator) : Value := ⟨i.type, .Instruction i.id⟩

/-- The instruction as an `llvm::Value*`. -/
def CastInst.toValue (i : CastInst) : Value := ⟨i.type, .Instruction i.id⟩

/-- The instruction as an `llvm::Value*`. -/
def SelectInst.toValue (i : SelectInst) : Value := ⟨i.type, .Instruction i.id⟩

/-- The instructions that `transform` dispatches on. -/
inductive Instruction where
  | BinaryOperator (i : BinaryOperator)
  | CastInst (i : CastInst)
  | GEPOperator (i : MemoryInst)
  | ICmpInst (i : CmpInst)
  | CallInst (i : CallInst)
  | FCmpInst (i : CmpInst)
  | SelectInst (i : SelectInst)
  | LoadInst (i : MemoryInst)
  | AllocaInst (i : MemoryInst)
  | Other
  deriving DecidableEq, Repr

/-! ## The translator's environment -/

/-- Mirror of `IntRepresentation`. -/
inductive IntRepresentation where
  | BitVectors
  | Integers
  deriving DecidableEq, Repr

/-- What `InstToExpr` holds and calls that `InstToExpr.cpp` does not define (the
class is declared in `gazer/LLVM/Automaton/InstToExpr.h`): the setting of the
integer representation, the lookup of the variable of a value (`none` when the
lookup fails), the lookup of an inlined value (`none` for a null result), and the
memory model. -/
structure Context where
  intRepresentation : IntRepresentation
  getVariable : Value → Option Variable
  lookupInlinedVariable : Value → Option Expr
  translateType : LLVMType → GazerType
  handlePointerValue : Value → Option Expr
  handlePointerCast : CastInst → Option Expr
  handleLoad : MemoryInst → Option Expr
  handleAlloca : MemoryInst → Option Expr
  handleGetElementPtr : MemoryInst → Option Expr

/-- Mirror of `translateTypeTo<FloatType>`: the translated type, which must be a
floating-point type. -/
def translateTypeToFloatType (ctx : Context) (type : LLVMType) : Option GazerType :=
  match ctx.translateType type with
  | .FloatType kind => some (.FloatType kind)
  | _ => none

/-- Mirror of `translateTypeTo<BvType>`: the translated type, which must be a
bit-vector type. -/
def translateTypeToBvType (ctx : Context) (type : LLVMType) : Option GazerType :=
  match ctx.translateType type with
  | .BvType width => some (.BvType width)
  | _ => none

/-! ## `llvm::APInt` helpers -/

/-- Mirror of `APInt::getMaxValue(numBits)`: the largest unsigned value of the
width. -/
def getMaxValue (numBits : Nat) : Nat := 2 ^ numBits - 1

/-- Mirror of `APInt::getZExtValue`, which asserts that the value fits in 64
bits. -/
def getZExtValue (value : Nat) : Option Nat :=
  if value < 2 ^ 64 then some value else none

/-- The signed reading of the unsigned value of an `APInt` of a given width. -/
def signedValue (bits : Nat) (value : Nat) : Int :=
  if 2 * (value % 2 ^ bits) ≥ 2 ^ bits then ((value % 2 ^ bits : Nat) : Int) - 2 ^ bits
  else ((value % 2 ^ bits : Nat) : Int)

/-- Mirror of `ConstantInt::getSExtValue`, which asserts that the signed value
fits in 64 bits. -/
def getSExtValue (bits : Nat) (value : Nat) : Option Int :=
  if -(2 ^ 63 : Int) ≤ signedValue bits value ∧ signedValue bits value < 2 ^ 63 then
    some (signedValue bits value)
  else none

/-- The value of `APInt{1, 1}.zext(width)`. -/
def one_zext (_width : Nat) : Nat := 1

/-- The value of `APInt{1, 1}.sext(width)`: all ones. -/
def one_sext (width : Nat) : Nat := 2 ^ width - 1

/-- The value of `APInt{1, 0}.zext(width)` and of `APInt{1, 0}.sext(width)`. -/
def zero_ext (_width : Nat) : Nat := 0

/-! ## Operands and coercions -/

/-- Mirror of `isNonConstValue`. -/
def isNonConstValue (value : Value) : Bool :=
  match value.kind with
  | .Instruction _ => true
  | .Argument _ => true
  | .GlobalVariable _ => true
  | _ => false

/-- Mirror of `InstToExpr::operand`. -/
def operand (ctx : Context) (value : Value) : Option Expr :=
  match value.kind with
  | .ConstantInt ci =>
    if value.type.isIntegerTy 1 then
      some (if ci = 0 then mExprBuilder.False else mExprBuilder.True)
    else
      match ctx.intRepresentation with
      | .BitVectors =>
        match value.type.getIntegerBitWidth with
        | some bits => some (mExprBuilder.BvLit (getLimitedValue ci) bits)
        | none => none
      | .Integers =>
        match value.type.getIntegerBitWidth with
        | some bits =>
          match getSExtValue bits ci with
          | some v => some (mExprBuilder.IntLit v)
          | none => none
        | none => none
  | .ConstantFP cfp => some (mExprBuilder.FloatLit cfp)
  | kind =>
    if value.type.isPointerTy then ctx.handlePointerValue value
    else if isNonConstValue value then
      match ctx.lookupInlinedVariable value with
      | some result => some result
      | none =>
        match ctx.getVariable value with
        | some v => some v.getRefExpr
        | none => none
    else
      match kind with
      | .UndefValue => some (mExprBuilder.Undef (ctx.translateType value.type))
      | _ => none

/-- Mirror of `InstToExpr::asBool`. -/
def asBool (operand : Expr) : Option Expr :=
  match operand.getType with
  | .BoolType => some operand
  | .BvType bits =>
    some (mExprBuilder.Select (mExprBuilder.Eq operand (mExprBuilder.BvLit 0 bits))
      mExprBuilder.False mExprBuilder.True)
  | .IntType =>
    some (mExprBuilder.Select (mExprBuilder.Eq operand (mExprBuilder.IntLit 0))
      mExprBuilder.False mExprBuilder.True)
  | _ => none

/-- Mirror of `InstToExpr::asBv`. -/
def asBv (operand : Expr) (bits : Nat) : Option Expr :=
  match operand.getType with
  | .BoolType =>
    some (mExprBuilder.Select operand (mExprBuilder.BvLit 1 bits) (mExprBuilder.BvLit 0 bits))
  | .BvType _ => some operand
  | _ => none

/-- Mirror of `InstToExpr::asInt`. -/
def asInt (operand : Expr) : Option Expr :=
  match operand.getType with
  | .BoolType =>
    some (mExprBuilder.Select operand (mExprBuilder.IntLit 1) (mExprBuilder.IntLit 0))
  | .IntType => some operand
  | _ => none

/-- Mirror of `InstToExpr::castResult`. -/
def castResult (expr : Expr) (type : GazerType) : Option Expr :=
  match type with
  | .BoolType => asBool expr
  | .BvType width => asBv expr width
  | .IntType => asInt expr
  | _ => none

/-! ## The translation functions -/

/-- Mirror of `isLogicInstruction`. -/
def isLogicInstruction (opcode : BinaryOps) : Bool :=
  opcode == .And || opcode == .Or || opcode == .Xor

/-- Mirror of `isFloatInstruction`. -/
def isFloatInstruction (opcode : BinaryOps) : Bool :=
  opcode == .FAdd || opcode == .FSub || opcode == .FMul || opcode == .FDiv

/-- Mirror of `InstToExpr::visitBinaryOperator`. The variable of the instruction
is looked up first and dereferenced only after the logic and the floating-point
branches. -/
def visitBinaryOperator (ctx : Context) (binop : BinaryOperator) : Option Expr :=
  match operand ctx binop.lhs, operand ctx binop.rhs with
  | some lhs, some rhs =>
    if isLogicInstruction binop.opcode && binop.type.isIntegerTy 1 then
      match asBool lhs, asBool rhs with
      | some boolLHS, some boolRHS =>
        match binop.opcode with
        | .And => some (mExprBuilder.And boolLHS boolRHS)
        | .Or => some (mExprBuilder.Or boolLHS boolRHS)
        | .Xor => some (mExprBuilder.Xor boolLHS boolRHS)
        | _ => none
      | _, _ => none
    else if isFloatInstruction binop.opcode then
      match binop.opcode with
      | .FAdd => some (mExprBuilder.FAdd lhs rhs .rmNearestTiesToEven)
      | .FSub => some (mExprBuilder.FSub lhs rhs .rmNearestTiesToEven)
      | .FMul => some (mExprBuilder.FMul lhs rhs .rmNearestTiesToEven)
      | .FDiv => some (mExprBuilder.FDiv lhs rhs .rmNearestTiesToEven)
      | _ => none
    else
      match ctx.getVariable binop.toValue with
      | none => none
      | some var =>
        match var.type with
        | .BvType width =>
          match asBv lhs width, asBv rhs width with
          | some intLHS, some intRHS =>
            match binop.opcode with
            | .Add => some (mExprBuilder.Add intLHS intRHS)
            | .Sub => some (mExprBuilder.Sub intLHS intRHS)
            | .Mul => some (mExprBuilder.Mul intLHS intRHS)
            | .SDiv => some (mExprBuilder.BvSDiv intLHS intRHS)
            | .UDiv => some (mExprBuilder.BvUDiv intLHS intRHS)
            | .SRem => some (mExprBuilder.BvSRem intLHS intRHS)
            | .URem => some (mExprBuilder.BvURem intLHS intRHS)
            | .Shl => some (mExprBuilder.Shl intLHS intRHS)
            | .LShr => some (mExprBuilder.LShr intLHS intRHS)
            | .AShr => some (mExprBuilder.AShr intLHS intRHS)
            | .And => some (mExprBuilder.BvAnd intLHS intRHS)
            | .Or => some (mExprBuilder.BvOr intLHS intRHS)
            | .Xor => some (mExprBuilder.BvXor intLHS intRHS)
            | _ => none
          | _, _ => none
        | .IntType =>
          match asInt lhs, asInt rhs with
          | some intLHS, some intRHS =>
            match binop.opcode with
            | .Add => some (mExprBuilder.Add intLHS intRHS)
            | .Sub => some (mExprBuilder.Sub intLHS intRHS)
            | .Mul => some (mExprBuilder.Mul intLHS intRHS)
            | .SDiv => some (mExprBuilder.Div intLHS intRHS)
            | .UDiv => some (mExprBuilder.Div intLHS intRHS)
            | .SRem => none
            | .URem => none
            | .Shl => some (mExprBuilder.Undef var.type)
            | .LShr => some (mExprBuilder.Undef var.type)
            | .AShr => some (mExprBuilder.Undef var.type)
            | .And => some (mExprBuilder.Undef var.type)
            | .Or => some (mExprBuilder.Undef var.type)
            | .Xor => some (mExprBuilder.Undef var.type)
            | _ => none
          | _, _ => none
        | _ => none
  | _, _ => none

/-- Mirror of `InstToExpr::visitSelectInst`. -/
def visitSelectInst (ctx : Context) (select : SelectInst) : Option Expr :=
  match ctx.getVariable select.toValue with
  | none => none
  | some selectVar =>
    match (operand ctx select.condition).bind asBool,
      (operand ctx select.trueValue).bind (fun e => castResult e selectVar.type),
      (operand ctx select.falseValue).bind (fun e => castResult e selectVar.type) with
    | some cond, some thenExpr, some elze => some (mExprBuilder.Select cond thenExpr elze)
    | _, _, _ => none

/-- Mirror of `InstToExpr::unsignedCompareOperand`. -/
def unsignedCompareOperand (expr : Expr) (width : Nat) : Option Expr :=
  match getZExtValue (getMaxValue width) with
  | none => none
  | some maxValue =>
    some (mExprBuilder.Select
      (mExprBuilder.Lt expr (mExprBuilder.IntLit 0))
      (mExprBuilder.Add (mExprBuilder.IntLit maxValue) expr)
      expr)

/-- Mirror of `InstToExpr::visitICmpInst`. -/
def visitICmpInst (ctx : Context) (icmp : CmpInst) : Option Expr :=
  match operand ctx icmp.lhs, operand ctx icmp.rhs with
  | some lhs, some rhs =>
    if icmp.predicate = .ICMP_EQ then some (mExprBuilder.Eq lhs rhs)
    else if icmp.predicate = .ICMP_NE then some (mExprBuilder.NotEq lhs rhs)
    else if lhs.getType.isBvType then
      match icmp.predicate with
      | .ICMP_UGT => some (mExprBuilder.BvUGt lhs rhs)
      | .ICMP_UGE => some (mExprBuilder.BvUGtEq lhs rhs)
      | .ICMP_ULT => some (mExprBuilder.BvULt lhs rhs)
      | .ICMP_ULE => some (mExprBuilder.BvULtEq lhs rhs)
      | .ICMP_SGT => some (mExprBuilder.BvSGt lhs rhs)
      | .ICMP_SGE => some (mExprBuilder.BvSGtEq lhs rhs)
      | .ICMP_SLT => some (mExprBuilder.BvSLt lhs rhs)
      | .ICMP_SLE => some (mExprBuilder.BvSLtEq lhs rhs)
      | _ => none
    else if lhs.getType.isArithmetic then
      match icmp.lhs.type.getIntegerBitWidth with
      | none => none
      | some bw =>
        let ops : Option (Expr × Expr) :=
          if icmp.predicate.isUnsigned then
            match unsignedCompareOperand lhs bw, unsignedCompareOperand rhs bw with
            | some leftOp, some rightOp => some (leftOp, rightOp)
            | _, _ => none
          else some (lhs, rhs)
        match ops with
        | none => none
        | some (leftOp, rightOp) =>
          match icmp.predicate with
          | .ICMP_UGT => some (mExprBuilder.Gt leftOp rightOp)
          | .ICMP_SGT => some (mExprBuilder.Gt leftOp rightOp)
          | .ICMP_UGE => some (mExprBuilder.GtEq leftOp rightOp)
          | .ICMP_SGE => some (mExprBuilder.GtEq leftOp rightOp)
          | .ICMP_ULT => some (mExprBuilder.Lt leftOp rightOp)
          | .ICMP_SLT => some (mExprBuilder.Lt leftOp rightOp)
          | .ICMP_ULE => some (mExprBuilder.LtEq leftOp rightOp)
          | .ICMP_SLE => some (mExprBuilder.LtEq leftOp rightOp)
          | _ => none
    else none
  | _, _ => none

/-- The first `switch` of `visitFCmpInst` (lines 281-309): the comparison
expression `cmpExpr`, `none` for a null pointer. -/
def fcmpCompareExpr (pred : Predicate) (left right : Expr) : Option Expr :=
  match pred with
  | .FCMP_OEQ => some (mExprBuilder.FEq left right)
  | .FCMP_UEQ => some (mExprBuilder.FEq left right)
  | .FCMP_OGT => some (mExprBuilder.FGt left right)
  | .FCMP_UGT => some (mExprBuilder.FGt left right)
  | .FCMP_OGE => some (mExprBuilder.FGtEq left right)
  | .FCMP_UGE => some (mExprBuilder.FGtEq left right)
  | .FCMP_OLT => some (mExprBuilder.FLt left right)
  | .FCMP_ULT => some (mExprBuilder.FLt left right)
  | .FCMP_OLE => some (mExprBuilder.FLtEq left right)
  | .FCMP_ULE => some (mExprBuilder.FLtEq left right)
  | .FCMP_ONE => some (mExprBuilder.Not (mExprBuilder.FEq left right))
  | .FCMP_UNE => some (mExprBuilder.Not (mExprBuilder.FEq left right))
  | _ => none

/-- Mirror of `InstToExpr::visitFCmpInst`. The result of the ordered and of the
unordered branch is built from `cmpExpr`, which is not null for the predicates that
reach these branches. -/
def visitFCmpInst (ctx : Context) (fcmp : CmpInst) : Option Expr :=
  match operand ctx fcmp.lhs, operand ctx fcmp.rhs with
  | some left, some right =>
    let pred := fcmp.predicate
    let cmpExpr := fcmpCompareExpr pred left right
    if pred = .FCMP_FALSE then some mExprBuilder.False
    else if pred = .FCMP_TRUE then some mExprBuilder.True
    else if pred = .FCMP_ORD then
      some (mExprBuilder.And
        (mExprBuilder.Not (mExprBuilder.FIsNan left))
        (mExprBuilder.Not (mExprBuilder.FIsNan right)))
    else if pred = .FCMP_UNO then
      some (mExprBuilder.Or (mExprBuilder.FIsNan left) (mExprBuilder.FIsNan right))
    else if pred.isOrdered then cmpExpr
    else if pred.isUnordered then
      match cmpExpr with
      | some cmp =>
        some (mExprBuilder.OrList
          [mExprBuilder.FIsNan left, mExprBuilder.FIsNan right, cmp])
      | none => none
    else none
  | _, _ => none

/-- Mirror of `InstToExpr::integerCast`. -/
def integerCast (ctx : Context) (cast : CastInst) (operand : Expr) (width : Nat) :
    Option Expr :=
  match ctx.getVariable cast.toValue with
  | none => none
  | some var =>
    match var.type with
    | .BvType w =>
      match asBv operand width with
      | none => none
      | some intOp =>
        match cast.opcode with
        | .ZExt => some (mExprBuilder.ZExt intOp (.BvType w))
        | .SExt => some (mExprBuilder.SExt intOp (.BvType w))
        | .Trunc => some (mExprBuilder.Trunc intOp (.BvType w))
        | _ => none
    | _ => none

/-- Mirror of `InstToExpr::boolToIntCast`. -/
def boolToIntCast (ctx : Context) (cast : CastInst) (operand : Expr) : Option Expr :=
  match ctx.getVariable cast.toValue with
  | none => none
  | some var =>
    match var.type with
    | .BvType width =>
      match cast.opcode with
      | .ZExt =>
        some (mExprBuilder.Select operand
          (mExprBuilder.BvLit (one_zext width) width)
          (mExprBuilder.BvLit (zero_ext width) width))
      | .SExt =>
        some (mExprBuilder.Select operand
          (mExprBuilder.BvLit (one_sext width) width)
          (mExprBuilder.BvLit (zero_ext width) width))
      | _ => none
    | .IntType =>
      match cast.opcode with
      | .ZExt =>
        some (mExprBuilder.Select operand (mExprBuilder.IntLit 1) (mExprBuilder.IntLit 0))
      | .SExt =>
        some (mExprBuilder.Select operand (mExprBuilder.IntLit (-1))
          (mExprBuilder.IntLit (-2)))
      | _ => none
    | _ => none

/-- The integer-mode translation of `trunc` in `visitCastInst` (lines 406-434). -/
def truncInt (cast : CastInst) (castOp : Expr) : Option Expr :=
  match cast.type.getIntegerBitWidth with
  | none => none
  | some bits =>
    match getZExtValue (getMaxValue bits), getZExtValue (getMaxValue (bits - 1)) with
    | some maxValue, some maxValueDiv2 =>
      let maxVal := mExprBuilder.IntLit maxValue
      let maxValDiv2 := mExprBuilder.IntLit maxValueDiv2
      let modVal := mExprBuilder.Mod castOp maxVal
      some (mExprBuilder.Select
        (mExprBuilder.Eq
          (mExprBuilder.Mod (mExprBuilder.Div castOp maxValDiv2) (mExprBuilder.IntLit 2))
          (mExprBuilder.IntLit 0))
        modVal
        (mExprBuilder.Sub modVal maxVal))
    | _, _ => none

/-- The test of lines 387-390: a `trunc` to `i1` whose variable is Boolean; `none`
when the variable lookup fails. -/
def isTruncToBool (ctx : Context) (cast : CastInst) : Option Bool :=
  if cast.type.isIntegerTy 1 && cast.opcode == .Trunc then
    match ctx.getVariable cast.toValue with
    | some var => some var.type.isBoolType
    | none => none
  else some false

/-- Lines 368-443 of `visitCastInst`: what follows the block of the casts with a
floating-point result. -/
def visitCastInstRest (ctx : Context) (cast : CastInst) (castOp : Expr) : Option Expr :=
  if cast.opcode = .FPToSI then
    match translateTypeToBvType ctx cast.type with
    | some bvTy => some (mExprBuilder.FpToSigned castOp bvTy .rmNearestTiesToEven)
    | none => none
  else if cast.opcode = .UIToFP then
    match translateTypeToBvType ctx cast.type with
    | some bvTy => some (mExprBuilder.FpToUnsigned castOp bvTy .rmNearestTiesToEven)
    | none => none
  else if cast.type.isPointerTy then ctx.handlePointerCast cast
  else if castOp.getType.isBoolType then boolToIntCast ctx cast castOp
  else
    match isTruncToBool ctx cast with
    | none => none
    | some true => asBool castOp
    | some false =>
      match castOp.getType with
      | .BvType width => integerCast ctx cast castOp width
      | .IntType =>
        if cast.opcode = .ZExt ∨ cast.opcode = .SExt then some castOp
        else if cast.opcode = .Trunc then truncInt cast castOp
        else some (mExprBuilder.Undef castOp.getType)
      | _ => none

/-- Mirror of `InstToExpr::visitCastInst`. -/
def visitCastInst (ctx : Context) (cast : CastInst) : Option Expr :=
  match operand ctx cast.op with
  | none => none
  | some castOp =>
    if cast.type.isFloatingPointTy then
      match translateTypeToFloatType ctx cast.type with
      | none => none
      | some fltTy =>
        match cast.opcode with
        | .FPExt => some (mExprBuilder.FCast castOp fltTy .rmNearestTiesToEven)
        | .FPTrunc => some (mExprBuilder.FCast castOp fltTy .rmNearestTiesToEven)
        | .SIToFP => some (mExprBuilder.SignedToFp castOp fltTy .rmNearestTiesToEven)
        | .UIToFP => some (mExprBuilder.UnsignedToFp castOp fltTy .rmNearestTiesToEven)
        | _ => visitCastInstRest ctx cast castOp
    else visitCastInstRest ctx cast castOp

/-- Mirror of `InstToExpr::visitCallInst`. -/
def visitCallInst (ctx : Context) (call : CallInst) : Option Expr :=
  match call.calledFunction with
  | none => some (mExprBuilder.Undef (ctx.translateType call.type))
  | some _ => some (mExprBuilder.Undef (ctx.translateType call.type))

/-- Mirror of `InstToExpr::visitLoadInst`. -/
def visitLoadInst (ctx : Context) (load : MemoryInst) : Option Expr := ctx.handleLoad load

/-- Mirror of `InstToExpr::visitAllocaInst`. -/
def visitAllocaInst (ctx : Context) (alloc : MemoryInst) : Option Expr :=
  ctx.handleAlloca alloc

/-- Mirror of `InstToExpr::visitGEPOperator`. -/
def visitGEPOperator (ctx : Context) (gep : MemoryInst) : Option Expr :=
  ctx.handleGetElementPtr gep

/-- Mirror of `InstToExpr::transform`. -/
def transform (ctx : Context) (inst : Instruction) : Option Expr :=
  match inst with
  | .BinaryOperator i => visitBinaryOperator ctx i
  | .CastInst i => visitCastInst ctx i
  | .GEPOperator i => visitGEPOperator ctx i
  | .ICmpInst i => visitICmpInst ctx i
  | .CallInst i => visitCallInst ctx i
  | .FCmpInst i => visitFCmpInst ctx i
  | .SelectInst i => visitSelectInst ctx i
  | .LoadInst i => visitLoadInst ctx i
  | .AllocaInst i => visitAllocaInst ctx i
  | .Other => none

/-! ## The value of an expression -/

/-- The values that expressions take. -/
inductive ExprValue where
  | Bool (b : Bool)
  | Int (value : Int)
  | Bv (width : Nat) (value : Nat)
  | Float (value : APFloat)
  deriving DecidableEq, Repr

/-- A valuation of the variables. -/
abbrev Valuation := Variable → Option ExprValue

/-- Modelled from the spec: the value of an operator with one operand: Boolean
negation, and the NaN test of a floating-point value. -/
def evalUnary (kind : UnaryKind) (a : Option ExprValue) : Option ExprValue :=
  match kind, a with
  | .Not, some (.Bool b) => some (.Bool !b)
  | .FIsNan, some (.Float f) => some (.Bool f.isNaN)
  | _, _ => none

/-- Modelled from the spec: the value of an operator with two operands, for the
Boolean connectives, equality, and the arithmetic and the comparisons of the
mathematical integers (section 3). Division and remainder are those of SMT-LIB
for a divisor that is not zero; every other case has no value here. -/
def evalBinary (kind : BinaryKind) (a b : Option ExprValue) : Option ExprValue :=
  match kind, a, b with
  | .And, some (.Bool x), some (.Bool y) => some (.Bool (x && y))
  | .Or, some (.Bool x), some (.Bool y) => some (.Bool (x || y))
  | .Xor, some (.Bool x), some (.Bool y) => some (.Bool (xor x y))
  | .Eq, some x, some y => some (.Bool (decide (x = y)))
  | .NotEq, some x, some y => some (.Bool (!decide (x = y)))
  | .Add, some (.Int x), some (.Int y) => some (.Int (x + y))
  | .Sub, some (.Int x), some (.Int y) => some (.Int (x - y))
  | .Mul, some (.Int x), some (.Int y) => some (.Int (x * y))
  | .Div, some (.Int x), some (.Int y) => if y = 0 then none else some (.Int (x / y))
  | .Mod, some (.Int x), some (.Int y) => if y = 0 then none else some (.Int (x % y))
  | .Lt, some (.Int x), some (.Int y) => some (.Bool (decide (x < y)))
  | .LtEq, some (.Int x), some (.Int y) => some (.Bool (decide (x ≤ y)))
  | .Gt, some (.Int x), some (.Int y) => some (.Bool (decide (x > y)))
  | .GtEq, some (.Int x), some (.Int y) => some (.Bool (decide (x ≥ y)))
  | _, _, _ => none

/-- Modelled from the spec: the value of a variadic connective over the values of
its operands. -/
def evalNary (kind : NaryKind) : List (Option ExprValue) → Option ExprValue
  | [] => some (.Bool (match kind with
    | .And => true
    | .Or => false))
  | some (.Bool x) :: rest =>
    match evalNary kind rest with
    | some (.Bool y) => some (.Bool (match kind with
      | .And => x && y
      | .Or => x || y))
    | _ => none
  | _ :: _ => none

mutual
/-- Modelled from the spec: the value of an expression under a valuation, for
literals, variables, the Boolean connectives, equality, `Select`, integer
arithmetic and the NaN test; `Undef` and the other kinds have no value here. -/
def Expr.eval (env : Valuation) : Expr → Option ExprValue
  | .BoolLit b => some (.Bool b)
  | .IntLit value => some (.Int value)
  | .BvLit value width => some (.Bv width value)
  | .FloatLit value => some (.Float value)
  | .Undef _ => none
  | .VarRef v => env v
  | .Unary kind a => evalUnary kind (a.eval env)
  | .Binary kind a b => evalBinary kind (a.eval env) (b.eval env)
  | .Select cond a b =>
    match cond.eval env with
    | some (.Bool true) => a.eval env
    | some (.Bool false) => b.eval env
    | _ => none
  | .Nary kind ops => evalNary kind (ops.evalList env)
  | .BvCast _ _ _ => none
  | .FpArith _ _ _ _ => none
  | .FpCast _ _ _ _ => none
/-- The values of the operands of a list. -/
def ExprList.evalList (env : Valuation) : ExprList → List (Option ExprValue)
  | .nil => []
  | .cons e es => e.eval env :: es.evalList env
end

/-! ## Example instructions -/

/-- The usual translation of the types: `i1` is Boolean, an integer type is a
bit-vector of its width or the mathematical integers according to the
representation, a floating-point type keeps its format. -/
def exampleTranslateType (rep : IntRepresentation) : LLVMType → GazerType
  | .IntegerTy bits =>
    if bits = 1 then .BoolType
    else
      match rep with
      | .BitVectors => .BvType bits
      | .Integers => .IntType
  | .FloatingPointTy kind => .FloatType kind
  | .PointerTy => .IntType
  | .OtherTy => .IntType

/-- A translator whose values have the listed variables, with no inlined value and
a memory model that translates nothing. -/
def exampleContext (rep : IntRepresentation) (vars : List (Value × Variable)) : Context where
  intRepresentation := rep
  getVariable := fun value => vars.lookup value
  lookupInlinedVariable := fun _ => none
  translateType := exampleTranslateType rep
  handlePointerValue := fun _ => none
  handlePointerCast := fun _ => none
  handleLoad := fun _ => none
  handleAlloca := fun _ => none
  handleGetElementPtr := fun _ => none

/-- The valuation that gives each listed variable its value. -/
def exampleValuation (values : List (Variable × ExprValue)) : Valuation :=
  fun v => values.lookup v

/-- The arguments `i8 %x` and `i8 %y`. -/
def argX8 : Value := ⟨.IntegerTy 8, .Argument 0⟩
def argY8 : Value := ⟨.IntegerTy 8, .Argument 1⟩

/-- Their variables in the integer representation. -/
def varX : Variable := ⟨"x", .IntType⟩
def varY : Variable := ⟨"y", .IntType⟩

/-- The translator of a function `(i8 %x, i8 %y)` in the integer representation. -/
def intCompareContext : Context := exampleContext .Integers [(argX8, varX), (argY8, varY)]

/-- The instruction `icmp ult i8 %x, %y`. -/
def icmpUltXY : CmpInst := ⟨2, .ICMP_ULT, argX8, argY8⟩

/-- The instruction `icmp ugt i8 -128, 127`; the constants hold the unsigned values
of their bit patterns. -/
def icmpUgtMinMax : CmpInst :=
  ⟨2, .ICMP_UGT, ⟨.IntegerTy 8, .ConstantInt 128⟩, ⟨.IntegerTy 8, .ConstantInt 127⟩⟩

/-- The argument `i6 %n` and its variable in the integer representation. -/
def argN6 : Value := ⟨.IntegerTy 6, .Argument 0⟩
def varN : Variable := ⟨"n", .IntType⟩

/-- The instruction `%t = trunc i6 %n to i4` and its variable. -/
def truncN6To4 : CastInst := ⟨1, .IntegerTy 4, .Trunc, argN6⟩
def varT : Variable := ⟨"t", .IntType⟩

/-- The translator of the function of `truncN6To4` in the integer representation. -/
def intTruncContext : Context :=
  exampleContext .Integers [(argN6, varN), (truncN6To4.toValue, varT)]

/-- The instruction `%e = sext i1 false to i32`. -/
def sextFalseTo32 : CastInst := ⟨1, .IntegerTy 32, .SExt, ⟨.IntegerTy 1, .ConstantInt 0⟩⟩

/-- The instruction `%e = sext i1 true to i32`. -/
def sextTrueTo32 : CastInst := ⟨1, .IntegerTy 32, .SExt, ⟨.IntegerTy 1, .ConstantInt 1⟩⟩

/-- The instruction `%e = zext i1 true to i32`. -/
def zextTrueTo32 : CastInst := ⟨1, .IntegerTy 32, .ZExt, ⟨.IntegerTy 1, .ConstantInt 1⟩⟩

/-- The translator of the function of the extensions of a Boolean to `i32`, in
either representation: the result `%e` is the only variable. -/
def boolExtContext (rep : IntRepresentation) : Context :=
  exampleContext rep [(sextFalseTo32.toValue, ⟨"e", exampleTranslateType rep (.IntegerTy 32)⟩)]

/-- The arguments `double %d` and `float %f` and their variables. -/
def argD : Value := ⟨.FloatingPointTy .Double, .Argument 0⟩
def argF : Value := ⟨.FloatingPointTy .Single, .Argument 1⟩
def varD : Variable := ⟨"d", .FloatType .Double⟩
def varF : Variable := ⟨"f", .FloatType .Single⟩

/-- The translator of a function `(double %d, float %f)` in the bit-vector
representation. -/
def floatContext : Context := exampleContext .BitVectors [(argD, varD), (argF, varF)]

/-- The instruction `fptoui double %d to i32`. -/
def fptouiD : CastInst := ⟨2, .IntegerTy 32, .FPToUI, argD⟩

/-- The argument `i32 %a` and its bit-vector variable. -/
def argA32 : Value := ⟨.IntegerTy 32, .Argument 0⟩
def varA : Variable := ⟨"a", .BvType 32⟩

/-- The instruction `%c = trunc i32 %a to i1` and its Boolean variable. -/
def truncA32To1 : CastInst := ⟨1, .IntegerTy 1, .Trunc, argA32⟩
def varC : Variable := ⟨"c", .BoolType⟩

/-- The translator of the function of `truncA32To1` in the bit-vector
representation. -/
def bvTruncContext : Context :=
  exampleContext .BitVectors [(argA32, varA), (truncA32To1.toValue, varC)]

/-- A quiet NaN and the number 1.0 in the `double` format. -/
def doubleNaN : APFloat := ⟨.Double, true, 0x7ff8000000000000⟩
def doubleOne : APFloat := ⟨.Double, false, 0x3ff0000000000000⟩

/-- The instruction `fcmp <pred> double NaN, 1.0`. -/
def fcmpNaNOne (pred : Predicate) : CmpInst :=
  ⟨0, pred, ⟨.FloatingPointTy .Double, .ConstantFP doubleNaN⟩,
    ⟨.FloatingPointTy .Double, .ConstantFP doubleOne⟩⟩

/-! ## Notions used to state the properties of the translator -/

/-- The replacement of an operand `x` of an unsigned comparison of width `w` as
the specification states it: `Select(x < 0, (2^w - 1) + x, x)`. -/
def unsignedOperandOf (x : Expr) (w : Nat) : Expr :=
  mExprBuilder.Select (mExprBuilder.Lt x (mExprBuilder.IntLit 0))
    (mExprBuilder.Add (mExprBuilder.IntLit (2 ^ w - 1)) x) x

/-- The value that an unsigned comparison of width `w` compares for an operand of
value `x`, as the specification states it: `(2^w - 1) + x` for a negative `x`, and
`x` otherwise. -/
def comparedValue (w : Nat) (x : Int) : Int := if x < 0 then (2 ^ w - 1) + x else x

/-- The value of an expression that the translator may fail to produce. -/
def valueOf (env : Valuation) (e : Option Expr) : Option ExprValue := e.bind (Expr.eval env)

/-- The value of `trunc` to the width `w` as the specification states it:
`m = x mod 2^w`, and `m - 2^w` when `(x / 2^(w-1)) mod 2 = 1`. -/
def specTruncValue (x : Int) (w : Nat) : Int :=
  if (x / 2 ^ (w - 1)) % 2 = 1 then x % 2 ^ w - 2 ^ w else x % 2 ^ w

/-- The signed two's-complement value of the low `w` bits of `x`. -/
def signedLowBits (x : Int) (w : Nat) : Int :=
  if x % 2 ^ w < 2 ^ (w - 1) then x % 2 ^ w else x % 2 ^ w - 2 ^ w

/-! ## The value of the floating-point comparisons -/

/-- The floating-point comparison kinds `FEq`, `FGt`, `FGtEq`, `FLt`, `FLtEq`. -/
def BinaryKind.isFloatComparison : BinaryKind → Bool
  | .FEq | .FGt | .FGtEq | .FLt | .FLtEq => true
  | _ => false

/-- A meaning of the floating-point comparisons: the truth value of a comparison
kind on two floating-point values. -/
abbrev FloatComparison := BinaryKind → APFloat → APFloat → Bool

/-- The assumption on the comparison operators that `visitFCmpInst` states: `FEq`,
`FGt`, `FGtEq`, `FLt` and `FLtEq` are false whenever either argument is a NaN. -/
def FalseOnNaN (cmp : FloatComparison) : Prop :=
  ∀ (kind : BinaryKind) (x y : APFloat), kind.isFloatComparison = true →
    x.isNaN = true ∨ y.isNaN = true → cmp kind x y = false

/-- Modelled from the spec: the value of an operator with two operands, where the
floating-point comparisons of two floating-point values have the given meaning and
every other case is that of `evalBinary`. -/
def evalBinaryWith (cmp : FloatComparison) (kind : BinaryKind)
    (a b : Option ExprValue) : Option ExprValue :=
  match a, b with
  | some (.Float x), some (.Float y) =>
    if kind.isFloatComparison then some (.Bool (cmp kind x y)) else evalBinary kind a b
  | _, _ => evalBinary kind a b

mutual
/-- Modelled from the spec: the value of an expression under a valuation and a
meaning of the floating-point comparisons; as `Expr.eval` on every other node. -/
def Expr.evalWith (cmp : FloatComparison) (env : Valuation) : Expr → Option ExprValue
  | .BoolLit b => some (.Bool b)
  | .IntLit value => some (.Int value)
  | .BvLit value width => some (.Bv width value)
  | .FloatLit value => some (.Float value)
  | .Undef _ => none
  | .VarRef v => env v
  | .Unary kind a => evalUnary kind (a.evalWith cmp env)
  | .Binary kind a b => evalBinaryWith cmp kind (a.evalWith cmp env) (b.evalWith cmp env)
  | .Select cond a b =>
    match cond.evalWith cmp env with
    | some (.Bool true) => a.evalWith cmp env
    | some (.Bool false) => b.evalWith cmp env
    | _ => none
  | .Nary kind ops => evalNary kind (ops.evalListWith cmp env)
  | .BvCast _ _ _ => none
  | .FpArith _ _ _ _ => none
  | .FpCast _ _ _ _ => none
/-- The values of the operands of a list. -/
def ExprList.evalListWith (cmp : FloatComparison) (env : Valuation) :
    ExprList → List (Option ExprValue)
  | .nil => []
  | .cons e es => e.evalWith cmp env :: es.evalListWith cmp env
end

/-- The value of an expression that the translator may fail to produce, under a
meaning of the floating-point comparisons. -/
def valueWith (cmp : FloatComparison) (env : Valuation) (e : Option Expr) :
    Option ExprValue :=
  e.bind (Expr.evalWith cmp env)

/-- A meaning of the comparisons for the examples: false when either value is a
NaN, and otherwise the comparison of the bit patterns, which is the comparison of
the values for non-negative numbers of one format. -/
def exampleFloatComparison : FloatComparison := fun kind x y =>
  !x.isNaN && !y.isNaN &&
    match kind with
    | .FEq => decide (x.bits = y.bits)
    | .FGt => decide (x.bits > y.bits)
    | .FGtEq => decide (x.bits ≥ y.bits)
    | .FLt => decide (x.bits < y.bits)
    | .FLtEq => decide (x.bits ≤ y.bits)
    | _ => false

/-! ## Further example instructions -/

/-- The arguments `i1 %p` and `i1 %q` and their Boolean variables. -/
def argP : Value := ⟨.IntegerTy 1, .Argument 0⟩
def argQ : Value := ⟨.IntegerTy 1, .Argument 1⟩
def varP : Variable := ⟨"p", .BoolType⟩
def varQ : Variable := ⟨"q", .BoolType⟩

/-- The translator of a function `(i1 %p, i1 %q)` in either representation. -/
def boolLogicContext (rep : IntRepresentation) : Context :=
  exampleContext rep [(argP, varP), (argQ, varQ)]

/-- The instruction `and i1 %p, %q`. -/
def andPQ : BinaryOperator := ⟨2, .IntegerTy 1, .And, argP, argQ⟩

/-- The arguments `i32 %x` and `i32 %y`, whose variables in the integer
representation are `varX` and `varY`. -/
def argX32 : Value := ⟨.IntegerTy 32, .Argument 0⟩
def argY32 : Value := ⟨.IntegerTy 32, .Argument 1⟩

/-- The instructions `%z = shl i32 %x, %y` and `%z = srem i32 %x, %y`, and the
integer variable of `%z`. -/
def shlXY : BinaryOperator := ⟨2, .IntegerTy 32, .Shl, argX32, argY32⟩
def sremXY : BinaryOperator := ⟨2, .IntegerTy 32, .SRem, argX32, argY32⟩
def varZ : Variable := ⟨"z", .IntType⟩

/-- The translator of a function `(i32 %x, i32 %y)` with the instruction `%z` in
the integer representation. -/
def intArithContext : Context :=
  exampleContext .Integers [(argX32, varX), (argY32, varY), (shlXY.toValue, varZ)]

/-- The argument `i32 %b` and its bit-vector variable. -/
def argB32 : Value := ⟨.IntegerTy 32, .Argument 1⟩
def varB : Variable := ⟨"b", .BvType 32⟩

/-- The instruction `%r = sdiv i32 %a, %b` and the bit-vector variable of `%r`. -/
def sdivAB : BinaryOperator := ⟨2, .IntegerTy 32, .SDiv, argA32, argB32⟩
def varR : Variable := ⟨"r", .BvType 32⟩

/-- The translator of a function `(i32 %a, i32 %b)` with the instruction `%r` in
the bit-vector representation. -/
def bvArithContext : Context :=
  exampleContext .BitVectors [(argA32, varA), (argB32, varB), (sdivAB.toValue, varR)]

/-- The instruction `icmp ult i32 %a, %b`. -/
def icmpUltAB : CmpInst := ⟨3, .ICMP_ULT, argA32, argB32⟩

/-- A call of the declared function `f` with the result type `i32`, and an
indirect call with the same result type. -/
def callF : CallInst := ⟨4, .IntegerTy 32, some "f"⟩
def callIndirect : CallInst := ⟨4, .IntegerTy 32, none⟩

/-- The constant `i128 18446744073709551616`, which is `2^64`. -/
def wideConstant : Value := ⟨.IntegerTy 128, .ConstantInt (2 ^ 64)⟩

/-- The constant `i8 -5`, whose bit pattern has the unsigned value 251. -/
def minusFive8 : Value := ⟨.IntegerTy 8, .ConstantInt 251⟩

/-! ## Notions used to state the properties of the coercions -/

/-- The types that `castResult` casts to: Boolean, bit-vector and integer. -/
def GazerType.isCastResultType (t : GazerType) : Bool :=
  t.isBoolType || t.isBvType || t.isIntType

/-! ## The CFA data model

The classes `Cfa`, `Location` and `AutomataSystem` are declared in
`gazer/Automaton/Cfa.h`, which is not part of the sources at hand; the test
`unittest/Automaton/CfaTest.cpp` calls them. -/

/-- Modelled from the spec: a `Location` of a CFA (`Cfa.h` is missing), known by
its stable integer id. -/
structure Location where
  id : Nat
  deriving DecidableEq, Repr

/-- Modelled from the spec: a CFA (the class `Cfa` of the missing `Cfa.h`), the
tuple of its locations in the order of their creation and of its input, output and
local variables, with the name that scopes its variables. -/
structure Cfa where
  name : String
  locations : List Location
  inputs : List Variable
  outputs : List Variable
  locals : List Variable
  deriving DecidableEq, Repr

/-- Modelled from the spec: `AutomataSystem::createCfa(name)` (missing): a CFA with
the entry location of id 0 and the exit location of id 1, and no variable. -/
def createCfa (name : String) : Cfa := ⟨name, [⟨0⟩, ⟨1⟩], [], [], []⟩

namespace Cfa

/-- Modelled from the spec: `getEntry` (missing), the location of id 0. -/
def getEntry (cfa : Cfa) : Option Location := cfa.locations[0]?

/-- Modelled from the spec: `getExit` (missing), the location of id 1. -/
def getExit (cfa : Cfa) : Option Location := cfa.locations[1]?

/-- Modelled from the spec: `getNumLocations` (missing). -/
def getNumLocations (cfa : Cfa) : Nat := cfa.locations.length

/-- Modelled from the spec: `getNumInputs` (missing). -/
def getNumInputs (cfa : Cfa) : Nat := cfa.inputs.length

/-- Modelled from the spec: `getNumOutputs` (missing). -/
def getNumOutputs (cfa : Cfa) : Nat := cfa.outputs.length

/-- Modelled from the spec: `getNumLocals` (missing). -/
def getNumLocals (cfa : Cfa) : Nat := cfa.locals.length

/-- Modelled from the spec: `createLocation` (missing): ids are dense and stable,
so the new location takes the next id; returns it with the CFA after the call. -/
def createLocation (cfa : Cfa) : Location × Cfa :=
  (⟨cfa.locations.length⟩,
    { cfa with locations := cfa.locations ++ [⟨cfa.locations.length⟩] })

/-- Modelled from the spec: the name of a variable of the CFA, rendered as
`<cfa>/<local>`. -/
def variableName (cfa : Cfa) (name : String) : String := cfa.name ++ "/" ++ name

/-- Modelled from the spec: whether a name is already used inside the CFA. -/
def isNameUsed (cfa : Cfa) (name : String) : Bool :=
  (cfa.inputs ++ cfa.locals).any (fun v => v.name == cfa.variableName name)

/-- Modelled from the spec: `createInput(name, type)` (missing): a new variable of
the CFA among its inputs; fails (`none`) when the name is reused inside the CFA. -/
def createInput (cfa : Cfa) (name : String) (type : GazerType) : Option (Variable × Cfa) :=
  if cfa.isNameUsed name then none
  else
    some (⟨cfa.variableName name, type⟩,
      { cfa with inputs := cfa.inputs ++ [⟨cfa.variableName name, type⟩] })

/-- Modelled from the spec: `createLocal(name, type)` (missing): a new variable of
the CFA among its locals; fails (`none`) when the name is reused inside the CFA. -/
def createLocal (cfa : Cfa) (name : String) (type : GazerType) : Option (Variable × Cfa) :=
  if cfa.isNameUsed name then none
  else
    some (⟨cfa.variableName name, type⟩,
      { cfa with locals := cfa.locals ++ [⟨cfa.variableName name, type⟩] })

/-- Modelled from the spec: `addOutput(variable)` (missing): the variable becomes
an output of the CFA. -/
def addOutput (cfa : Cfa) (v : Variable) : Cfa :=
  { cfa with outputs := cfa.outputs ++ [v] }

end Cfa

/-- The ids of the locations of a CFA are dense: the location at position `i` has
the id `i`. -/
def DenseIds (cfa : Cfa) : Prop :=
  cfa.locations.map Location.id = List.range cfa.getNumLocations

/-- The CFA of the test `CanCreateCfa` after its three `createLocation` calls. -/
def testCfaLocations : Cfa :=
  (createCfa "Test").createLocation.2.createLocation.2.createLocation.2

/-- The variables and the CFA of the test `CanCreateCfa` after
`createInput("in1")`, `createLocal("tmp")`, `createLocal("out1")` and
`addOutput(out1)`: `(in1, tmp, out1, cfa)`. -/
def testCfaVariables : Option (Variable × Variable × Variable × Cfa) :=
  match testCfaLocations.createInput "in1" .BoolType with
  | none => none
  | some (in1, cfa1) =>
    match cfa1.createLocal "tmp" .BoolType with
    | none => none
    | some (tmp, cfa2) =>
      match cfa2.createLocal "out1" .BoolType with
      | none => none
      | some (out1, cfa3) => some (in1, tmp, out1, cfa3.addOutput out1)

/-! ## `CfaGenInfo` (`src/LLVM/Automaton/FunctionToCfa.h`) -/

/-- A map from values to `Variable*`; `none` as a mapped value is the null
pointer. -/
abbrev VariableMap := DenseMap Value (Option Variable)

/-- Mirror of `lookup` of `llvm::MapVector` and `llvm::DenseMap`: the mapped
pointer, or the null pointer when the key is absent. -/
def lookupVariable (m : VariableMap) (value : Value) : Option Variable :=
  match DenseMap.find m value with
  | some pointer => pointer
  | none => none

/-- Mirror of `CfaGenInfo`, the maps that its member functions read and write. -/
structure CfaGenInfo where
  Inputs : VariableMap
  Outputs : VariableMap
  PhiInputs : VariableMap
  Locals : VariableMap

namespace CfaGenInfo

/-- Mirror of `addInput`. -/
def addInput (info : CfaGenInfo) (value : Value) (var : Option Variable) : CfaGenInfo :=
  { info with Inputs := DenseMap.set info.Inputs value var }

/-- Mirror of `addPhiInput`. -/
def addPhiInput (info : CfaGenInfo) (value : Value) (var : Option Variable) : CfaGenInfo :=
  { info with PhiInputs := DenseMap.set info.PhiInputs value var }

/-- Mirror of `addLocal`. -/
def addLocal (info : CfaGenInfo) (value : Value) (var : Option Variable) : CfaGenInfo :=
  { info with Locals := DenseMap.set info.Locals value var }

/-- Mirror of `findVariable`. -/
def findVariable (info : CfaGenInfo) (value : Value) : Option Variable :=
  match lookupVariable info.Inputs value with
  | some result => some result
  | none =>
    match lookupVariable info.PhiInputs value with
    | some result => some result
    | none =>
      match lookupVariable info.Locals value with
      | some result => some result
      | none => none

/-- Mirror of `findLocal`. -/
def findLocal (info : CfaGenInfo) (value : Value) : Option Variable :=
  lookupVariable info.Locals value

/-- Mirror of `hasInput`. -/
def hasInput (info : CfaGenInfo) (value : Value) : Bool :=
  (DenseMap.find info.Inputs value).isSome

/-- Mirror of `hasLocal`. -/
def hasLocal (info : CfaGenInfo) (value : Value) : Bool :=
  (DenseMap.find info.Locals value).isSome

end CfaGenInfo

end Automaton

/-! ## The test `passbyref0_false` (`test/memory/passbyref0_false.c`) -/

namespace Automaton

mutual
/-- The formula of the concrete expression layer for an expression of the
translator, for the kinds that this layer has: literals, variables, `Not`, `And`,
`Or`, `Eq` and `NotEq`; `none` for every other kind. -/
def Expr.toFormula : Expr → Option Gazer.Expr
  | .BoolLit b => some (.BoolLit b)
  | .BvLit value width => some (.BvLit value width)
  | .VarRef v => some (.VarRef ⟨v.name⟩)
  | .Unary kind a =>
    match kind, a.toFormula with
    | .Not, some x => some (.Not x)
    | _, _ => none
  | .Binary kind a b =>
    match kind, a.toFormula, b.toFormula with
    | .And, some x, some y => some (.And (.cons x (.cons y .nil)))
    | .Or, some x, some y => some (.Or (.cons x (.cons y .nil)))
    | .Eq, some x, some y => some (.Eq x y)
    | .NotEq, some x, some y => some (.NotEq x y)
    | _, _, _ => none
  | .Nary kind ops =>
    match kind, ops.toFormulas with
    | .And, some xs => some (.And xs)
    | .Or, some xs => some (.Or xs)
    | _, none => none
  | _ => none
/-- The formulas of the operands of a list. -/
def ExprList.toFormulas : ExprList → Option Gazer.ExprList
  | .nil => some .nil
  | .cons e es =>
    match e.toFormula, es.toFormulas with
    | some x, some xs => some (.cons x xs)
    | _, _ => none
end

/-- The value `i32 %loc` of `passbyref0`, the instruction 1 of its entry block, and
its 32-bit variable. -/
def passbyref0Loc : Value := ⟨.IntegerTy 32, .Instruction 1⟩
def passbyref0LocVariable : Variable := ⟨"loc", .BvType 32⟩

/-- The comparison of `passbyref0`, the instruction 2 of its entry block:
`%cmp = icmp ne i32 %loc, 0`, for the condition `loc != 0` of the test. -/
def passbyref0Compare : CmpInst := ⟨2, .ICMP_NE, passbyref0Loc, ⟨.IntegerTy 32, .ConstantInt 0⟩⟩

/-- The translator context of `passbyref0` in the bit-vector representation. -/
def passbyref0Context : Context :=
  exampleContext .BitVectors [(passbyref0Loc, passbyref0LocVariable)]

end Automaton

/-- Modelled from the spec: the translator for `passbyref0` (the translator of
`gazer/LLVM/Ir2Expr.h`, which `BmcPass.cpp` calls, is not part of the sources at
hand). The read of the symbolic `loc` puts no constraint on it; the comparison
defines `cmp` as the expression that `InstToExpr::visitICmpInst` of
`InstToExpr.cpp` returns for `icmp ne i32 %loc, 0`; the branch guard is `cmp` for
the first successor and its negation for the second (section 4.F); and a PHI node
is translated to its PHI-assignment formula. -/
def passbyref0Translator : InstToExpr Expr :=
  { builder := CreateFoldingExprBuilder
    transform := fun inst =>
      if inst.id = 2 then
        match (Automaton.visitICmpInst Automaton.passbyref0Context
            Automaton.passbyref0Compare).bind Automaton.Expr.toFormula with
        | some e => .Eq (.VarRef ⟨"cmp"⟩) e
        | none => .BoolLit false
      else .BoolLit true
    transformTerminator := fun t succIdx =>
      if t.id = 3 then (if succIdx = 0 then .VarRef ⟨"cmp"⟩ else .Not (.VarRef ⟨"cmp"⟩))
      else .BoolLit true
    transformPHI := fun phi _ fromBB => phiFormula passbyref0ValueMap phi fromBB }

/-- The query of the error block of `passbyref0`: the conjunction of the body
formula of the entry block, `cmp = (loc != 0)`, and the branch guard `cmp`. -/
def passbyref0Query : Expr :=
  .And (.cons
    (.And (.cons (.BoolLit true)
      (.cons (.Eq (.VarRef ⟨"cmp"⟩) (.NotEq (.VarRef ⟨"loc"⟩) (.BvLit 0 32))) .nil)))
    (.cons (.VarRef ⟨"cmp"⟩) .nil))

/-- The sorts of the values of a model: Boolean, or bit-vector of a width. -/
inductive LiteralSort where
  | Bool
  | Bv (width : Nat)
  deriving DecidableEq, Repr

/-- The literal is a value of the sort: a Boolean literal for `Bool`, an integer
literal of the width `w` with a value below `2^w` for `Bv w`. -/
def LiteralExpr.hasSort : LiteralExpr → LiteralSort → Bool
  | .BoolLiteral _, .Bool => true
  | .IntLiteral bits value, .Bv width => bits == width && decide (value < 2 ^ width)
  | _, _ => false

/-- The valuation gives every declared variable a value of its sort. -/
def respectsSorts (sorts : List (Variable × LiteralSort)) (M : Valuation) : Bool :=
  sorts.all fun d =>
    match DenseMap.find M d.1 with
    | some value => value.hasSort d.2
    | none => false

/-- The valuation satisfies the formula over the declared variables: it gives each
of them a value of its sort, and the formula is true under it. -/
def satisfies (sorts : List (Variable × LiteralSort)) (M : Valuation) (e : Expr) : Bool :=
  respectsSorts sorts M && Expr.holds M e

/-- The variables of the query of `passbyref0`: the 32-bit `loc` and the Boolean
`cmp`. -/
def passbyref0Sorts : List (Variable × LiteralSort) := [(⟨"loc"⟩, .Bv 32), (⟨"cmp"⟩, .Bool)]

/-- The valuation of `passbyref0` with `cmp` true and `loc` the 32-bit value `v`. -/
def passbyref0Model (v : Nat) : Valuation :=
  [(⟨"cmp"⟩, .BoolLiteral true), (⟨"loc"⟩, .IntLiteral 32 v)]

/-! # Theorems -/

/-! ## Maps -/

namespace DenseMap

variable {K V : Type} [DecidableEq K]

theorem find_nil (k : K) : DenseMap.find ([] : DenseMap K V) k = none := rfl

theorem find_cons (k k1 : K) (v : V) (m : DenseMap K V) :
    DenseMap.find ((k1, v) :: m) k = if k = k1 then some v else DenseMap.find m k := by
  unfold DenseMap.find
  rw [List.lookup_cons]
  by_cases h : k = k1
  · simp [h]
  · have : (k == k1) = false := by simpa using h
    simp [this, h]

theorem find_append (m1 m2 : DenseMap K V) (k : K) :
    DenseMap.find (m1 ++ m2) k =
      match DenseMap.find m1 k with
      | some v => some v
      | none => DenseMap.find m2 k := by
  induction m1 with
  | nil => simp [find_nil]
  | cons kv m ih =>
    obtain ⟨k1, v⟩ := kv
    rw [List.cons_append, find_cons, find_cons]
    by_cases h : k = k1
    · simp [h]
    · simp [h, ih]

theorem find_insert (m : DenseMap K V) (k k1 : K) (v : V) :
    (m.insert k1 v).find k =
      match m.find k with
      | some x => some x
      | none => if k = k1 then some v else none := by
  unfold DenseMap.insert
  cases h1 : m.find k1 with
  | some x =>
    simp only
    cases h : m.find k with
    | some y => rfl
    | none =>
      have : k ≠ k1 := by
        intro hk
        rw [hk, h1] at h
        cases h
      simp [this]
  | none =>
    simp only
    rw [find_append, find_cons, find_nil]

theorem find_set (m : DenseMap K V) (k k1 : K) (v : V) :
    (m.set k1 v).find k = if k = k1 then some v else m.find k := by
  unfold DenseMap.set
  cases h1 : m.find k1 with
  | some x =>
    simp only
    induction m with
    | nil => simp [find_nil] at h1
    | cons kv m ih =>
      obtain ⟨k2, v2⟩ := kv
      rw [find_cons] at h1
      rw [List.map_cons]
      by_cases h2 : k2 = k1
      · simp only [h2, if_true, find_cons]
        by_cases hk : k = k1
        · simp [hk]
        · simp only [hk, if_false]
          clear ih h1
          induction m with
          | nil => rfl
          | cons kv3 m ih3 =>
            obtain ⟨k3, v3⟩ := kv3
            rw [List.map_cons]
            by_cases h3 : k3 = k1
            · simp [h3, find_cons, hk, ih3]
            · simp only [h3, if_false, find_cons, ih3]
      · have h21 : ¬ k1 = k2 := fun h => h2 h.symm
        simp only [h21, if_false] at h1
        simp only [h2, if_false, find_cons, ih h1]
        by_cases hk : k = k1
        · simp [hk, h21]
        · simp [hk]
  | none =>
    simp only
    rw [find_append, find_cons, find_nil]
    by_cases hk : k = k1
    · simp [hk, h1]
    · simp only [hk, if_false]
      cases m.find k <;> rfl

end DenseMap

/-! ## The control-flow graph -/

theorem mem_predecessors {F : Function} {b p : BlockId} :
    p ∈ F.predecessors b ↔ p < F.blocks.length ∧ b ∈ F.successors p := by
  unfold Function.predecessors
  simp only [List.mem_flatMap, List.mem_range, List.mem_map, List.mem_filter, decide_eq_true_eq]
  constructor
  · rintro ⟨a, ha, s, ⟨hs, rfl⟩, rfl⟩
    exact ⟨ha, hs⟩
  · rintro ⟨hp, hb⟩
    exact ⟨p, hp, b, ⟨hb, rfl⟩, rfl⟩

theorem successors_terminator {F : Function} {b p : BlockId} (h : b ∈ F.successors p) :
    ∃ blk t, F.block p = some blk ∧ blk.getTerminator = some t ∧ b ∈ t.successors := by
  unfold Function.successors at h
  cases hb : F.block p with
  | none => simp [hb] at h
  | some blk =>
    cases ht : blk.getTerminator with
    | none => simp [hb, ht] at h
    | some t =>
      simp only [hb, ht] at h
      exact ⟨blk, t, rfl, ht, h⟩

theorem block_of_lt {F : Function} {b : BlockId} (h : b < F.blocks.length) :
    ∃ blk, F.block b = some blk := by
  unfold Function.block
  exact ⟨F.blocks[b], List.getElem?_eq_getElem h⟩

/-! ## The topological numbering -/

section Topo

variable {F : Function} {topo : TopologicalSort}

theorem TopologicalOrder.length_eq (h : TopologicalOrder F topo) :
    topo.length = F.blocks.length := by
  have := h.1.length_eq
  simpa using this

theorem TopologicalOrder.nodup (h : TopologicalOrder F topo) : topo.Nodup :=
  (h.1.nodup_iff).2 (List.nodup_range _)

theorem TopologicalOrder.mem_iff (h : TopologicalOrder F topo) {b : BlockId} :
    b ∈ topo ↔ b < F.blocks.length := by
  rw [h.1.mem_iff, List.mem_range]

theorem TopologicalOrder.indexOf_of_getElem? (h : TopologicalOrder F topo) {i : Nat}
    {b : BlockId} (hb : topo[i]? = some b) : topo.indexOf b = i := by
  obtain ⟨hi, rfl⟩ := List.getElem?_eq_some_iff.1 hb
  exact List.indexOf_getElem h.nodup i hi

theorem getElem?_indexOf {b : BlockId} (hb : b ∈ topo) : topo[topo.indexOf b]? = some b := by
  have hlt : topo.indexOf b < topo.length := List.indexOf_lt_length.2 hb
  rw [List.getElem?_eq_getElem hlt, List.getElem_indexOf hlt]

theorem TopologicalOrder.getElem?_lt (h : TopologicalOrder F topo) {i : Nat}
    (hi : i < F.blocks.length) : ∃ b, topo[i]? = some b ∧ b < F.blocks.length := by
  have hi1 : i < topo.length := by rw [h.length_eq]; exact hi
  refine ⟨topo[i], List.getElem?_eq_getElem hi1, ?_⟩
  exact h.mem_iff.1 (List.getElem_mem hi1)

theorem TopologicalOrder.pred_lt (h : TopologicalOrder F topo) {i : Nat} {b p : BlockId}
    (hb : topo[i]? = some b) (hp : p ∈ F.predecessors b) : topo.indexOf p < i := by
  have hmem : b ∈ topo := by
    obtain ⟨hi, rfl⟩ := List.getElem?_eq_some_iff.1 hb
    exact List.getElem_mem hi
  have := h.2.2 b hmem p hp
  rwa [h.indexOf_of_getElem? hb] at this

theorem TopologicalOrder.pred_mem (h : TopologicalOrder F topo) {b p : BlockId}
    (hp : p ∈ F.predecessors b) : p ∈ topo :=
  h.mem_iff.2 (mem_predecessors.1 hp).1

end Topo

/-! ## The map `blocks` -/

theorem buildBlockMap_spec (topo : TopologicalSort) :
    ∀ (is : List Nat) (m : DenseMap BlockId Nat), (∀ i ∈ is, i < topo.length) →
      ∃ m1, buildBlockMap topo is m = some m1 ∧
        (∀ b j, m1.find b = some j → m.find b = some j ∨ topo[j]? = some b) ∧
        (∀ b j, m.find b = some j → m1.find b = some j) ∧
        (∀ i ∈ is, ∀ b, topo[i]? = some b → ∃ j, m1.find b = some j) := by
  intro is
  induction is with
  | nil =>
    intro m _
    exact ⟨m, rfl, fun b j h => Or.inl h, fun b j h => h, by simp⟩
  | cons i rest ih =>
    intro m hlt
    have hi : i < topo.length := hlt i (List.mem_cons_self _ _)
    have hget : topo[i]? = some topo[i] := List.getElem?_eq_getElem hi
    obtain ⟨m1, hm1, h1, h2, h3⟩ := ih (m.insert topo[i] i)
      (fun j hj => hlt j (List.mem_cons_of_mem _ hj))
    refine ⟨m1, ?_, ?_, ?_, ?_⟩
    · simp only [buildBlockMap, hget]
      exact hm1
    · intro b j hbj
      rcases h1 b j hbj with h | h
      · rw [DenseMap.find_insert] at h
        cases hm : m.find b with
        | some x =>
          rw [hm] at h
          exact Or.inl h
        | none =>
          rw [hm] at h
          simp only at h
          by_cases hb : b = topo[i]
          · simp only [hb, if_true, Option.some.injEq] at h
            right
            rw [← h, hb]
            exact hget
          · simp [hb] at h
      · exact Or.inr h
    · intro b j hbj
      apply h2
      rw [DenseMap.find_insert, hbj]
    · intro i1 hi1 b hb
      rcases List.mem_cons.1 hi1 with rfl | hmem
      · rw [hget] at hb
        cases hb
        cases hm : m.find topo[i1] with
        | some x =>
          exact ⟨x, h2 _ _ (by rw [DenseMap.find_insert, hm])⟩
        | none =>
          exact ⟨i1, h2 _ _ (by rw [DenseMap.find_insert, hm]; simp)⟩
      · exact h3 i1 hmem b hb

theorem buildBlockMap_find {F : Function} {topo : TopologicalSort}
    (h : TopologicalOrder F topo) :
    ∃ blocks, buildBlockMap topo (List.range F.blocks.length) [] = some blocks ∧
      ∀ b, b < F.blocks.length → blocks.find b = some (topo.indexOf b) := by
  obtain ⟨m1, hm1, h1, _, h3⟩ := buildBlockMap_spec topo (List.range F.blocks.length) []
    (fun i hi => by rw [h.length_eq]; exact List.mem_range.1 hi)
  refine ⟨m1, hm1, ?_⟩
  intro b hb
  have hmem : b ∈ topo := h.mem_iff.2 hb
  have hidx : topo.indexOf b < F.blocks.length := by
    rw [← h.length_eq]
    exact List.indexOf_lt_length.2 hmem
  obtain ⟨j, hj⟩ := h3 (topo.indexOf b) (List.mem_range.2 hidx) b (getElem?_indexOf hmem)
  rcases h1 b j hj with hnil | hget
  · simp [DenseMap.find_nil] at hnil
  · rw [hj, h.indexOf_of_getElem? hget]

/-! ## `encodeEdge` -/

section EdgeLemmas

variable {E : Type}

theorem CacheCoherent.nil (F : Function) (tr : InstToExpr E) : CacheCoherent F tr [] := by
  intro b e h
  simp [DenseMap.find_nil] at h

theorem encodeEdge_eq {F : Function} {tr : InstToExpr E} {p b : BlockId}
    {pb bb : BasicBlock} {t : Inst} (hp : F.block p = some pb) (hb : F.block b = some bb)
    (ht : pb.getTerminator = some t) (hs : b ∈ t.successors)
    (cache : DenseMap BlockId E) (hc : CacheCoherent F tr cache) :
    ∃ cache1, encodeEdge F tr p b cache
        = some (tr.builder.AndRange (edgeOperands tr pb bb t p b), cache1) ∧
      CacheCoherent F tr cache1 ∧
      (cache1 = cache ∨ (cache.find p = none ∧ cache1 = cache.set p (bodyFormula tr pb))) := by
  have hidx : ¬ (t.successors.indexOf b = t.getNumSuccessors) := by
    have := List.indexOf_lt_length.2 hs
    unfold Inst.getNumSuccessors
    omega
  unfold encodeEdge
  simp only [hp, hb, ht, hidx, if_false]
  cases hf : cache.find p with
  | none =>
    refine ⟨cache.set p (bodyFormula tr pb), ?_, ?_, Or.inr ⟨rfl, rfl⟩⟩
    · simp [edgeOperands]
    · intro b1 e1 h1
      rw [DenseMap.find_set] at h1
      by_cases hb1 : b1 = p
      · simp only [hb1, if_true, Option.some.injEq] at h1
        exact ⟨pb, by rw [hb1]; exact hp, h1.symm⟩
      · simp only [hb1, if_false] at h1
        exact hc b1 e1 h1
  | some e =>
    obtain ⟨blk, hblk, he⟩ := hc p e hf
    rw [hp] at hblk
    cases hblk
    refine ⟨cache, ?_, hc, Or.inl rfl⟩
    simp [edgeOperands, he]

theorem edgeFormula_eq {F : Function} {tr : InstToExpr E} {p b : BlockId}
    {pb bb : BasicBlock} {t : Inst} (hp : F.block p = some pb) (hb : F.block b = some bb)
    (ht : pb.getTerminator = some t) (hs : b ∈ t.successors) :
    edgeFormula F tr p b = some (tr.builder.AndRange (edgeOperands tr pb bb t p b)) := by
  obtain ⟨c, hc, _⟩ := encodeEdge_eq hp hb ht hs [] (CacheCoherent.nil F tr)
  unfold edgeFormula
  rw [hc]
  rfl

theorem edgeFormula_of_pred {F : Function} (tr : InstToExpr E) {p b : BlockId}
    (hp : p ∈ F.predecessors b) (hb : b < F.blocks.length) :
    ∃ pb bb t, F.block p = some pb ∧ F.block b = some bb ∧ pb.getTerminator = some t ∧
      b ∈ t.successors ∧
      edgeFormula F tr p b = some (tr.builder.AndRange (edgeOperands tr pb bb t p b)) := by
  obtain ⟨pb, t, hpb, ht, hs⟩ := successors_terminator (mem_predecessors.1 hp).2
  obtain ⟨bb, hbb⟩ := block_of_lt hb
  exact ⟨pb, bb, t, hpb, hbb, ht, hs, edgeFormula_eq hpb hbb ht hs⟩

theorem encodeEdge_of_pred {F : Function} (tr : InstToExpr E) {p b : BlockId}
    (hp : p ∈ F.predecessors b) (hb : b < F.blocks.length)
    (cache : DenseMap BlockId E) (hc : CacheCoherent F tr cache) :
    ∃ e cache1, encodeEdge F tr p b cache = some (e, cache1) ∧
      edgeFormula F tr p b = some e ∧ CacheCoherent F tr cache1 := by
  obtain ⟨pb, bb, t, hpb, hbb, ht, hs, he⟩ := edgeFormula_of_pred tr hp hb
  obtain ⟨c, hc1, hc2, _⟩ := encodeEdge_eq hpb hbb ht hs cache hc
  exact ⟨_, c, hc1, he, hc2⟩

end EdgeLemmas

/-! ## The reachability recurrence -/

section ReachabilityLemmas

variable {E : Type}

theorem contributions_congr [DecidableEq E] {F : Function} {topo : TopologicalSort}
    {tr : InstToExpr E} {dp dp1 : List E} {b : BlockId}
    (h : ∀ p ∈ F.predecessors b, dp1[topo.indexOf p]? = dp[topo.indexOf p]?) :
    contributions F topo tr dp1 b = contributions F topo tr dp b := by
  unfold contributions
  apply List.filterMap_congr
  intro p hp
  unfold contribution
  rw [h p hp]

theorem encodePredecessors_spec [DecidableEq E] {F : Function} {topo : TopologicalSort}
    {tr : InstToExpr E} (hT : TopologicalOrder F topo) {blocks : DenseMap BlockId Nat}
    (hblocks : ∀ b, b < F.blocks.length → blocks.find b = some (topo.indexOf b))
    {dp : List E} (hlen : dp.length = F.blocks.length) {i : Nat} {b : BlockId}
    (hb : topo[i]? = some b) :
    ∀ (ps : List BlockId), (∀ p ∈ ps, p ∈ F.predecessors b) →
      ∀ (exprs : List E) (cache : DenseMap BlockId E), CacheCoherent F tr cache →
        ∃ cache1, encodePredecessors F tr blocks dp i b ps (exprs, cache)
            = some (exprs ++ ps.filterMap (contribution F topo tr dp b), cache1) ∧
          CacheCoherent F tr cache1 := by
  have hi : i < F.blocks.length := by
    rw [← hT.length_eq]
    exact (List.getElem?_eq_some_iff.1 hb).1
  have hbn : b < F.blocks.length := by
    obtain ⟨b1, hb1, hlt⟩ := hT.getElem?_lt hi
    rw [hb] at hb1
    cases hb1
    exact hlt
  intro ps
  induction ps with
  | nil =>
    intro _ exprs cache hc
    exact ⟨cache, by simp [encodePredecessors], hc⟩
  | cons p rest ih =>
    intro hps exprs cache hc
    have hp : p ∈ F.predecessors b := hps p (List.mem_cons_self _ _)
    have hrest : ∀ q ∈ rest, q ∈ F.predecessors b := fun q hq => hps q (List.mem_cons_of_mem _ hq)
    have hpn : p < F.blocks.length := (mem_predecessors.1 hp).1
    have hidx : topo.indexOf p < i := hT.pred_lt hb hp
    have hlt : topo.indexOf p < dp.length := by omega
    have hdp : dp[topo.indexOf p]? = some dp[topo.indexOf p] :=
      List.getElem?_eq_getElem hlt
    obtain ⟨e, cache1, hedge, hform, hc1⟩ := encodeEdge_of_pred tr hp hbn cache hc
    by_cases hf : dp[topo.indexOf p] = tr.builder.getFalse
    · obtain ⟨cache2, h2, hc2⟩ := ih hrest exprs cache hc
      refine ⟨cache2, ?_, hc2⟩
      simp only [encodePredecessors, hblocks p hpn, hidx, if_true, hdp, hf, ne_eq,
        not_true_eq_false, if_false]
      rw [h2]
      simp [List.filterMap_cons, contribution, hdp, hf, hform]
    · obtain ⟨cache2, h2, hc2⟩ := ih hrest
        (exprs ++ [tr.builder.And dp[topo.indexOf p] e]) cache1 hc1
      refine ⟨cache2, ?_, hc2⟩
      simp only [encodePredecessors, hblocks p hpn, hidx, if_true, hdp, hf, ne_eq,
        not_false_eq_true, hedge]
      rw [h2]
      simp [List.filterMap_cons, contribution, hdp, hf, hform]

theorem encodeLoop_spec [DecidableEq E] {F : Function} {topo : TopologicalSort}
    {tr : InstToExpr E} (hT : TopologicalOrder F topo) {blocks : DenseMap BlockId Nat}
    (hblocks : ∀ b, b < F.blocks.length → blocks.find b = some (topo.indexOf b)) :
    ∀ (m k : Nat) (dp : List E) (cache : DenseMap BlockId E),
      k + m = F.blocks.length → 1 ≤ k → dp.length = F.blocks.length →
      dp[0]? = some tr.builder.getTrue →
      (∀ j b, 1 ≤ j → j < k → topo[j]? = some b →
        dp[j]? = some (disjunction tr.builder (contributions F topo tr dp b))) →
      (∀ j, k ≤ j → j < F.blocks.length → dp[j]? = some tr.builder.getFalse) →
      CacheCoherent F tr cache →
      ∃ dp1 cache1, encodeLoop F topo tr blocks (List.range' k m) (dp, cache)
          = some (dp1, cache1) ∧
        ReachabilityTable F topo tr dp1 ∧ CacheCoherent F tr cache1 := by
  intro m
  induction m with
  | zero =>
    intro k dp cache hk _ hlen h0 hdone _ hc
    refine ⟨dp, cache, by simp [encodeLoop], ⟨hlen, h0, ?_⟩, hc⟩
    intro i b hi hb
    have : i < F.blocks.length := by
      rw [← hT.length_eq]
      exact (List.getElem?_eq_some_iff.1 hb).1
    exact hdone i b hi (by omega) hb
  | succ m ih =>
    intro k dp cache hk hk1 hlen h0 hdone htodo hc
    have hkn : k < F.blocks.length := by omega
    obtain ⟨b, hb, hbn⟩ := hT.getElem?_lt hkn
    obtain ⟨cache1, hpreds, hc1⟩ := encodePredecessors_spec hT hblocks hlen hb
      (F.predecessors b) (fun p hp => hp) [] cache hc
    rw [List.nil_append] at hpreds
    have hcontr : ∀ (dp1 : List E), (∀ j, j < k → dp1[j]? = dp[j]?) →
        ∀ j b1, j ≤ k → topo[j]? = some b1 →
          contributions F topo tr dp1 b1 = contributions F topo tr dp b1 := by
      intro dp1 hsame j b1 hj hb1
      apply contributions_congr
      intro p hp
      apply hsame
      have := hT.pred_lt hb1 hp
      omega
    rw [List.range'_succ]
    simp only [encodeLoop, hb, hpreds]
    have hfold : (List.filterMap (contribution F topo tr dp b) (F.predecessors b))
        = contributions F topo tr dp b := rfl
    rw [hfold]
    by_cases hne : contributions F topo tr dp b = []
    · simp only [hne, ne_eq, not_true_eq_false, if_false]
      apply ih (k + 1) dp cache1 (by omega) (by omega) hlen h0 _ _ hc1
      · intro j b1 hj1 hjk hb1
        by_cases hjeq : j = k
        · subst hjeq
          rw [hb] at hb1
          cases hb1
          rw [htodo j (le_refl _) hkn, hne]
          simp [disjunction]
        · exact hdone j b1 hj1 (by omega) hb1
      · intro j hj hjn
        exact htodo j (by omega) hjn
    · simp only [hne, ne_eq, not_false_eq_true, if_true]
      have hsame : ∀ j, j ≠ k →
          (dp.set k (tr.builder.OrRange (contributions F topo tr dp b)))[j]? = dp[j]? := by
        intro j hj
        exact List.getElem?_set_ne (Ne.symm hj)
      apply ih (k + 1) _ cache1 (by omega) (by omega) (by simp [hlen]) _ _ _ hc1
      · rw [hsame 0 (by omega)]
        exact h0
      · intro j b1 hj1 hjk hb1
        rw [hcontr _ (fun j1 hj1 => hsame j1 (by omega)) j b1 (by omega) hb1]
        by_cases hjeq : j = k
        · subst hjeq
          rw [hb] at hb1
          cases hb1
          rw [List.getElem?_set_self (by omega)]
          simp [disjunction, hne]
        · rw [hsame j hjeq]
          exact hdone j b1 hj1 (by omega) hb1
      · intro j hj hjn
        rw [hsame j (by omega)]
        exact htodo j (by omega) hjn

theorem encodeReachability_spec [DecidableEq E] {F : Function} {topo : TopologicalSort}
    (tr : InstToExpr E) (hT : TopologicalOrder F topo) :
    ∃ dp cache, encodeReachability F topo tr = some (dp, cache) ∧
      ReachabilityTable F topo tr dp ∧ CacheCoherent F tr cache := by
  obtain ⟨blocks, hbuild, hblocks⟩ := buildBlockMap_find hT
  have hpos : 0 < F.blocks.length := hT.2.1
  have hne : ¬ F.blocks.length = 0 := by omega
  unfold encodeReachability
  simp only [hbuild, hne, if_false]
  apply encodeLoop_spec hT hblocks (F.blocks.length - 1) 1 _ [] (by omega) (le_refl _)
    (by simp) _ _ _ (CacheCoherent.nil F tr)
  · rw [List.getElem?_set_self (by simpa using hpos)]
  · intro j b hj1 hj2
    omega
  · intro j hj hjn
    rw [List.getElem?_set_ne (by omega), List.getElem?_replicate]
    simp [hjn]

end ReachabilityLemmas

/-! ## The concrete builders keep the meaning of the connectives -/

theorem evalAll_ofList (m : Valuation) (l : List Expr) :
    (ExprList.ofList l).evalAll m = l.all (Expr.holds m) := by
  induction l with
  | nil => simp [ExprList.ofList, ExprList.evalAll]
  | cons e es ih => simp [ExprList.ofList, ExprList.evalAll, ih, Expr.holds]

theorem evalAny_ofList (m : Valuation) (l : List Expr) :
    (ExprList.ofList l).evalAny m = l.any (Expr.holds m) := by
  induction l with
  | nil => simp [ExprList.ofList, ExprList.evalAny]
  | cons e es ih => simp [ExprList.ofList, ExprList.evalAny, ih, Expr.holds]

theorem holds_And (m : Valuation) (l : List Expr) :
    Expr.holds m (.And (ExprList.ofList l)) = l.all (Expr.holds m) := by
  simp [Expr.holds, Expr.eval, LiteralExpr.toBool, evalAll_ofList]

theorem holds_Or (m : Valuation) (l : List Expr) :
    Expr.holds m (.Or (ExprList.ofList l)) = l.any (Expr.holds m) := by
  simp [Expr.holds, Expr.eval, LiteralExpr.toBool, evalAny_ofList]

theorem holds_true (m : Valuation) : Expr.holds m (.BoolLit true) = true := by
  simp [Expr.holds, Expr.eval, LiteralExpr.toBool]

theorem holds_false (m : Valuation) : Expr.holds m (.BoolLit false) = false := by
  simp [Expr.holds, Expr.eval, LiteralExpr.toBool]

theorem holds_foldingAnd (m : Valuation) (a b : Expr) :
    Expr.holds m (foldingAnd a b) = (Expr.holds m a && Expr.holds m b) := by
  unfold foldingAnd
  split
  · next h => simp [h, holds_true]
  · split
    · next h => simp [h, holds_true]
    · split
      · next h => simp [h, holds_false]
      · split
        · next h => simp [h, holds_false]
        · split
          · next h => simp [h]
          · rw [holds_And]
            simp

theorem holds_foldingAndRange (m : Valuation) (l : List Expr) :
    Expr.holds m (foldingAndRange l) = l.all (Expr.holds m) := by
  match l with
  | [] => simp [foldingAndRange, holds_true]
  | [e] => simp [foldingAndRange]
  | e1 :: e2 :: rest =>
    simp only [foldingAndRange]
    rw [holds_And]

theorem holds_foldingOrRange (m : Valuation) (l : List Expr) :
    Expr.holds m (foldingOrRange l) = l.any (Expr.holds m) := by
  match l with
  | [] => simp [foldingOrRange, holds_false]
  | [e] => simp [foldingOrRange]
  | e1 :: e2 :: rest =>
    simp only [foldingOrRange]
    rw [holds_Or]

theorem foldingBuilder_sound : BuilderSound CreateFoldingExprBuilder Expr.holds :=
  { getTrue := holds_true
    getFalse := holds_false
    And := holds_foldingAnd
    AndRange := holds_foldingAndRange
    OrRange := holds_foldingOrRange }

theorem plainBuilder_sound : BuilderSound CreateExprBuilder Expr.holds :=
  { getTrue := holds_true
    getFalse := holds_false
    And := fun m a b => by
      show Expr.holds m (.And (ExprList.ofList [a, b])) = _
      rw [holds_And]
      simp
    AndRange := fun m l => holds_And m l
    OrRange := fun m l => holds_Or m l }

/-! ## Reachability formulas and feasible paths -/

section PathLemmas

variable {E : Type}

theorem contribution_eq_some [DecidableEq E] {F : Function} {topo : TopologicalSort}
    {tr : InstToExpr E} {dp : List E} {b p : BlockId} {c : E}
    (h : contribution F topo tr dp b p = some c) :
    ∃ f e, dp[topo.indexOf p]? = some f ∧ edgeFormula F tr p b = some e ∧
      f ≠ tr.builder.getFalse ∧ c = tr.builder.And f e := by
  unfold contribution at h
  cases hf : dp[topo.indexOf p]? with
  | none => simp [hf] at h
  | some f =>
    cases he : edgeFormula F tr p b with
    | none => simp [hf, he] at h
    | some e =>
      simp only [hf, he] at h
      by_cases hne : f = tr.builder.getFalse
      · simp [hne] at h
      · simp only [ne_eq, hne, not_false_eq_true, if_true, Option.some.injEq] at h
        exact ⟨f, e, rfl, rfl, hne, h.symm⟩

theorem contribution_of [DecidableEq E] {F : Function} {topo : TopologicalSort}
    {tr : InstToExpr E} {dp : List E} {b p : BlockId} {f e : E}
    (hf : dp[topo.indexOf p]? = some f) (he : edgeFormula F tr p b = some e)
    (hne : f ≠ tr.builder.getFalse) :
    contribution F topo tr dp b p = some (tr.builder.And f e) := by
  unfold contribution
  simp [hf, he, hne]

theorem reach_iff_path [DecidableEq E] {Val : Type} {F : Function} {topo : TopologicalSort}
    {tr : InstToExpr E} {eval : Val → E → Bool} (hB : BuilderSound tr.builder eval)
    (hT : TopologicalOrder F topo) {dp : List E} (hR : ReachabilityTable F topo tr dp)
    (m : Val) :
    ∀ i, i < F.blocks.length →
      ∃ f, dp[i]? = some f ∧
        (eval m f = true ↔ ∃ path, FeasiblePath F topo tr (eval m) i path) := by
  obtain ⟨hlen, h0, hrec⟩ := hR
  intro i
  induction i using Nat.strong_induction_on with
  | _ i ih =>
    intro hi
    obtain ⟨b, hb, hbn⟩ := hT.getElem?_lt hi
    by_cases hi0 : i = 0
    · subst hi0
      refine ⟨tr.builder.getTrue, h0, ?_⟩
      simp only [hB.getTrue, true_iff]
      refine ⟨[b], ?_, ?_, List.chain'_singleton b⟩
      · simp [hb]
      · simp [hb]
    · have hi1 : 1 ≤ i := by omega
      refine ⟨_, hrec i b hi1 hb, ?_⟩
      constructor
      · intro hev
        unfold disjunction at hev
        by_cases hnil : contributions F topo tr dp b = []
        · simp [hnil, hB.getFalse] at hev
        · simp only [hnil, if_false, hB.OrRange, List.any_eq_true] at hev
          obtain ⟨c, hc, hcev⟩ := hev
          obtain ⟨p, hp, hcp⟩ := List.mem_filterMap.1 hc
          obtain ⟨f, e, hf, he, _, rfl⟩ := contribution_eq_some hcp
          rw [hB.And, Bool.and_eq_true] at hcev
          have hidx : topo.indexOf p < i := hT.pred_lt hb hp
          obtain ⟨f1, hf1, hiff⟩ := ih _ hidx (by omega)
          rw [hf] at hf1
          cases hf1
          obtain ⟨path, hhead, hlast, hchain⟩ := hiff.1 hcev.1
          have hptopo : topo[topo.indexOf p]? = some p := getElem?_indexOf (hT.pred_mem hp)
          rw [hptopo] at hlast
          have hne : path ≠ [] := by
            intro hnil
            rw [hnil] at hlast
            cases hlast
          refine ⟨path ++ [b], ?_, ?_, ?_⟩
          · rw [List.head?_append_of_ne_nil _ hne]
            exact hhead
          · rw [List.getLast?_concat, hb]
          · rw [List.chain'_append]
            refine ⟨hchain, List.chain'_singleton b, ?_⟩
            intro x hx y hy
            rw [Option.mem_def] at hx hy
            rw [hlast] at hx
            cases hx
            simp only [List.head?_cons, Option.some.injEq] at hy
            subst hy
            exact ⟨hp, e, he, hcev.2⟩
      · rintro ⟨path, hhead, hlast, hchain⟩
        rw [hb] at hlast
        obtain ⟨ys, rfl⟩ := List.getLast?_eq_some_iff.1 hlast
        obtain ⟨b0, hb0, _⟩ := hT.getElem?_lt hT.2.1
        rcases List.eq_nil_or_concat ys with hnil | ⟨zs, p, rfl⟩
        · subst hnil
          rw [hb0] at hhead
          simp only [List.nil_append, List.head?_cons, Option.some.injEq] at hhead
          subst hhead
          have h1 := hT.indexOf_of_getElem? hb
          have h2 := hT.indexOf_of_getElem? hb0
          omega
        · rw [List.concat_eq_append] at hhead hchain
          rw [List.chain'_append] at hchain
          obtain ⟨hch1, _, hR1⟩ := hchain
          have hedge : EdgeHolds F tr (eval m) p b :=
            hR1 p (by simp) b (by simp)
          obtain ⟨hp, e, he, hev⟩ := hedge
          have hidx : topo.indexOf p < i := hT.pred_lt hb hp
          obtain ⟨f1, hf1, hiff⟩ := ih _ hidx (by omega)
          have hfeas : FeasiblePath F topo tr (eval m) (topo.indexOf p) (zs ++ [p]) := by
            refine ⟨?_, ?_, hch1⟩
            · rw [List.head?_append_of_ne_nil _ (by simp)] at hhead
              exact hhead
            · rw [List.getLast?_concat, getElem?_indexOf (hT.pred_mem hp)]
          have hf1ev : eval m f1 = true := hiff.2 ⟨_, hfeas⟩
          have hne : f1 ≠ tr.builder.getFalse := by
            intro hcontra
            rw [hcontra, hB.getFalse] at hf1ev
            cases hf1ev
          have hmem : tr.builder.And f1 e ∈ contributions F topo tr dp b :=
            List.mem_filterMap.2 ⟨p, hp, contribution_of hf1 he hne⟩
          have hnil : contributions F topo tr dp b ≠ [] := List.ne_nil_of_mem hmem
          unfold disjunction
          simp only [hnil, if_false, hB.OrRange, List.any_eq_true]
          exact ⟨_, hmem, by rw [hB.And, hf1ev, hev]; rfl⟩

end PathLemmas

/-! ## Leading PHI nodes -/

theorem filter_isPHI_eq_takeWhile (l : List Inst)
    (h : ∀ it ∈ l.dropWhile Inst.isPHI, it.isPHI = false) :
    l.filter Inst.isPHI = l.takeWhile Inst.isPHI := by
  induction l with
  | nil => rfl
  | cons a l ih =>
    by_cases ha : a.isPHI = true
    · rw [List.dropWhile_cons_of_pos ha] at h
      rw [List.filter_cons_of_pos ha, List.takeWhile_cons_of_pos ha, ih h]
    · rw [List.dropWhile_cons_of_neg ha] at h
      rw [List.takeWhile_cons_of_neg ha, List.filter_eq_nil_iff]
      intro it hit
      simp [h it hit]

theorem filter_body_eq_dropWhile (l : List Inst)
    (h : ∀ it ∈ l.dropWhile Inst.isPHI, it.isPHI = false) :
    l.filter (fun it => !it.isPHI && !it.isTerminator)
      = (l.dropWhile Inst.isPHI).filter (fun it => !it.isTerminator) := by
  induction l with
  | nil => rfl
  | cons a l ih =>
    by_cases ha : a.isPHI = true
    · rw [List.dropWhile_cons_of_pos ha] at h ⊢
      rw [List.filter_cons_of_neg (by simp [ha]), ih h]
    · rw [List.dropWhile_cons_of_neg ha] at h ⊢
      apply List.filter_congr
      intro it hit
      simp [h it hit]

/-! ## Keys of a map -/

namespace DenseMap

variable {K V : Type} [DecidableEq K]

theorem find_eq_none_iff (m : DenseMap K V) (k : K) :
    m.find k = none ↔ k ∉ m.map Prod.fst := by
  induction m with
  | nil => simp [find_nil]
  | cons kv m ih =>
    obtain ⟨k1, v⟩ := kv
    rw [find_cons]
    by_cases h : k = k1
    · simp [h]
    · simp only [h, if_false, ih, List.map_cons, List.mem_cons, false_or]

theorem mem_of_find {m : DenseMap K V} {k : K} {v : V} (h : m.find k = some v) :
    (k, v) ∈ m := by
  induction m with
  | nil => simp [find_nil] at h
  | cons kv m ih =>
    obtain ⟨k1, v1⟩ := kv
    rw [find_cons] at h
    by_cases hk : k = k1
    · simp only [hk, if_true, Option.some.injEq] at h
      simp [hk, h]
    · simp only [hk, if_false] at h
      exact List.mem_cons_of_mem _ (ih h)

theorem mem_insert {m : DenseMap K V} {k : K} {v : V} {x : K × V}
    (h : x ∈ m.insert k v) : x ∈ m ∨ x = (k, v) := by
  unfold DenseMap.insert at h
  cases hf : m.find k with
  | some y =>
    rw [hf] at h
    exact Or.inl h
  | none =>
    rw [hf] at h
    simpa using h

theorem subset_insert (m : DenseMap K V) (k : K) (v : V) {x : K × V} (h : x ∈ m) :
    x ∈ m.insert k v := by
  unfold DenseMap.insert
  cases hf : m.find k with
  | some y => exact h
  | none => exact List.mem_append_left _ h

theorem key_mem_insert (m : DenseMap K V) (k : K) (v : V) :
    ∃ v1, (k, v1) ∈ m.insert k v := by
  cases hf : m.find k with
  | some y => exact ⟨y, subset_insert m k v (mem_of_find hf)⟩
  | none =>
    refine ⟨v, ?_⟩
    unfold DenseMap.insert
    rw [hf]
    simp

theorem keys_set (m : DenseMap K V) (k : K) (v : V) :
    (m.set k v).map Prod.fst =
      match m.find k with
      | some _ => m.map Prod.fst
      | none => m.map Prod.fst ++ [k] := by
  unfold DenseMap.set
  cases hf : m.find k with
  | some y =>
    simp only [List.map_map]
    apply List.map_congr_left
    intro kv _
    by_cases h : kv.1 = k
    · simp [h]
    · simp [h]
  | none => simp

theorem nodup_keys_set (m : DenseMap K V) (k : K) (v : V)
    (h : (m.map Prod.fst).Nodup) : ((m.set k v).map Prod.fst).Nodup := by
  rw [keys_set]
  cases hf : m.find k with
  | some y => exact h
  | none =>
    simp only
    rw [List.nodup_append]
    refine ⟨h, List.nodup_singleton k, ?_⟩
    intro a ha hb
    rw [List.mem_singleton] at hb
    subst hb
    exact (find_eq_none_iff m a).1 hf ha

end DenseMap

/-! ## The query set -/

theorem isErrorFunctionName_eq (name : String) :
    isErrorFunctionName name = decide (name ∈ codeErrorRoutineNames) := by
  unfold isErrorFunctionName codeErrorRoutineNames
  by_cases h1 : name = "__VERIFIER_error"
  · simp [h1]
  · by_cases h2 : name = "__assert_fail"
    · simp [h2]
    · by_cases h3 : name = "__gazer_error"
      · simp [h3]
      · simp [h1, h2, h3]

theorem isErrorBlockLoop_eq (insts : List Inst)
    (h : ∀ i ∈ insts, i.isCall = true → i.getCalledFunction ≠ none) :
    isErrorBlockLoop insts = some (insts.any (fun i => i.isCall &&
      match i.getCalledFunction with
      | some name => decide (name ∈ codeErrorRoutineNames)
      | none => false)) := by
  induction insts with
  | nil => rfl
  | cons a l ih =>
    have ihl := ih (fun i hi => h i (List.mem_cons_of_mem _ hi))
    simp only [isErrorBlockLoop, List.any_cons]
    by_cases hc : a.isCall = true
    · cases hf : a.getCalledFunction with
      | none => exact absurd hf (h a (List.mem_cons_self _ _) hc)
      | some name =>
        simp only [hc, if_true, Bool.true_and]
        rw [isErrorFunctionName_eq]
        by_cases hn : name ∈ codeErrorRoutineNames
        · simp [hn]
        · simp [hn, ihl]
    · simp [hc, ihl]

theorem isErrorBlock_eq (bb : BasicBlock) (h : noIndirectCall bb) :
    isErrorBlock bb = some (callsRoutineIn codeErrorRoutineNames bb) :=
  isErrorBlockLoop_eq bb.insts h

theorem collectErrorBlocks_spec {F : Function} {topo : TopologicalSort}
    (hT : TopologicalOrder F topo) (hcalls : ∀ blk ∈ F.blocks, noIndirectCall blk) :
    ∀ (is : List Nat) (m : DenseMap Nat BlockId), (∀ i ∈ is, i < F.blocks.length) →
      ∃ m1, collectErrorBlocks F topo is m = some m1 ∧
        (∀ i b, (i, b) ∈ m1 → (i, b) ∈ m ∨
          (topo[i]? = some b ∧ ∃ blk, F.block b = some blk ∧
            callsRoutineIn codeErrorRoutineNames blk = true)) ∧
        (∀ x, x ∈ m → x ∈ m1) ∧
        (∀ i ∈ is, ∀ b blk, topo[i]? = some b → F.block b = some blk →
          callsRoutineIn codeErrorRoutineNames blk = true → ∃ b1, (i, b1) ∈ m1) := by
  intro is
  induction is with
  | nil =>
    intro m _
    exact ⟨m, rfl, fun i b h => Or.inl h, fun x h => h, by simp⟩
  | cons i rest ih =>
    intro m hlt
    obtain ⟨b, hb, hbn⟩ := hT.getElem?_lt (hlt i (List.mem_cons_self _ _))
    obtain ⟨blk, hblk⟩ := block_of_lt hbn
    have hmem : blk ∈ F.blocks := by
      unfold Function.block at hblk
      exact List.getElem?_mem hblk
    have herr := isErrorBlock_eq blk (hcalls blk hmem)
    have hrest : ∀ j ∈ rest, j < F.blocks.length := fun j hj => hlt j (List.mem_cons_of_mem _ hj)
    cases hcall : callsRoutineIn codeErrorRoutineNames blk with
    | true =>
      rw [hcall] at herr
      obtain ⟨m1, hm1, h1, h2, h3⟩ := ih (m.insert i b) hrest
      refine ⟨m1, ?_, ?_, ?_, ?_⟩
      · simp only [collectErrorBlocks, hb, hblk, herr]
        exact hm1
      · intro i1 b1 hmem1
        rcases h1 i1 b1 hmem1 with h | h
        · rcases DenseMap.mem_insert h with h | h
          · exact Or.inl h
          · cases h
            exact Or.inr ⟨hb, blk, hblk, hcall⟩
        · exact Or.inr h
      · intro x hx
        exact h2 x (DenseMap.subset_insert m i b hx)
      · intro i1 hi1 b1 blk1 hb1 hblk1 hcall1
        rcases List.mem_cons.1 hi1 with rfl | hmem1
        · obtain ⟨v1, hv1⟩ := DenseMap.key_mem_insert m i1 b
          exact ⟨v1, h2 _ hv1⟩
        · exact h3 i1 hmem1 b1 blk1 hb1 hblk1 hcall1
    | false =>
      rw [hcall] at herr
      obtain ⟨m1, hm1, h1, h2, h3⟩ := ih m hrest
      refine ⟨m1, ?_, h1, h2, ?_⟩
      · simp only [collectErrorBlocks, hb, hblk, herr]
        exact hm1
      · intro i1 hi1 b1 blk1 hb1 hblk1 hcall1
        rcases List.mem_cons.1 hi1 with rfl | hmem1
        · rw [hb] at hb1
          cases hb1
          rw [hblk] at hblk1
          cases hblk1
          rw [hcall] at hcall1
          cases hcall1
        · exact h3 i1 hmem1 b1 blk1 hb1 hblk1 hcall1

theorem collectResult_spec {E : Type} (topo : TopologicalSort) (dp : List E) :
    ∀ (L : List (Nat × BlockId)) (r : DenseMap BlockId E),
      (∀ i b, (i, b) ∈ L → i = topo.indexOf b ∧ i < dp.length) →
      (r.map Prod.fst).Nodup →
      ∃ r1, collectResult dp L r = some r1 ∧ (r1.map Prod.fst).Nodup ∧
        ∀ b, ((∃ i, (i, b) ∈ L) → r1.find b = dp[topo.indexOf b]?) ∧
          ((¬ ∃ i, (i, b) ∈ L) → r1.find b = r.find b) := by
  intro L
  induction L with
  | nil =>
    intro r _ hnd
    exact ⟨r, rfl, hnd, fun b => ⟨by simp, fun _ => rfl⟩⟩
  | cons x L ih =>
    obtain ⟨i0, b0⟩ := x
    intro r hL hnd
    obtain ⟨hi0, hlt0⟩ := hL i0 b0 (List.mem_cons_self _ _)
    have hget : dp[i0]? = some dp[i0] := List.getElem?_eq_getElem hlt0
    obtain ⟨r1, hr1, hnd1, hfind⟩ := ih (r.set b0 dp[i0])
      (fun i b h => hL i b (List.mem_cons_of_mem _ h)) (DenseMap.nodup_keys_set r b0 _ hnd)
    refine ⟨r1, ?_, hnd1, ?_⟩
    · simp only [collectResult, hget]
      exact hr1
    · intro b
      constructor
      · rintro ⟨i, hi⟩
        by_cases hin : ∃ j, (j, b) ∈ L
        · exact (hfind b).1 hin
        · rw [(hfind b).2 hin, DenseMap.find_set]
          rcases List.mem_cons.1 hi with h | h
          · cases h
            simp only [if_true]
            rw [← hi0, hget]
          · exact absurd ⟨i, h⟩ hin
      · intro hnot
        have hin : ¬ ∃ j, (j, b) ∈ L := by
          rintro ⟨j, hj⟩
          exact hnot ⟨j, List.mem_cons_of_mem _ hj⟩
        have hb : b ≠ b0 := by
          rintro rfl
          exact hnot ⟨i0, List.mem_cons_self _ _⟩
        rw [(hfind b).2 hin, DenseMap.find_set]
        simp [hb]

theorem encode_spec {E : Type} [DecidableEq E] {F : Function} {topo : TopologicalSort}
    (tr : InstToExpr E) (hT : TopologicalOrder F topo)
    (hcalls : ∀ blk ∈ F.blocks, noIndirectCall blk) :
    ∃ result dp cache, encode F topo tr = some result ∧
      encodeReachability F topo tr = some (dp, cache) ∧
      QuerySetFor codeErrorRoutineNames F topo dp result := by
  obtain ⟨dp, cache, henc, hR, _⟩ := encodeReachability_spec tr hT
  obtain ⟨eb, heb, hsound, _, hcomplete⟩ := collectErrorBlocks_spec hT hcalls
    (List.range F.blocks.length) [] (fun i hi => List.mem_range.1 hi)
  have hsound1 : ∀ i b, (i, b) ∈ eb → topo[i]? = some b ∧ ∃ blk, F.block b = some blk ∧
      callsRoutineIn codeErrorRoutineNames blk = true := by
    intro i b h
    rcases hsound i b h with h1 | h1
    · simp at h1
    · exact h1
  obtain ⟨result, hres, hnd, hfind⟩ := collectResult_spec topo dp eb []
    (by
      intro i b h
      obtain ⟨hb, _⟩ := hsound1 i b h
      refine ⟨(hT.indexOf_of_getElem? hb).symm, ?_⟩
      rw [hR.1, ← hT.length_eq]
      exact (List.getElem?_eq_some_iff.1 hb).1)
    (by simp)
  refine ⟨result, dp, cache, ?_, henc, hnd, ?_⟩
  · unfold encode
    simp only [heb, henc]
    exact hres
  · intro b
    cases hblk : F.block b with
    | none =>
      simp only
      rw [(hfind b).2]
      · rfl
      · rintro ⟨i, hi⟩
        obtain ⟨_, blk, hblk1, _⟩ := hsound1 i b hi
        rw [hblk] at hblk1
        cases hblk1
    | some blk =>
      simp only
      by_cases hcall : callsRoutineIn codeErrorRoutineNames blk = true
      · simp only [hcall, if_true]
        apply (hfind b).1
        have hbn : b < F.blocks.length := by
          unfold Function.block at hblk
          exact (List.getElem?_eq_some_iff.1 hblk).1
        have hmem : b ∈ topo := hT.mem_iff.2 hbn
        have hidx : topo.indexOf b < F.blocks.length := by
          rw [← hT.length_eq]
          exact List.indexOf_lt_length.2 hmem
        obtain ⟨b1, hb1⟩ := hcomplete (topo.indexOf b) (List.mem_range.2 hidx) b blk
          (getElem?_indexOf hmem) hblk hcall
        obtain ⟨hb2, _⟩ := hsound1 _ _ hb1
        rw [getElem?_indexOf hmem] at hb2
        cases hb2
        exact ⟨_, hb1⟩
      · simp only [hcall, if_false]
        rw [(hfind b).2]
        · rfl
        · rintro ⟨i, hi⟩
          obtain ⟨_, blk1, hblk1, hcall1⟩ := hsound1 i b hi
          rw [hblk] at hblk1
          cases hblk1
          exact hcall hcall1

/-! ## Insertion at the front of a block -/

theorem pushFront_length (F : Function) (b : BlockId) (phi : Inst) :
    (F.pushFront b phi).blocks.length = F.blocks.length := by
  unfold Function.pushFront
  cases F.blocks[b]? with
  | none => rfl
  | some blk => simp

theorem pushFront_block (F : Function) (b : BlockId) (phi : Inst) (b1 : BlockId) :
    (F.pushFront b phi).block b1 =
      if b1 = b then (F.block b).map (fun blk => { insts := phi :: blk.insts })
      else F.block b1 := by
  unfold Function.pushFront Function.block
  cases hb : F.blocks[b]? with
  | none =>
    by_cases h : b1 = b
    · simp [h, hb]
    · simp [h]
  | some blk =>
    have hlt : b < F.blocks.length := (List.getElem?_eq_some_iff.1 hb).1
    simp only [List.getElem?_set]
    by_cases h : b1 = b
    · subst h
      simp [hlt]
    · have h1 : ¬ b = b1 := fun h2 => h h2.symm
      simp [h, h1]

theorem getTerminator_cons (phi : Inst) (hphi : phi.isTerminator = false) (blk : BasicBlock) :
    BasicBlock.getTerminator { insts := phi :: blk.insts } = blk.getTerminator := by
  unfold BasicBlock.getTerminator
  cases hins : blk.insts with
  | nil => simp [hphi]
  | cons a l => simp [List.getLast?_cons_cons]

theorem pushFront_successors (F : Function) (b : BlockId) (phi : Inst)
    (hphi : phi.isTerminator = false) (b1 : BlockId) :
    (F.pushFront b phi).successors b1 = F.successors b1 := by
  unfold Function.successors
  rw [pushFront_block]
  by_cases h : b1 = b
  · subst h
    cases hb : F.block b1 with
    | none => simp
    | some blk => simp [getTerminator_cons phi hphi blk]
  · simp [h]

theorem predecessors_congr {F G : Function} (hlen : G.blocks.length = F.blocks.length)
    (hsucc : ∀ b, G.successors b = F.successors b) (b : BlockId) :
    G.predecessors b = F.predecessors b := by
  unfold Function.predecessors
  rw [hlen]
  apply List.flatMap_congr
  intro p _
  rw [hsucc]

theorem instIds_pushFront_perm (F : Function) (b : BlockId) (phi : Inst) (blk : BasicBlock)
    (hb : F.block b = some blk) :
    (F.pushFront b phi).instIds.Perm (phi.id :: F.instIds) := by
  unfold Function.block at hb
  have hlt : b < F.blocks.length := (List.getElem?_eq_some_iff.1 hb).1
  have hget : F.blocks[b] = blk := by
    have := List.getElem?_eq_getElem hlt
    rw [hb] at this
    exact (Option.some.inj this).symm
  have hsplit : F.blocks = F.blocks.take b ++ blk :: F.blocks.drop (b + 1) := by
    rw [← hget]
    exact (List.take_append_drop b F.blocks).symm.trans (by rw [List.drop_eq_getElem_cons hlt])
  unfold Function.pushFront Function.instIds
  simp only [hb]
  rw [List.set_eq_take_append_cons_drop]
  simp only [hlt, if_true]
  conv => rhs; rw [hsplit]
  simp only [List.flatMap_append, List.flatMap_cons, List.map_cons, List.cons_append]
  exact List.perm_middle

theorem freshValueId_not_mem (F : Function) : F.freshValueId ∉ F.instIds := by
  have hle : ∀ (l : List Nat) (x : Nat), x ∈ l → x ≤ l.foldr max 0 := by
    intro l
    induction l with
    | nil => intro x hx; cases hx
    | cons a l ih =>
      intro x hx
      rw [List.foldr_cons]
      rcases List.mem_cons.1 hx with rfl | h
      · exact le_max_left _ _
      · exact le_trans (ih x h) (le_max_right _ _)
  intro h
  have := hle _ _ h
  unfold Function.freshValueId at this
  omega

/-! ## The predecessor identification -/

theorem topoBlockMap_eq (topo : TopologicalSort) :
    ∀ (is : List Nat) (m : DenseMap BlockId Nat), (∀ i ∈ is, i < topo.length) →
      buildBlockMap topo is m = some (is.foldl
        (fun m i => match topo[i]? with
          | some b => m.insert b i
          | none => m) m) := by
  intro is
  induction is with
  | nil => intro m _; rfl
  | cons i rest ih =>
    intro m h
    have hi : i < topo.length := h i (List.mem_cons_self _ _)
    have hget : topo[i]? = some topo[i] := List.getElem?_eq_getElem hi
    simp only [buildBlockMap, hget, List.foldl_cons]
    exact ih _ (fun j hj => h j (List.mem_cons_of_mem _ hj))

theorem topoBlockMap_subscript {F : Function} {topo : TopologicalSort}
    (hT : TopologicalOrder F topo) {b : BlockId} (hb : b < F.blocks.length) :
    (topoBlockMap topo).subscript b = topo.indexOf b := by
  obtain ⟨blocks, hbuild, hfind⟩ := buildBlockMap_find hT
  have h := topoBlockMap_eq topo (List.range topo.length) []
    (fun i hi => List.mem_range.1 hi)
  rw [hT.length_eq, hbuild] at h
  have heq : topoBlockMap topo = blocks := by
    unfold topoBlockMap
    rw [hT.length_eq]
    exact (Option.some.inj h).symm
  unfold DenseMap.subscript
  rw [heq, hfind b hb]
  rfl

theorem predecessorIdentificationStep_spec (F : Function) (blocks : DenseMap BlockId Nat)
    (st : Function × DenseMap BlockId Value) (b : BlockId) (blk : BasicBlock)
    (hlen : st.1.blocks.length = F.blocks.length)
    (hsucc : ∀ b1, st.1.successors b1 = F.successors b1)
    (hsub : ∀ x ∈ F.instIds, x ∈ st.1.instIds)
    (hblock : st.1.block b = F.block b) (hfind : st.2.find b = none)
    (hb : F.block b = some blk) :
    (predecessorIdentificationStep blocks st b).1.blocks.length = F.blocks.length ∧
    (∀ b1, (predecessorIdentificationStep blocks st b).1.successors b1 = F.successors b1) ∧
    (∀ x ∈ F.instIds, x ∈ (predecessorIdentificationStep blocks st b).1.instIds) ∧
    (st.1.instIds.Nodup → (predecessorIdentificationStep blocks st b).1.instIds.Nodup) ∧
    (∀ b1, b1 ≠ b →
      (predecessorIdentificationStep blocks st b).1.block b1 = st.1.block b1 ∧
      (predecessorIdentificationStep blocks st b).2.find b1 = st.2.find b1) ∧
    PredecessorRecord F blocks.subscript (predecessorIdentificationStep blocks st b).1
      (predecessorIdentificationStep blocks st b).2 b blk := by
  have hpreds : st.1.predecessors b = F.predecessors b := predecessors_congr hlen hsucc b
  have hinc : (createPredecessorPhi st.1 blocks b).incoming = (F.predecessors b).map
      (fun p => (Value.ConstantInt 32 (blocks.subscript p % 2 ^ 32), p)) := by
    simp [createPredecessorPhi, Inst.incoming, hpreds]
  have hterm : (createPredecessorPhi st.1 blocks b).isTerminator = false := rfl
  have hblk : st.1.block b = some blk := by rw [hblock, hb]
  by_cases hmany : 1 < (F.predecessors b).length
  · have hstep : predecessorIdentificationStep blocks st b
        = (st.1.pushFront b (createPredecessorPhi st.1 blocks b),
           st.2.set b (Value.Inst (createPredecessorPhi st.1 blocks b).id)) := by
      unfold predecessorIdentificationStep Inst.getNumIncomingValues
      simp only [hinc, List.length_map, gt_iff_lt, hmany, if_true]
    rw [hstep]
    have hperm := instIds_pushFront_perm st.1 b (createPredecessorPhi st.1 blocks b) blk hblk
    have hfresh : (createPredecessorPhi st.1 blocks b).id ∉ st.1.instIds :=
      freshValueId_not_mem st.1
    refine ⟨?_, ?_, ?_, ?_, ?_, ?_, ?_, ?_⟩
    · simp only [pushFront_length, hlen]
    · intro b1
      simp only [pushFront_successors _ _ _ hterm, hsucc]
    · intro x hx
      exact hperm.mem_iff.2 (List.mem_cons_of_mem _ (hsub x hx))
    · intro hnd
      exact hperm.nodup_iff.2 (List.nodup_cons.2 ⟨hfresh, hnd⟩)
    · intro b1 hb1
      refine ⟨?_, ?_⟩
      · simp only [pushFront_block, hb1, if_false]
      · simp only [DenseMap.find_set, hb1, if_false]
    · intro _
      refine ⟨createPredecessorPhi st.1 blocks b, ?_, ?_, ?_, rfl, rfl, ?_⟩
      · simp only [pushFront_block, if_true, hblk, Option.map_some']
      · simp only [DenseMap.find_set, if_true]
      · intro hmem
        exact hfresh (hsub _ hmem)
      · simp only [createPredecessorPhi, hpreds]
    · intro p hp
      rw [hp] at hmany
      simp at hmany
    · intro hp
      rw [hp] at hmany
      simp at hmany
  · have hcases : F.predecessors b = [] ∨ ∃ p, F.predecessors b = [p] := by
      match hp : F.predecessors b with
      | [] => exact Or.inl rfl
      | [p] => exact Or.inr ⟨p, rfl⟩
      | p :: q :: rest =>
        rw [hp] at hmany
        simp at hmany
    rcases hcases with hnil | ⟨p, hone⟩
    · have hstep : predecessorIdentificationStep blocks st b = st := by
        unfold predecessorIdentificationStep Inst.getNumIncomingValues
        simp only [hinc, hnil, List.map_nil, List.length_nil, gt_iff_lt, Nat.not_lt_zero,
          if_false]
      rw [hstep]
      refine ⟨hlen, hsucc, hsub, fun h => h, fun b1 _ => ⟨rfl, rfl⟩, ?_, ?_, ?_⟩
      · intro h
        rw [hnil] at h
        simp at h
      · intro p hp
        rw [hnil] at hp
        cases hp
      · intro _
        exact ⟨hblk, hfind⟩
    · have hstep : predecessorIdentificationStep blocks st b
          = (st.1, st.2.set b (Value.ConstantInt 32 (blocks.subscript p % 2 ^ 32))) := by
        unfold predecessorIdentificationStep Inst.getNumIncomingValues
        simp only [hinc, hone, List.map_cons, List.map_nil, List.length_singleton, gt_iff_lt,
          lt_self_iff_false, if_false]
      rw [hstep]
      refine ⟨hlen, hsucc, hsub, fun h => h, ?_, ?_, ?_, ?_⟩
      · intro b1 hb1
        exact ⟨rfl, by simp only [DenseMap.find_set, hb1, if_false]⟩
      · intro h
        rw [hone] at h
        simp at h
      · intro q hq
        rw [hone] at hq
        cases hq
        exact ⟨hblk, by simp only [DenseMap.find_set, if_true]⟩
      · intro h
        rw [hone] at h
        cases h

theorem PredecessorRecord.stable {F : Function} {index : BlockId → Nat} {F1 F2 : Function}
    {preds1 preds2 : DenseMap BlockId Value} {b : BlockId} {blk : BasicBlock}
    (h : PredecessorRecord F index F1 preds1 b blk) (hblock : F2.block b = F1.block b)
    (hfind : preds2.find b = preds1.find b) :
    PredecessorRecord F index F2 preds2 b blk := by
  unfold PredecessorRecord at h ⊢
  rw [hblock, hfind]
  exact h

theorem predecessorIdentification_fold (F : Function) (blocks : DenseMap BlockId Nat) :
    ∀ (bs : List BlockId) (st : Function × DenseMap BlockId Value),
      bs.Nodup → (∀ b ∈ bs, b < F.blocks.length) →
      st.1.blocks.length = F.blocks.length →
      (∀ b, st.1.successors b = F.successors b) →
      (∀ x ∈ F.instIds, x ∈ st.1.instIds) →
      (∀ b ∈ bs, st.1.block b = F.block b ∧ st.2.find b = none) →
      (bs.foldl (predecessorIdentificationStep blocks) st).1.blocks.length
          = F.blocks.length ∧
        (∀ b, (bs.foldl (predecessorIdentificationStep blocks) st).1.successors b
          = F.successors b) ∧
        (∀ x ∈ F.instIds, x ∈ (bs.foldl (predecessorIdentificationStep blocks) st).1.instIds) ∧
        (st.1.instIds.Nodup →
          (bs.foldl (predecessorIdentificationStep blocks) st).1.instIds.Nodup) ∧
        (∀ b, b ∉ bs →
          (bs.foldl (predecessorIdentificationStep blocks) st).1.block b = st.1.block b ∧
          (bs.foldl (predecessorIdentificationStep blocks) st).2.find b = st.2.find b) ∧
        (∀ b ∈ bs, ∀ blk, F.block b = some blk →
          PredecessorRecord F blocks.subscript
            (bs.foldl (predecessorIdentificationStep blocks) st).1
            (bs.foldl (predecessorIdentificationStep blocks) st).2 b blk) := by
  intro bs
  induction bs with
  | nil =>
    intro st _ _ hlen hsucc hsub _
    exact ⟨hlen, hsucc, hsub, fun h => h, fun b _ => ⟨rfl, rfl⟩, by simp⟩
  | cons b rest ih =>
    intro st hnd hvalid hlen hsucc hsub hfresh
    obtain ⟨hbrest, hndrest⟩ := List.nodup_cons.1 hnd
    obtain ⟨blk, hblk⟩ := block_of_lt (hvalid b (List.mem_cons_self _ _))
    obtain ⟨hblock, hfind⟩ := hfresh b (List.mem_cons_self _ _)
    obtain ⟨s1, s2, s3, s4, s5, s6⟩ :=
      predecessorIdentificationStep_spec F blocks st b blk hlen hsucc hsub hblock hfind hblk
    have hfresh1 : ∀ b1 ∈ rest,
        (predecessorIdentificationStep blocks st b).1.block b1 = F.block b1 ∧
        (predecessorIdentificationStep blocks st b).2.find b1 = none := by
      intro b1 hb1
      have hne : b1 ≠ b := by
        rintro rfl
        exact hbrest hb1
      obtain ⟨h1, h2⟩ := s5 b1 hne
      obtain ⟨h3, h4⟩ := hfresh b1 (List.mem_cons_of_mem _ hb1)
      exact ⟨by rw [h1, h3], by rw [h2, h4]⟩
    obtain ⟨r1, r2, r3, r4, r5, r6⟩ := ih (predecessorIdentificationStep blocks st b) hndrest
      (fun b1 hb1 => hvalid b1 (List.mem_cons_of_mem _ hb1)) s1 s2 s3 hfresh1
    rw [List.foldl_cons]
    refine ⟨r1, r2, r3, fun h => r4 (s4 h), ?_, ?_⟩
    · intro b1 hb1
      have hne : b1 ≠ b := fun h => hb1 (by rw [h]; exact List.mem_cons_self _ _)
      have hnot : b1 ∉ rest := fun h => hb1 (List.mem_cons_of_mem _ h)
      obtain ⟨h1, h2⟩ := r5 b1 hnot
      obtain ⟨h3, h4⟩ := s5 b1 hne
      exact ⟨by rw [h1, h3], by rw [h2, h4]⟩
    · intro b1 hb1 blk1 hblk1
      rcases List.mem_cons.1 hb1 with rfl | hmem
      · rw [hblk] at hblk1
        cases hblk1
        obtain ⟨h1, h2⟩ := r5 b1 hbrest
        exact s6.stable h1 h2
      · exact r6 b1 hmem blk1 hblk1

theorem createPredecessorIdentifications_spec (F : Function) (blocks : DenseMap BlockId Nat) :
    (createPredecessorIdentifications F blocks).1.blocks.length = F.blocks.length ∧
    (∀ b, (createPredecessorIdentifications F blocks).1.successors b = F.successors b) ∧
    (∀ x ∈ F.instIds, x ∈ (createPredecessorIdentifications F blocks).1.instIds) ∧
    (F.instIds.Nodup → (createPredecessorIdentifications F blocks).1.instIds.Nodup) ∧
    (∀ b blk, F.block b = some blk →
      PredecessorRecord F blocks.subscript (createPredecessorIdentifications F blocks).1
        (createPredecessorIdentifications F blocks).2 b blk) := by
  obtain ⟨h1, h2, h3, h4, _, h6⟩ := predecessorIdentification_fold F blocks
    (List.range F.blocks.length) (F, []) (List.nodup_range _)
    (fun b hb => List.mem_range.1 hb) rfl (fun _ => rfl) (fun _ h => h)
    (fun b _ => ⟨rfl, DenseMap.find_nil b⟩)
  refine ⟨h1, h2, h3, h4, ?_⟩
  intro b blk hb
  apply h6 b _ blk hb
  unfold Function.block at hb
  exact List.mem_range.2 (List.getElem?_eq_some_iff.1 hb).1

/-! ## The backward walk of the trace extractor -/

section WalkLemmas

variable {E : Type}

theorem topologicalOrder_of_identifications {F : Function} {topo : TopologicalSort}
    (hT : TopologicalOrder F topo) (blocks : DenseMap BlockId Nat) :
    TopologicalOrder (createPredecessorIdentifications F blocks).1 topo := by
  obtain ⟨hlen, hsucc, _⟩ := createPredecessorIdentifications_spec F blocks
  unfold TopologicalOrder
  rw [hlen]
  refine ⟨hT.1, hT.2.1, ?_⟩
  intro b hb p hp
  rw [predecessors_congr hlen hsucc] at hp
  exact hT.2.2 b hb p hp

theorem predIdOf_constant (valueMap : ValueToVariableMap) (model : Valuation) (bits v : Nat)
    (hv : v < 2 ^ 32) :
    predIdOf valueMap model (Value.ConstantInt bits v) = some v := by
  unfold predIdOf getLimitedValue
  simp only [Option.some.injEq]
  omega

theorem traceBlocksLoop_feasible [DecidableEq E] {F : Function} {topo : TopologicalSort}
    (hT : TopologicalOrder F topo) (hsize : F.blocks.length ≤ 2 ^ 32)
    {tr : InstToExpr E} {eval : Valuation → E → Bool} (hB : BuilderSound tr.builder eval)
    (valueMap : ValueToVariableMap) (M : Valuation)
    (hW : PredecessorWitnessesSound (createPredecessorIdentifications F (topoBlockMap topo)).1
      topo (createPredecessorIdentifications F (topoBlockMap topo)).2 tr (eval M) valueMap M)
    {dp : List E}
    (hR : ReachabilityTable (createPredecessorIdentifications F (topoBlockMap topo)).1
      topo tr dp) :
    ∀ (j : Nat) (c : BlockId) (R : E), topo[j]? = some c → dp[j]? = some R →
      eval M R = true → ∀ (fuel : Nat) (acc : List BlockId), j < fuel →
        ∃ path, traceBlocksLoop topo
            (createPredecessorIdentifications F (topoBlockMap topo)).2 valueMap M fuel c acc
              = some (acc ++ path.reverse) ∧
          FeasiblePath (createPredecessorIdentifications F (topoBlockMap topo)).1 topo tr
            (eval M) j path := by
  obtain ⟨hlen1, hsucc1, _, _, hrec⟩ :=
    createPredecessorIdentifications_spec F (topoBlockMap topo)
  have hT1 := topologicalOrder_of_identifications hT (topoBlockMap topo)
  have hpreds : ∀ b, (createPredecessorIdentifications F (topoBlockMap topo)).1.predecessors b
      = F.predecessors b := predecessors_congr hlen1 hsucc1
  generalize hF1 : (createPredecessorIdentifications F (topoBlockMap topo)).1 = F1 at *
  generalize hP : (createPredecessorIdentifications F (topoBlockMap topo)).2 = preds at *
  obtain ⟨hlen, h0, hdp⟩ := hR
  intro j
  induction j using Nat.strong_induction_on with
  | _ j ih =>
    intro c R hc hRj hev fuel acc hfuel
    obtain ⟨fuel1, rfl⟩ : ∃ f, fuel = f + 1 := ⟨fuel - 1, by omega⟩
    have hjn : j < F.blocks.length := by
      rw [← hT.length_eq]
      exact (List.getElem?_eq_some_iff.1 hc).1
    have hcn : c < F.blocks.length := by
      obtain ⟨c1, hc1, hlt⟩ := hT.getElem?_lt hjn
      rw [hc] at hc1
      cases hc1
      exact hlt
    obtain ⟨blk, hblk⟩ := block_of_lt hcn
    obtain ⟨rmany, rone, rnone⟩ := hrec c blk hblk
    by_cases hj0 : j = 0
    · subst hj0
      have hnil : F.predecessors c = [] := by
        rw [List.eq_nil_iff_forall_not_mem]
        intro p hp
        have := hT.pred_lt hc hp
        omega
      obtain ⟨_, hfind⟩ := rnone hnil
      refine ⟨[c], ?_, ?_, ?_, List.chain'_singleton c⟩
      · simp only [traceBlocksLoop, hfind, List.reverse_singleton]
      · simp [hc]
      · simp [hc]
    · have hj1 : 1 ≤ j := by omega
      have hRj1 := hdp j c hj1 hc
      rw [hRj] at hRj1
      cases hRj1
      unfold disjunction at hev
      by_cases hnil : contributions F1 topo tr dp c = []
      · simp [hnil, hB.getFalse] at hev
      · simp only [hnil, if_false, hB.OrRange, List.any_eq_true] at hev
        obtain ⟨d, hd, hdev⟩ := hev
        obtain ⟨p, hp1, hdp1⟩ := List.mem_filterMap.1 hd
        obtain ⟨f, e, hf, he, _, rfl⟩ := contribution_eq_some hdp1
        rw [hB.And, Bool.and_eq_true] at hdev
        have hp : p ∈ F.predecessors c := by rw [← hpreds]; exact hp1
        have hidx : topo.indexOf p < j := hT.pred_lt hc hp
        have hpn : p < F.blocks.length := (mem_predecessors.1 hp).1
        have hptopo : topo[topo.indexOf p]? = some p := getElem?_indexOf (hT.pred_mem hp)
        have hsub : (topoBlockMap topo).subscript p % 2 ^ 32 = topo.indexOf p := by
          rw [topoBlockMap_subscript hT hpn]
          exact Nat.mod_eq_of_lt (by omega)
        have hpred : ∃ v, preds.find c = some v ∧
            predIdOf valueMap M v = some (topo.indexOf p) := by
          by_cases hmany : 1 < (F.predecessors c).length
          · obtain ⟨phi, hphiblk, hphifind, _, _, _, hkind⟩ := rmany hmany
            refine ⟨_, hphifind, ?_⟩
            have hc1n : c < F1.blocks.length := by rw [hlen1]; exact hcn
            obtain ⟨pb, cb, t, hpb, hcb, ht, _, he1⟩ := edgeFormula_of_pred tr hp1 hc1n
            rw [he] at he1
            cases he1
            rw [hphiblk] at hcb
            cases hcb
            rw [hB.AndRange, List.all_eq_true] at hdev
            have hphi : phi.isPHI = true := by
              unfold Inst.isPHI
              rw [hkind]
            have hmem : tr.transformPHI phi (t.successors.indexOf c) p
                ∈ edgeOperands tr pb { insts := phi :: blk.insts } t p c := by
              unfold edgeOperands BasicBlock.untilFirstInsertionPt
              simp [List.takeWhile_cons_of_pos hphi]
            have hmemc : c ∈ topo := hT.mem_iff.2 hcn
            exact hW c hmemc p hp1 phi (by simp [hphiblk]) t (by simp [hpb, ht]) hphifind
              (hdev.2 _ hmem)
          · have hone : F.predecessors c = [p] := by
              match hps : F.predecessors c with
              | [] => rw [hps] at hp; cases hp
              | [q] =>
                rw [hps] at hp
                rw [List.mem_singleton.1 hp]
              | q :: r :: rest =>
                rw [hps] at hmany
                simp at hmany
            obtain ⟨_, hfind⟩ := rone p hone
            refine ⟨_, hfind, ?_⟩
            rw [hsub]
            exact predIdOf_constant valueMap M 32 _ (by omega)
        obtain ⟨v, hfind, hid⟩ := hpred
        obtain ⟨path, hwalk, hfeas⟩ := ih _ hidx p f hptopo hf hdev.1 fuel1 (acc ++ [c])
          (by omega)
        obtain ⟨hhead, hlast, hchain⟩ := hfeas
        rw [hptopo] at hlast
        have hne : path ≠ [] := by
          intro hpnil
          rw [hpnil] at hlast
          cases hlast
        refine ⟨path ++ [c], ?_, ?_, ?_, ?_⟩
        · simp only [traceBlocksLoop, hfind, hid, hptopo, hwalk]
          simp
        · rw [List.head?_append_of_ne_nil _ hne]
          exact hhead
        · rw [List.getLast?_concat, hc]
        · rw [List.chain'_append]
          refine ⟨hchain, List.chain'_singleton c, ?_⟩
          intro x hx y hy
          rw [Option.mem_def] at hx hy
          rw [hlast] at hx
          cases hx
          simp only [List.head?_cons, Option.some.injEq] at hy
          subst hy
          exact ⟨hp1, e, he, hdev.2⟩

end WalkLemmas

/-! ## The query loop -/

section QueryLemmas

variable {E : Type}

theorem checkedBlocks_append (a b : List Output) :
    checkedBlocks (a ++ b) = checkedBlocks a ++ checkedBlocks b := by
  unfold checkedBlocks
  rw [List.filterMap_append]

theorem checkedBlocks_lines (l : List String) : checkedBlocks (l.map Output.line) = [] := by
  induction l with
  | nil => rfl
  | cons a l ih =>
    unfold checkedBlocks at ih ⊢
    rw [List.map_cons, List.filterMap_cons]
    exact ih

theorem checkedBlocks_SAT (solver : BlockId → E → SolverOutcome)
    (writeTrace : BlockId → Valuation → List String) (q : BlockId × E)
    (rest : List (BlockId × E)) (h : (solver q.1 q.2).isSAT = true) :
    checkedBlocks (checkQueries solver writeTrace (q :: rest)) = [q.1] := by
  obtain ⟨block, formula⟩ := q
  cases hs : solver block formula with
  | SAT model =>
    simp only [checkQueries, hs, checkedBlocks_append, checkedBlocks_lines]
    rfl
  | addThrows msg => simp [hs, SolverOutcome.isSAT] at h
  | runThrows msg => simp [hs, SolverOutcome.isSAT] at h
  | getModelThrows msg => simp [hs, SolverOutcome.isSAT] at h
  | UNSAT => simp [hs, SolverOutcome.isSAT] at h
  | UNKNOWN => simp [hs, SolverOutcome.isSAT] at h

theorem checkedBlocks_not_SAT (solver : BlockId → E → SolverOutcome)
    (writeTrace : BlockId → Valuation → List String) (q : BlockId × E)
    (rest : List (BlockId × E)) (h : (solver q.1 q.2).isSAT = false) :
    checkedBlocks (checkQueries solver writeTrace (q :: rest))
      = q.1 :: checkedBlocks (checkQueries solver writeTrace rest) := by
  obtain ⟨block, formula⟩ := q
  cases hs : solver block formula with
  | SAT model => simp [hs, SolverOutcome.isSAT] at h
  | addThrows msg =>
    simp only [checkQueries, hs, checkedBlocks_append]
    rfl
  | runThrows msg =>
    simp only [checkQueries, hs, checkedBlocks_append]
    rfl
  | getModelThrows msg =>
    simp only [checkQueries, hs, checkedBlocks_append]
    rfl
  | UNSAT =>
    simp only [checkQueries, hs, checkedBlocks_append]
    rfl
  | UNKNOWN =>
    simp only [checkQueries, hs, checkedBlocks_append]
    rfl

end QueryLemmas

/-! ## The assignments of a trace -/

theorem traceBlockAssignments_eq (F : Function) (valueMap : ValueToVariableMap)
    (model : Valuation) :
    ∀ (insts : List Inst) (acc r : List Assignment),
      traceBlockAssignments F valueMap model insts acc = some r →
        r = acc ++ insts.filterMap (fun i => (traceInstruction F valueMap model i).join) := by
  intro insts
  induction insts with
  | nil =>
    intro acc r h
    simp only [traceBlockAssignments, Option.some.injEq] at h
    simp [h]
  | cons i rest ih =>
    intro acc r h
    cases hi : traceInstruction F valueMap model i with
    | none => simp [traceBlockAssignments, hi] at h
    | some o =>
      cases o with
      | none =>
        simp only [traceBlockAssignments, hi] at h
        rw [ih acc r h]
        simp [List.filterMap_cons, hi]
      | some a =>
        simp only [traceBlockAssignments, hi] at h
        rw [ih _ r h]
        simp [List.filterMap_cons, hi]

theorem traceAssignments_eq (F : Function) (valueMap : ValueToVariableMap)
    (model : Valuation) :
    ∀ (bs : List BlockId) (acc r : List Assignment),
      traceAssignments F valueMap model bs acc = some r →
        r = acc ++ (bs.flatMap F.instsOf).filterMap
          (fun i => (traceInstruction F valueMap model i).join) := by
  intro bs
  induction bs with
  | nil =>
    intro acc r h
    simp only [traceAssignments, Option.some.injEq] at h
    simp [h]
  | cons b rest ih =>
    intro acc r h
    cases hb : F.block b with
    | none => simp [traceAssignments, hb] at h
    | some blk =>
      cases ha : traceBlockAssignments F valueMap model blk.insts acc with
      | none => simp [traceAssignments, hb, ha] at h
      | some acc1 =>
        simp only [traceAssignments, hb, ha] at h
        rw [ih acc1 r h, traceBlockAssignments_eq F valueMap model _ _ _ ha]
        simp [List.flatMap_cons, Function.instsOf, hb, List.filterMap_append]

/-! ## The meaning of a reachability formula -/

theorem any_filterMap {α β : Type} (f : α → Option β) (g : β → Bool) (l : List α) :
    (l.filterMap f).any g = l.any (fun x => match f x with
      | some c => g c
      | none => false) := by
  induction l with
  | nil => rfl
  | cons a l ih =>
    rw [List.filterMap_cons]
    cases hf : f a with
    | none => simp [hf, ih]
    | some c => simp [hf, ih]

theorem eval_disjunction {E Val : Type} [DecidableEq E] {F : Function}
    {topo : TopologicalSort} {tr : InstToExpr E} {eval : Val → E → Bool}
    (hB : BuilderSound tr.builder eval) (dp : List E) (b : BlockId) (m : Val) :
    eval m (disjunction tr.builder (contributions F topo tr dp b))
      = (F.predecessors b).any (fun p =>
          conjunctValue (eval m) dp[topo.indexOf p]? (edgeFormula F tr p b)) := by
  have h1 : eval m (disjunction tr.builder (contributions F topo tr dp b))
      = (contributions F topo tr dp b).any (eval m) := by
    unfold disjunction
    by_cases hnil : contributions F topo tr dp b = []
    · simp [hnil, hB.getFalse]
    · simp [hnil, hB.OrRange]
  rw [h1]
  unfold contributions
  rw [any_filterMap]
  congr 1
  funext p
  unfold contribution conjunctValue
  cases hf : dp[topo.indexOf p]? with
  | none => rfl
  | some Rp =>
    cases he : edgeFormula F tr p b with
    | none => rfl
    | some e =>
      by_cases hne : Rp = tr.builder.getFalse
      · simp [hne, hB.getFalse]
      · simp [hne, hB.And]

/-! ## The instruction translator -/

namespace Automaton

lemma getZExtValue_getMaxValue {w : Nat} (h : w ≤ 64) :
    getZExtValue (getMaxValue w) = some (2 ^ w - 1) := by
  have h1 : 2 ^ w ≤ 2 ^ 64 := Nat.pow_le_pow_right (by norm_num) h
  have h2 : 1 ≤ 2 ^ w := Nat.one_le_two_pow
  have h3 : 2 ^ w - 1 < 2 ^ 64 := by omega
  unfold getZExtValue getMaxValue
  rw [if_pos h3]

lemma unsignedCompareOperand_eq (e : Expr) {w : Nat} (h : w ≤ 64) :
    unsignedCompareOperand e w = some (unsignedOperandOf e w) := by
  have h2 : 1 ≤ 2 ^ w := Nat.one_le_two_pow
  simp [unsignedCompareOperand, getZExtValue_getMaxValue h, unsignedOperandOf, Nat.cast_sub h2]

lemma eval_Binary (env : Valuation) (kind : BinaryKind) (a b : Expr) :
    (Expr.Binary kind a b).eval env = evalBinary kind (a.eval env) (b.eval env) := by
  rw [Expr.eval]

lemma eval_Unary (env : Valuation) (kind : UnaryKind) (a : Expr) :
    (Expr.Unary kind a).eval env = evalUnary kind (a.eval env) := by
  rw [Expr.eval]

lemma eval_IntLit (env : Valuation) (value : Int) :
    (Expr.IntLit value).eval env = some (.Int value) := by
  rw [Expr.eval]

lemma eval_BoolLit (env : Valuation) (b : Bool) :
    (Expr.BoolLit b).eval env = some (.Bool b) := by
  rw [Expr.eval]

lemma eval_Select_true (env : Valuation) (cond a b : Expr)
    (h : cond.eval env = some (.Bool true)) : (Expr.Select cond a b).eval env = a.eval env := by
  rw [Expr.eval, h]

lemma eval_Select_false (env : Valuation) (cond a b : Expr)
    (h : cond.eval env = some (.Bool false)) : (Expr.Select cond a b).eval env = b.eval env := by
  rw [Expr.eval, h]

lemma eval_unsignedOperandOf (env : Valuation) (e : Expr) (w : Nat) (x : Int)
    (he : e.eval env = some (.Int x)) :
    (unsignedOperandOf e w).eval env = some (.Int (comparedValue w x)) := by
  have hlt : (mExprBuilder.Lt e (mExprBuilder.IntLit 0)).eval env =
      some (.Bool (decide (x < 0))) := by
    rw [eval_Binary, he, eval_IntLit]
    rfl
  by_cases hx : x < 0
  · rw [decide_eq_true hx] at hlt
    rw [unsignedOperandOf, eval_Select_true env _ _ _ hlt, eval_Binary, he, eval_IntLit]
    simp [evalBinary, comparedValue, hx]
  · rw [decide_eq_false hx] at hlt
    rw [unsignedOperandOf, eval_Select_false env _ _ _ hlt, he]
    simp [comparedValue, hx]

lemma asBool_getType {e r : Expr} (h : asBool e = some r) : r.getType = .BoolType := by
  unfold asBool at h
  split at h
  · next ht => cases h; exact ht
  · cases h; rfl
  · cases h; rfl
  · cases h

lemma asBv_getType {e r : Expr} {w : Nat} (h : asBv e w = some r) :
    ∃ w', r.getType = .BvType w' := by
  unfold asBv at h
  split at h
  · cases h; exact ⟨w, rfl⟩
  · next w' ht => cases h; exact ⟨w', ht⟩
  · cases h

lemma asInt_getType {e r : Expr} (h : asInt e = some r) : r.getType = .IntType := by
  unfold asInt at h
  split at h
  · cases h; rfl
  · next ht => cases h; exact ht
  · cases h

lemma evalWith_Binary (cmp : FloatComparison) (env : Valuation) (kind : BinaryKind)
    (a b : Expr) :
    (Expr.Binary kind a b).evalWith cmp env =
      evalBinaryWith cmp kind (a.evalWith cmp env) (b.evalWith cmp env) := by
  rw [Expr.evalWith]

lemma evalWith_Unary (cmp : FloatComparison) (env : Valuation) (kind : UnaryKind)
    (a : Expr) :
    (Expr.Unary kind a).evalWith cmp env = evalUnary kind (a.evalWith cmp env) := by
  rw [Expr.evalWith]

lemma evalWith_FloatLit (cmp : FloatComparison) (env : Valuation) (value : APFloat) :
    (Expr.FloatLit value).evalWith cmp env = some (.Float value) := by
  rw [Expr.evalWith]

lemma exampleFloatComparison_falseOnNaN : FalseOnNaN exampleFloatComparison := by
  intro kind x y _ h
  rcases h with h | h <;> simp [exampleFloatComparison, h]

theorem lookupVariable_set (m : VariableMap) (value key : Value) (var : Option Variable) :
    lookupVariable (DenseMap.set m key var) value =
      if value = key then var else lookupVariable m value := by
  unfold lookupVariable
  rw [DenseMap.find_set]
  by_cases h : value = key <;> simp [h]

end Automaton

/-! ## The body cache -/

section CacheLemmas

variable {E : Type}

theorem encodeEdge_fst {F : Function} {tr : InstToExpr E} (p b : BlockId)
    (cache : DenseMap BlockId E) (hc : CacheCoherent F tr cache) :
    (encodeEdge F tr p b cache).map Prod.fst = encodeEdgeUncached F tr p b := by
  unfold encodeEdge encodeEdgeUncached
  cases hp : F.block p with
  | none => simp
  | some pb =>
    cases hb : F.block b with
    | none => simp
    | some bb =>
      cases ht : pb.getTerminator with
      | none => simp [ht]
      | some t =>
        by_cases hidx : t.successors.indexOf b = t.getNumSuccessors
        · simp [ht, hidx]
        · cases hf : cache.find p with
          | none => simp [ht, hidx, hf]
          | some e =>
            obtain ⟨blk, hblk, he⟩ := hc p e hf
            rw [hp] at hblk
            cases hblk
            simp [ht, hidx, hf, he]

theorem encodeEdge_cache {F : Function} {tr : InstToExpr E} {p b : BlockId}
    {cache cache1 : DenseMap BlockId E} {e : E}
    (h : encodeEdge F tr p b cache = some (e, cache1)) :
    ((cache.find p).isSome = true ∧ cache1 = cache) ∨
      (cache.find p = none ∧
        ∃ pb, F.block p = some pb ∧ cache1 = cache.set p (bodyFormula tr pb)) := by
  unfold encodeEdge at h
  cases hp : F.block p with
  | none => simp [hp] at h
  | some pb =>
    cases hb : F.block b with
    | none => simp [hp, hb] at h
    | some bb =>
      cases ht : pb.getTerminator with
      | none => simp [hp, hb, ht] at h
      | some t =>
        simp only [hp, hb, ht] at h
        by_cases hidx : t.successors.indexOf b = t.getNumSuccessors
        · simp [hidx] at h
        · simp only [hidx, if_false] at h
          cases hf : cache.find p with
          | none =>
            simp only [hf, Option.some.injEq, Prod.mk.injEq] at h
            exact Or.inr ⟨rfl, pb, rfl, h.2.symm⟩
          | some e1 =>
            simp only [hf, Option.some.injEq, Prod.mk.injEq] at h
            exact Or.inl ⟨rfl, h.2.symm⟩

theorem encodeEdge_coherent {F : Function} {tr : InstToExpr E} {p b : BlockId}
    {cache cache1 : DenseMap BlockId E} {e : E}
    (h : encodeEdge F tr p b cache = some (e, cache1)) (hc : CacheCoherent F tr cache) :
    CacheCoherent F tr cache1 := by
  rcases encodeEdge_cache h with ⟨_, h1⟩ | ⟨_, pb, hpb, h1⟩
  · rw [h1]
    exact hc
  · rw [h1]
    intro b1 e1 hb1
    rw [DenseMap.find_set] at hb1
    by_cases hq : b1 = p
    · simp only [hq, if_true, Option.some.injEq] at hb1
      exact ⟨pb, by rw [hq]; exact hpb, hb1.symm⟩
    · simp only [hq, if_false] at hb1
      exact hc b1 e1 hb1

theorem encodeEdgeCalls_fst {F : Function} {tr : InstToExpr E} :
    ∀ (calls : List (BlockId × BlockId)) (cache : DenseMap BlockId E),
      CacheCoherent F tr cache →
      (encodeEdgeCalls F tr calls cache).map Prod.fst = encodeEdgeUncachedCalls F tr calls := by
  intro calls
  induction calls with
  | nil =>
    intro cache _
    rfl
  | cons c rest ih =>
    intro cache hc
    obtain ⟨p, b⟩ := c
    have h1 : (encodeEdge F tr p b cache).map Prod.fst = encodeEdgeUncached F tr p b :=
      encodeEdge_fst p b cache hc
    unfold encodeEdgeCalls encodeEdgeUncachedCalls
    cases he : encodeEdge F tr p b cache with
    | none =>
      rw [he] at h1
      simp only [Option.map_none'] at h1
      simp [← h1]
    | some r =>
      obtain ⟨e, cache1⟩ := r
      rw [he] at h1
      simp only [Option.map_some'] at h1
      have h2 := ih cache1 (encodeEdge_coherent he hc)
      simp only [← h1]
      cases hr : encodeEdgeCalls F tr rest cache1 with
      | none =>
        rw [hr] at h2
        simp only [Option.map_none'] at h2
        simp [← h2]
      | some r2 =>
        obtain ⟨es, cache2⟩ := r2
        rw [hr] at h2
        simp only [Option.map_some'] at h2
        simp [← h2]

theorem bodyTranslations_spec {F : Function} {tr : InstToExpr E} :
    ∀ (calls : List (BlockId × BlockId)) (cache : DenseMap BlockId E),
      (bodyTranslations F tr calls cache).Nodup ∧
        ∀ q ∈ bodyTranslations F tr calls cache, cache.find q = none := by
  intro calls
  induction calls with
  | nil =>
    intro cache
    simp [bodyTranslations]
  | cons c rest ih =>
    intro cache
    obtain ⟨p, b⟩ := c
    unfold bodyTranslations
    cases he : encodeEdge F tr p b cache with
    | none => simp
    | some r =>
      obtain ⟨e, cache1⟩ := r
      obtain ⟨hnd, hmem⟩ := ih cache1
      simp only
      rcases encodeEdge_cache he with ⟨hs, h1⟩ | ⟨hn, pb, _, h1⟩
      · have : (cache.find p).isNone = false := by
          cases hf : cache.find p with
          | none => simp [hf] at hs
          | some _ => rfl
        simp only [this, Bool.false_eq_true, if_false, List.nil_append]
        subst h1
        exact ⟨hnd, hmem⟩
      · have hfind : ∀ q, cache1.find q = if q = p then some (bodyFormula tr pb)
            else cache.find q := by
          intro q
          rw [h1, DenseMap.find_set]
        simp only [hn, Option.isNone_none, if_true, List.singleton_append]
        refine ⟨List.nodup_cons.2 ⟨?_, hnd⟩, ?_⟩
        · intro hin
          have := hmem p hin
          rw [hfind p] at this
          simp at this
        · intro q hq
          rcases List.mem_cons.1 hq with hq | hq
          · rw [hq]
            exact hn
          · have := hmem q hq
            rw [hfind q] at this
            by_cases hqp : q = p
            · simp [hqp] at this
            · simpa [hqp] using this

end CacheLemmas

/-! ## Termination of the backward walk -/

theorem predecessorsDecrease_spec {topo : TopologicalSort} {preds : DenseMap BlockId Value}
    {valueMap : ValueToVariableMap} {model : Valuation}
    (h : predecessorsDecrease topo preds valueMap model = true) {i : Nat} {c : BlockId}
    (hc : topo[i]? = some c) {v : Value} (hv : preds.find c = some v) :
    ∃ k, predIdOf valueMap model v = some k ∧ k < i := by
  unfold predecessorsDecrease at h
  rw [List.all_eq_true] at h
  have hi : i < topo.length := (List.getElem?_eq_some_iff.1 hc).1
  have := h i (List.mem_range.2 hi)
  simp only [hc, hv] at this
  cases hk : predIdOf valueMap model v with
  | none => simp [hk] at this
  | some k =>
    simp only [hk, decide_eq_true_eq] at this
    exact ⟨k, rfl, this⟩

theorem traceBlocksLoop_terminates {topo : TopologicalSort} {preds : DenseMap BlockId Value}
    {valueMap : ValueToVariableMap} {model : Valuation}
    (h : predecessorsDecrease topo preds valueMap model = true) :
    ∀ (j : Nat) (c : BlockId), topo[j]? = some c →
      ∃ path first, path.length ≤ j + 1 ∧ path.head? = some c ∧
        path.getLast? = some first ∧ preds.find first = none ∧
        ∀ (fuel : Nat) (acc : List BlockId), j < fuel →
          traceBlocksLoop topo preds valueMap model fuel c acc = some (acc ++ path) := by
  intro j
  induction j using Nat.strong_induction_on with
  | _ j ih =>
    intro c hc
    cases hv : preds.find c with
    | none =>
      refine ⟨[c], c, by simp, rfl, rfl, hv, ?_⟩
      intro fuel acc hf
      obtain ⟨f, rfl⟩ : ∃ f, fuel = f + 1 := ⟨fuel - 1, by omega⟩
      simp [traceBlocksLoop, hv]
    | some v =>
      obtain ⟨k, hk, hlt⟩ := predecessorsDecrease_spec h hc hv
      have hj : j < topo.length := (List.getElem?_eq_some_iff.1 hc).1
      have hkl : k < topo.length := by omega
      obtain ⟨path, first, hlen, hhead, hlast, hnone, hrun⟩ :=
        ih k hlt topo[k] (List.getElem?_eq_getElem hkl)
      refine ⟨c :: path, first, by simp; omega, rfl, ?_, hnone, ?_⟩
      · cases path with
        | nil => simp at hhead
        | cons x xs =>
          rw [List.getLast?_cons_cons]
          exact hlast
      · intro fuel acc hf
        obtain ⟨f, rfl⟩ : ∃ f, fuel = f + 1 := ⟨fuel - 1, by omega⟩
        simp only [traceBlocksLoop, hv, hk, List.getElem?_eq_getElem hkl]
        rw [hrun f (acc ++ [c]) (by omega)]
        simp

/-! # The claims -/

section Claims

variable {E : Type}

/-- C1: for a function whose blocks are numbered in a topological order, every
reachability formula `R[i]` that `encode` computes is true under a valuation `M`
exactly when the control-flow graph has a path from block `topo[0]` to block
`topo[i]` all of whose edge formulas are true under `M`; hence an unsatisfiable
`R[i]` leaves no such path under any valuation. -/
theorem encode_reachability_iff_feasible_path [DecidableEq E] {Val : Type} (F : Function)
    (topo : TopologicalSort) (tr : InstToExpr E) (eval : Val → E → Bool)
    (hB : BuilderSound tr.builder eval) (hT : TopologicalOrder F topo) :
    ∃ dp cache, encodeReachability F topo tr = some (dp, cache) ∧
      dp.length = F.blocks.length ∧
      (∀ (M : Val) (i : Nat), i < F.blocks.length →
        ∃ R, dp[i]? = some R ∧
          (eval M R = true ↔ ∃ path, FeasiblePath F topo tr (eval M) i path)) ∧
      (∀ (i : Nat), i < F.blocks.length →
        ∃ R, dp[i]? = some R ∧
          ((∀ M, eval M R = false) → ∀ M path, ¬ FeasiblePath F topo tr (eval M) i path)) := by
  obtain ⟨dp, cache, henc, hR, _⟩ := encodeReachability_spec tr hT
  refine ⟨dp, cache, henc, hR.1, ?_, ?_⟩
  · intro M i hi
    exact reach_iff_path hB hT hR M i hi
  · intro i hi
    have hlt : i < dp.length := by rw [hR.1]; exact hi
    refine ⟨dp[i], List.getElem?_eq_getElem hlt, ?_⟩
    intro hunsat M path hpath
    obtain ⟨R, hRi, hiff⟩ := reach_iff_path hB hT hR M i hi
    rw [List.getElem?_eq_getElem hlt] at hRi
    cases hRi
    have := hiff.2 ⟨path, hpath⟩
    rw [hunsat M] at this
    cases this

/-- Witness of C1 on the diamond-shaped function. -/
theorem encode_reachability_iff_feasible_path_witness :
    BuilderSound diamondTranslator.builder Expr.holds ∧
    TopologicalOrder diamondWithPreds diamondTopo ∧
    ∃ dp cache, encodeReachability diamondWithPreds diamondTopo diamondTranslator
        = some (dp, cache) ∧
      dp.length = diamondWithPreds.blocks.length ∧
      (∀ (M : Valuation) (i : Nat), i < diamondWithPreds.blocks.length →
        ∃ R, dp[i]? = some R ∧
          (Expr.holds M R = true ↔
            ∃ path, FeasiblePath diamondWithPreds diamondTopo diamondTranslator
              (Expr.holds M) i path)) ∧
      (∀ (i : Nat), i < diamondWithPreds.blocks.length →
        ∃ R, dp[i]? = some R ∧
          ((∀ M, Expr.holds M R = false) →
            ∀ M path, ¬ FeasiblePath diamondWithPreds diamondTopo diamondTranslator
              (Expr.holds M) i path)) :=
  ⟨foldingBuilder_sound, by decide,
    encode_reachability_iff_feasible_path diamondWithPreds diamondTopo diamondTranslator
      Expr.holds foldingBuilder_sound (by decide)⟩

/-- C2: `encode` sets `R[0] = True` and, for every block `i ≥ 1` of the topological
order, sets `R[i]` to the disjunction, over the predecessors `p` of the block in
order, of `And(R[p], encodeEdge(p, i))`, where a predecessor whose formula is the
literal `False` contributes no disjunct; with no contributing predecessor
`R[i] = False`. Under every valuation `R[i]` has the value of the disjunction of
`R[p] ∧ encodeEdge(p, i)` over all predecessors `p`. -/
theorem encode_reachability_recurrence [DecidableEq E] (F : Function)
    (topo : TopologicalSort) (tr : InstToExpr E) (hT : TopologicalOrder F topo) :
    ∃ dp cache, encodeReachability F topo tr = some (dp, cache) ∧
      dp.length = F.blocks.length ∧ dp[0]? = some tr.builder.getTrue ∧
      ∀ i b, 1 ≤ i → topo[i]? = some b →
        dp[i]? = some (if contributions F topo tr dp b = [] then tr.builder.getFalse
          else tr.builder.OrRange (contributions F topo tr dp b)) ∧
        contributions F topo tr dp b
          = (F.predecessors b).filterMap (contribution F topo tr dp b) ∧
        (∀ p ∈ F.predecessors b, ∃ Rp e, dp[topo.indexOf p]? = some Rp ∧
          (encodeEdge F tr p b []).map Prod.fst = some e ∧
          contribution F topo tr dp b p
            = if Rp ≠ tr.builder.getFalse then some (tr.builder.And Rp e) else none) ∧
        ∀ (Val : Type) (eval : Val → E → Bool), BuilderSound tr.builder eval →
          ∀ M, ∃ R, dp[i]? = some R ∧
            eval M R = (F.predecessors b).any (fun p =>
              conjunctValue (eval M) dp[topo.indexOf p]?
                ((encodeEdge F tr p b []).map Prod.fst)) := by
  obtain ⟨dp, cache, henc, hR, _⟩ := encodeReachability_spec tr hT
  refine ⟨dp, cache, henc, hR.1, hR.2.1, ?_⟩
  intro i b hi hb
  refine ⟨hR.2.2 i b hi hb, rfl, ?_, ?_⟩
  · intro p hp
    have hin : i < F.blocks.length := by
      rw [← hT.length_eq]
      exact (List.getElem?_eq_some_iff.1 hb).1
    obtain ⟨b1, hb1, hbn⟩ := hT.getElem?_lt hin
    rw [hb] at hb1
    cases hb1
    have hidx : topo.indexOf p < i := hT.pred_lt hb hp
    have hlt : topo.indexOf p < dp.length := by rw [hR.1]; omega
    obtain ⟨pb, bb, t, _, _, _, _, he⟩ := edgeFormula_of_pred tr hp hbn
    refine ⟨dp[topo.indexOf p], _, List.getElem?_eq_getElem hlt, he, ?_⟩
    unfold contribution
    rw [List.getElem?_eq_getElem hlt, he]
  · intro Val eval hB M
    exact ⟨_, hR.2.2 i b hi hb, eval_disjunction hB dp b M⟩

/-- Witness of C2 on the diamond-shaped function: the formula of the join block 1
(index 3) is the disjunction of the contributions of its predecessors 2 and 3. -/
theorem encode_reachability_recurrence_witness :
    TopologicalOrder diamondWithPreds diamondTopo ∧
    diamondWithPreds.predecessors 1 = [2, 3] ∧
    ∃ dp cache, encodeReachability diamondWithPreds diamondTopo diamondTranslator
        = some (dp, cache) ∧
      dp.length = diamondWithPreds.blocks.length ∧
      dp[0]? = some diamondTranslator.builder.getTrue ∧
      ∀ i b, 1 ≤ i → diamondTopo[i]? = some b →
        dp[i]? = some
          (if contributions diamondWithPreds diamondTopo diamondTranslator dp b = []
          then diamondTranslator.builder.getFalse
          else diamondTranslator.builder.OrRange
            (contributions diamondWithPreds diamondTopo diamondTranslator dp b)) ∧
        contributions diamondWithPreds diamondTopo diamondTranslator dp b
          = (diamondWithPreds.predecessors b).filterMap
              (contribution diamondWithPreds diamondTopo diamondTranslator dp b) ∧
        (∀ p ∈ diamondWithPreds.predecessors b, ∃ Rp e,
          dp[diamondTopo.indexOf p]? = some Rp ∧
          (encodeEdge diamondWithPreds diamondTranslator p b []).map Prod.fst = some e ∧
          contribution diamondWithPreds diamondTopo diamondTranslator dp b p
            = if Rp ≠ diamondTranslator.builder.getFalse
              then some (diamondTranslator.builder.And Rp e) else none) ∧
        ∀ (Val : Type) (eval : Val → Expr → Bool),
          BuilderSound diamondTranslator.builder eval →
          ∀ M, ∃ R, dp[i]? = some R ∧
            eval M R = (diamondWithPreds.predecessors b).any (fun p =>
              conjunctValue (eval M) dp[diamondTopo.indexOf p]?
                ((encodeEdge diamondWithPreds diamondTranslator p b []).map Prod.fst)) :=
  ⟨by decide, by decide,
    encode_reachability_recurrence diamondWithPreds diamondTopo diamondTranslator
      (by decide)⟩

/-- C4: when `to` is a successor of `from` and the body cache is coherent,
`encodeEdge(from, to)` is the conjunction, in this order, of the body formula of
`from` (the conjunction of the translations of its non-PHI, non-terminator
instructions), the translation of the terminator of `from` for the successor index
that selects `to`, and the translation of every PHI node of `to` for the incoming
block `from`. -/
theorem encodeEdge_is_conjunction (F : Function) (tr : InstToExpr E)
    (fromBB toBB : BlockId) (fromBlock toBlock : BasicBlock) (terminator : Inst)
    (cache : DenseMap BlockId E)
    (hfrom : F.block fromBB = some fromBlock) (hto : F.block toBB = some toBlock)
    (hterm : fromBlock.getTerminator = some terminator)
    (hsucc : toBB ∈ terminator.successors)
    (hgroupFrom : fromBlock.phisGrouped) (hgroupTo : toBlock.phisGrouped)
    (hcache : CacheCoherent F tr cache) :
    (encodeEdge F tr fromBB toBB cache).map Prod.fst = some (tr.builder.AndRange
      (tr.builder.AndRange
          ((fromBlock.insts.filter (fun it => !it.isPHI && !it.isTerminator)).map
            tr.transform)
        :: tr.transformTerminator terminator (terminator.successors.indexOf toBB)
        :: (toBlock.insts.filter Inst.isPHI).map
            (fun it => tr.transformPHI it (terminator.successors.indexOf toBB) fromBB))) := by
  obtain ⟨cache1, henc, _⟩ := encodeEdge_eq hfrom hto hterm hsucc cache hcache
  rw [henc, filter_body_eq_dropWhile _ hgroupFrom, filter_isPHI_eq_takeWhile _ hgroupTo]
  rfl

/-- Witness of C4: the edge from block 2 to block 1 of the diamond, whose target
has a PHI node. -/
theorem encodeEdge_is_conjunction_witness :
    (encodeEdge diamondWithPreds diamondTranslator 2 1 []).map Prod.fst
      = some (.And (.cons (.BoolLit true) (.cons (.BoolLit true)
          (.cons (.Eq (.VarRef ⟨"pred3"⟩) (.BvLit 1 32)) .nil)))) :=
  encodeEdge_is_conjunction diamondWithPreds diamondTranslator 2 1
    { insts := [mkInst 5 "x" .Other, mkInst 6 "" (.Terminator [1])] }
    { insts := [
        { id := 8, name := "pred3", type := .integer 32,
          kind := .PHI [(.ConstantInt 32 1, 2), (.ConstantInt 32 2, 3)], debugLoc := none },
        mkInst 3 "" (.Call (some "__VERIFIER_error") []), mkInst 4 "" (.Terminator [])] }
    (mkInst 6 "" (.Terminator [1])) []
    (by decide) (by decide) (by decide) (by decide) (by decide) (by decide)
    (CacheCoherent.nil _ _)

/-- C3 (counterexample): a block that calls `gazer.error_code` is an error location
of the specification, yet `isErrorBlock` rejects it and `encode` returns an empty
query set for the function made of that block; the query set is not the one the
claim describes. -/
theorem encode_query_set_misses_gazer_error_code :
    callsRoutineIn specErrorRoutineNames
        { insts := [mkInst 1 "" (.Call (some "gazer.error_code") []),
                    mkInst 2 "" (.Terminator [])] } = true ∧
      isErrorBlock
        { insts := [mkInst 1 "" (.Call (some "gazer.error_code") []),
                    mkInst 2 "" (.Terminator [])] } = some false ∧
      encode errorCodeFunction [0] diamondTranslator = some [] ∧
      encodeReachability errorCodeFunction [0] diamondTranslator
        = some ([Expr.BoolLit true], []) ∧
      ¬ QuerySetFor specErrorRoutineNames errorCodeFunction [0] [Expr.BoolLit true]
          ([] : DenseMap BlockId Expr) := by
  refine ⟨by decide, by decide, by decide, by decide, ?_⟩
  intro h
  have h0 := h.2 0
  revert h0
  decide

/-- C3 (amended): for a function in topological order all of whose calls have a
statically known callee, the query set returned by `encode` has exactly one entry
per error location, where a block is an error location if and only if it contains
a call to a routine named `__VERIFIER_error`, `__assert_fail` or `__gazer_error`;
the entry of such a block is its reachability formula. -/
theorem encode_query_set [DecidableEq E] (F : Function) (topo : TopologicalSort)
    (tr : InstToExpr E) (hT : TopologicalOrder F topo)
    (hcalls : ∀ blk ∈ F.blocks, noIndirectCall blk) :
    ∃ result dp cache, encode F topo tr = some result ∧
      encodeReachability F topo tr = some (dp, cache) ∧
      (result.map Prod.fst).Nodup ∧
      ∀ b, result.find b =
        match F.block b with
        | some blk =>
          if callsRoutineIn ["__VERIFIER_error", "__assert_fail", "__gazer_error"] blk
          then dp[topo.indexOf b]? else none
        | none => none := by
  obtain ⟨result, dp, cache, h1, h2, h3, h4⟩ := encode_spec tr hT hcalls
  exact ⟨result, dp, cache, h1, h2, h3, h4⟩

/-- Witness of the amended C3 on the diamond-shaped function. -/
theorem encode_query_set_witness :
    TopologicalOrder diamondWithPreds diamondTopo ∧
    (∀ blk ∈ diamondWithPreds.blocks, noIndirectCall blk) ∧
    ∃ result dp cache, encode diamondWithPreds diamondTopo diamondTranslator = some result ∧
      encodeReachability diamondWithPreds diamondTopo diamondTranslator = some (dp, cache) ∧
      (result.map Prod.fst).Nodup ∧
      ∀ b, result.find b =
        match diamondWithPreds.block b with
        | some blk =>
          if callsRoutineIn ["__VERIFIER_error", "__assert_fail", "__gazer_error"] blk
          then dp[diamondTopo.indexOf b]? else none
        | none => none :=
  ⟨by decide, by decide,
    encode_query_set diamondWithPreds diamondTopo diamondTranslator (by decide) (by decide)⟩

/-- C5: when the reachability formula `R[e]` of a block `e` (in particular of an
error block) is satisfied by a model `M`, and the PHI-assignment formulas pin the
predecessor witnesses, the block sequence that `BmcTrace::Create` reconstructs from
`M` and the predecessor witnesses (given enough iterations) is a path of the
control-flow graph from the entry block `topo[0]` to `e`, and the edge formula of
every pair of consecutive blocks on it is true under `M`. -/
theorem trace_blocks_form_feasible_path [DecidableEq E] (F : Function)
    (topo : TopologicalSort) (tr : InstToExpr E) (eval : Valuation → E → Bool)
    (valueMap : ValueToVariableMap) (M : Valuation) (errorBlock : BlockId) (i : Nat)
    (dp : List E) (R : E)
    (hT : TopologicalOrder F topo) (hsize : F.blocks.length ≤ 2 ^ 32)
    (hB : BuilderSound tr.builder eval)
    (hW : PredecessorWitnessesSound (createPredecessorIdentifications F (topoBlockMap topo)).1
      topo (createPredecessorIdentifications F (topoBlockMap topo)).2 tr (eval M) valueMap M)
    (hi : topo[i]? = some errorBlock)
    (henc : (encodeReachability (createPredecessorIdentifications F (topoBlockMap topo)).1
      topo tr).map Prod.fst = some dp)
    (hRi : dp[i]? = some R) (hsat : eval M R = true)
    (fuel : Nat) (hfuel : F.blocks.length ≤ fuel) :
    ∃ path, createTraceBlocks topo (createPredecessorIdentifications F (topoBlockMap topo)).2
        valueMap M errorBlock fuel = some path ∧
      path.head? = topo[0]? ∧ path.getLast? = some errorBlock ∧
      path.Chain' (EdgeHolds (createPredecessorIdentifications F (topoBlockMap topo)).1 tr
        (eval M)) := by
  have hT1 := topologicalOrder_of_identifications hT (topoBlockMap topo)
  obtain ⟨dp1, cache, henc1, hR, _⟩ := encodeReachability_spec tr hT1
  rw [henc1] at henc
  cases henc
  have hin : i < F.blocks.length := by
    rw [← hT.length_eq]
    exact (List.getElem?_eq_some_iff.1 hi).1
  obtain ⟨path, hwalk, hhead, hlast, hchain⟩ :=
    traceBlocksLoop_feasible hT hsize hB valueMap M hW hR i errorBlock R hi hRi hsat fuel []
      (by omega)
  refine ⟨path, ?_, hhead, by rw [hlast, hi], hchain⟩
  unfold createTraceBlocks
  rw [hwalk]
  simp

/-- Witness of C5: the diamond-shaped function with the model of the run through
block 2; the reconstructed block sequence is a feasible path. -/
theorem trace_blocks_form_feasible_path_witness :
    TopologicalOrder diamond diamondTopo ∧ diamond.blocks.length ≤ 2 ^ 32 ∧
    PredecessorWitnessesSound diamondWithPreds diamondTopo diamondPreds diamondTranslator
      (Expr.holds diamondModel) diamondValueMap diamondModel ∧
    diamondTopo[3]? = some 1 ∧ diamondReachability[3]? = some diamondQuery ∧
    Expr.holds diamondModel diamondQuery = true ∧
    ∃ path, createTraceBlocks diamondTopo diamondPreds diamondValueMap diamondModel 1 4
        = some path ∧
      path.head? = diamondTopo[0]? ∧ path.getLast? = some 1 ∧
      path.Chain' (EdgeHolds diamondWithPreds diamondTranslator (Expr.holds diamondModel)) :=
  ⟨by decide, by decide, by decide, by decide, by decide, by decide,
    trace_blocks_form_feasible_path diamond diamondTopo diamondTranslator Expr.holds
      diamondValueMap diamondModel 1 3 diamondReachability diamondQuery
      (by decide) (by decide) foldingBuilder_sound (by decide) (by decide) (by decide)
      (by decide) (by decide) 4 (by decide)⟩

/-- C6: for a function in topological order with at most `2^32` blocks, the
predecessor identification of `runOnFunction` records, for each block with more
than one incoming edge, a new `i32` PHI node named `pred<id>` placed at the front of
the block whose incoming value for each predecessor `p` is the constant topological
index of `p`; for each block with exactly one incoming edge, the constant
topological index of that predecessor and no PHI node; and nothing for a block
without predecessor. The inserted PHI nodes have identities that no other
instruction has. -/
theorem predecessor_identification_records (F : Function) (topo : TopologicalSort)
    (hT : TopologicalOrder F topo) (hsize : F.blocks.length ≤ 2 ^ 32) :
    (F.instIds.Nodup →
      (createPredecessorIdentifications F (topoBlockMap topo)).1.instIds.Nodup) ∧
    ∀ b blk, F.block b = some blk →
      (1 < (F.predecessors b).length →
        ∃ phi : Inst,
          (createPredecessorIdentifications F (topoBlockMap topo)).1.block b
            = some { insts := phi :: blk.insts } ∧
          (createPredecessorIdentifications F (topoBlockMap topo)).2.find b
            = some (Value.Inst phi.id) ∧
          phi.id ∉ F.instIds ∧
          phi.name = "pred" ++ toString (topo.indexOf b) ∧ phi.type = LLType.integer 32 ∧
          phi.kind = InstKind.PHI ((F.predecessors b).map
            (fun p => (Value.ConstantInt 32 (topo.indexOf p), p)))) ∧
      (∀ p, F.predecessors b = [p] →
        (createPredecessorIdentifications F (topoBlockMap topo)).1.block b = some blk ∧
        (createPredecessorIdentifications F (topoBlockMap topo)).2.find b
          = some (Value.ConstantInt 32 (topo.indexOf p))) ∧
      (F.predecessors b = [] →
        (createPredecessorIdentifications F (topoBlockMap topo)).1.block b = some blk ∧
        (createPredecessorIdentifications F (topoBlockMap topo)).2.find b = none) := by
  obtain ⟨_, _, _, hnd, hrec⟩ := createPredecessorIdentifications_spec F (topoBlockMap topo)
  refine ⟨hnd, ?_⟩
  intro b blk hb
  have hbn : b < F.blocks.length := by
    unfold Function.block at hb
    exact (List.getElem?_eq_some_iff.1 hb).1
  have hconst : ∀ p ∈ F.predecessors b,
      (topoBlockMap topo).subscript p % 2 ^ 32 = topo.indexOf p := by
    intro p hp
    have hpn : p < F.blocks.length := (mem_predecessors.1 hp).1
    rw [topoBlockMap_subscript hT hpn]
    apply Nat.mod_eq_of_lt
    have : topo.indexOf p < topo.length := List.indexOf_lt_length.2 (hT.pred_mem hp)
    rw [hT.length_eq] at this
    omega
  obtain ⟨rmany, rone, rnone⟩ := hrec b blk hb
  refine ⟨?_, ?_, rnone⟩
  · intro hmany
    obtain ⟨phi, h1, h2, h3, h4, h5, h6⟩ := rmany hmany
    refine ⟨phi, h1, h2, h3, ?_, h5, ?_⟩
    · rw [h4, topoBlockMap_subscript hT hbn]
    · rw [h6]
      congr 1
      apply List.map_congr_left
      intro p hp
      rw [hconst p hp]
  · intro p hp
    obtain ⟨h1, h2⟩ := rone p hp
    refine ⟨h1, ?_⟩
    rw [h2, hconst p (by rw [hp]; exact List.mem_singleton_self p)]

/-- Witness of C6: block 1 of the diamond has two incoming edges and block 2 has
one. -/
theorem predecessor_identification_records_witness :
    TopologicalOrder diamond diamondTopo ∧ diamond.blocks.length ≤ 2 ^ 32 ∧
    (createPredecessorIdentifications diamond (topoBlockMap diamondTopo)).2.find 1
      = some (Value.Inst 8) ∧
    (createPredecessorIdentifications diamond (topoBlockMap diamondTopo)).2.find 2
      = some (Value.ConstantInt 32 0) ∧
    ((diamond.instIds.Nodup →
      (createPredecessorIdentifications diamond (topoBlockMap diamondTopo)).1.instIds.Nodup) ∧
    ∀ b blk, diamond.block b = some blk →
      (1 < (diamond.predecessors b).length →
        ∃ phi : Inst,
          (createPredecessorIdentifications diamond (topoBlockMap diamondTopo)).1.block b
            = some { insts := phi :: blk.insts } ∧
          (createPredecessorIdentifications diamond (topoBlockMap diamondTopo)).2.find b
            = some (Value.Inst phi.id) ∧
          phi.id ∉ diamond.instIds ∧
          phi.name = "pred" ++ toString (diamondTopo.indexOf b) ∧
          phi.type = LLType.integer 32 ∧
          phi.kind = InstKind.PHI ((diamond.predecessors b).map
            (fun p => (Value.ConstantInt 32 (diamondTopo.indexOf p), p)))) ∧
      (∀ p, diamond.predecessors b = [p] →
        (createPredecessorIdentifications diamond (topoBlockMap diamondTopo)).1.block b
          = some blk ∧
        (createPredecessorIdentifications diamond (topoBlockMap diamondTopo)).2.find b
          = some (Value.ConstantInt 32 (diamondTopo.indexOf p))) ∧
      (diamond.predecessors b = [] →
        (createPredecessorIdentifications diamond (topoBlockMap diamondTopo)).1.block b
          = some blk ∧
        (createPredecessorIdentifications diamond (topoBlockMap diamondTopo)).2.find b
          = none)) :=
  ⟨by decide, by decide, by decide, by decide,
    predecessor_identification_records diamond diamondTopo (by decide) (by decide)⟩

/-- C7: the query loop of `runOnFunction` checks the queries one at a time: after
queries `pre` none of which is `SAT` (their status is `UNSAT` or unknown, or a
solver call throws) the next query is checked; when that query is `SAT` it is the
last one checked, whatever follows it; and when no query is `SAT` all are
checked. -/
theorem checkQueries_stops_at_first_SAT (solver : BlockId → E → SolverOutcome)
    (writeTrace : BlockId → Valuation → List String) (pre : List (BlockId × E))
    (hpre : ∀ x ∈ pre, (solver x.1 x.2).isSAT = false) :
    (∀ q post, (solver q.1 q.2).isSAT = true →
      checkedBlocks (checkQueries solver writeTrace (pre ++ q :: post))
        = (pre ++ [q]).map Prod.fst) ∧
    (∀ next post, ∃ later,
      checkedBlocks (checkQueries solver writeTrace (pre ++ next :: post))
        = (pre ++ [next]).map Prod.fst ++ later) ∧
    checkedBlocks (checkQueries solver writeTrace pre) = pre.map Prod.fst := by
  induction pre with
  | nil =>
    refine ⟨?_, ?_, rfl⟩
    · intro q post hq
      exact checkedBlocks_SAT solver writeTrace q post hq
    · intro next post
      cases hn : (solver next.1 next.2).isSAT with
      | true => exact ⟨[], by simp [checkedBlocks_SAT solver writeTrace next post hn]⟩
      | false =>
        exact ⟨checkedBlocks (checkQueries solver writeTrace post),
          by simp [checkedBlocks_not_SAT solver writeTrace next post hn]⟩
  | cons x pre ih =>
    have hx : (solver x.1 x.2).isSAT = false := hpre x (List.mem_cons_self _ _)
    obtain ⟨ih1, ih2, ih3⟩ := ih (fun y hy => hpre y (List.mem_cons_of_mem _ hy))
    refine ⟨?_, ?_, ?_⟩
    · intro q post hq
      rw [List.cons_append, checkedBlocks_not_SAT solver writeTrace x _ hx, ih1 q post hq]
      rfl
    · intro next post
      obtain ⟨later, hl⟩ := ih2 next post
      refine ⟨later, ?_⟩
      rw [List.cons_append, checkedBlocks_not_SAT solver writeTrace x _ hx, hl]
      rfl
    · rw [checkedBlocks_not_SAT solver writeTrace x _ hx, ih3]
      rfl

/-- Witness of C7: an `UNSAT` query and a query on which the solver throws, followed
by a `SAT` query and one more query; the last one is not checked. -/
theorem checkQueries_stops_at_first_SAT_witness :
    (∀ x ∈ [((0 : BlockId), Expr.BoolLit false), (1, Expr.BoolLit true)],
      (exampleSolver x.1 x.2).isSAT = false) ∧
    (exampleSolver 2 (Expr.BoolLit true)).isSAT = true ∧
    checkedBlocks (checkQueries exampleSolver exampleWriter
      ([((0 : BlockId), Expr.BoolLit false), (1, Expr.BoolLit true)]
        ++ (2, Expr.BoolLit true) :: [(3, Expr.BoolLit true)])) = [0, 1, 2] :=
  ⟨by decide, by decide,
    (checkQueries_stops_at_first_SAT exampleSolver exampleWriter
      [((0 : BlockId), Expr.BoolLit false), (1, Expr.BoolLit true)] (by decide)).1
      (2, Expr.BoolLit true) [(3, Expr.BoolLit true)] (by decide)⟩

/-- C8 (counterexample): for a result that is neither a failure nor a success,
`runOnModule` prints nothing, so it does not print exactly one of the three
outcomes. -/
theorem runOnModule_prints_nothing_when_inconclusive :
    (runOnModule { isFail := false, isSuccess := false }).1 = [] ∧
    ¬ ∃ s ∈ userVisibleOutcomes,
      (runOnModule { isFail := false, isSuccess := false }).1 = [s] := by
  decide

/-- C8 (amended): `runOnModule` prints `Verification FAILED.` for a fail result,
`Verification SUCCESSFUL.` for a result that is not a fail result and is a success,
and nothing for any other result; it never prints more than one outcome. -/
theorem runOnModule_output (mResult : VerificationResult) :
    (runOnModule mResult).1 =
      (if mResult.isFail then ["Verification FAILED.\n"]
       else if mResult.isSuccess then ["Verification SUCCESSFUL.\n"]
       else []) ∧
    (runOnModule mResult).1.length ≤ 1 ∧ (runOnModule mResult).2 = false := by
  unfold runOnModule
  cases mResult.isFail <;> cases mResult.isSuccess <;> simp

/-- C9 (counterexample): in `annotatedFunction` the variable of `x` has no value in
the empty model; the debug-value annotation of `x` is dropped from the trace and
only the `gazer.inlined_global.write` call yields an assignment. -/
theorem debug_value_without_model_value_is_dropped :
    traceInstruction annotatedFunction annotatedValueMap []
      (mkInst 2 "" (.DbgValue (some (.Inst 1)) (some "x"))) = some none ∧
    BmcTrace.Create annotatedFunction [0] [] 0 [] annotatedValueMap 1
      = some { blocks := [0]
               assignments := [{ var := none, expr := none, value := .Inst 1
                                 location := { row := -1, column := -1 }
                                 variableName := "g" }] } := by
  decide

/-- C9 (amended): the assignments of a trace are the events of the instructions of
its blocks, in order, none dropped once produced; a `gazer.inlined_global.write`
call whose value is not a constant and has no value in the model produces an event
with an absent value; a debug-value annotation whose value has no variable, or whose
variable has no value in the model, produces no event. -/
theorem trace_assignments_without_model_value (F : Function) (topo : TopologicalSort)
    (preds : DenseMap BlockId Value) (errorBlock : BlockId) (model : Valuation)
    (valueMap : ValueToVariableMap) (fuel : Nat) (t : BmcTrace)
    (hcreate : BmcTrace.Create F topo preds errorBlock model valueMap fuel = some t) :
    t.assignments = (t.blocks.flatMap F.instsOf).filterMap
      (fun i => (traceInstruction F valueMap model i).join) ∧
    (∀ (instr : Inst) (value : Value) (globalName : String) (rest : List Operand),
      instr.kind = .Call (some "gazer.inlined_global.write")
        (.MDValue value :: .MDGlobal globalName :: rest) →
      (∀ bits v, value ≠ .ConstantInt bits v) →
      (∀ var, valueMap.find value = some var → model.find var = none) →
      traceInstruction F valueMap model instr
        = some (some { var := none, expr := none, value := value
                       location := locationOf instr.debugLoc
                       variableName := globalName })) ∧
    (∀ (instr : Inst) (value : Value) (diVar : String),
      instr.kind = .DbgValue (some value) (some diVar) →
      (∀ var, valueMap.find value = some var → model.find var = none) →
      traceInstruction F valueMap model instr = some none) := by
  refine ⟨?_, ?_, ?_⟩
  · unfold BmcTrace.Create at hcreate
    cases hb : createTraceBlocks topo preds valueMap model errorBlock fuel with
    | none => simp [hb] at hcreate
    | some traceBlocks =>
      cases ha : traceAssignments F valueMap model traceBlocks [] with
      | none => simp [hb, ha] at hcreate
      | some assigns =>
        simp only [hb, ha, Option.some.injEq] at hcreate
        subst hcreate
        simpa using traceAssignments_eq F valueMap model traceBlocks [] assigns ha
  · intro instr value globalName rest hkind hconst hmodel
    unfold traceInstruction
    rw [hkind]
    simp only [if_true]
    cases value with
    | ConstantInt bits v => exact absurd rfl (hconst bits v)
    | Inst id =>
      cases hv : valueMap.find (Value.Inst id) with
      | none => simp [hv]
      | some var => simp [hv, hmodel var hv]
    | Other id =>
      cases hv : valueMap.find (Value.Other id) with
      | none => simp [hv]
      | some var => simp [hv, hmodel var hv]
  · intro instr value diVar hkind hmodel
    unfold traceInstruction
    rw [hkind]
    cases hv : valueMap.find value with
    | none => simp [hv]
    | some var => simp [hv, hmodel var hv]

/-- Witness of the amended C9 on `annotatedFunction` with the empty model. -/
theorem trace_assignments_without_model_value_witness :
    BmcTrace.Create annotatedFunction [0] [] 0 [] annotatedValueMap 1
      = some { blocks := [0]
               assignments := [{ var := none, expr := none, value := .Inst 1
                                 location := { row := -1, column := -1 }
                                 variableName := "g" }] } ∧
    traceInstruction annotatedFunction annotatedValueMap []
      (mkInst 3 "" (.Call (some "gazer.inlined_global.write")
        [.MDValue (.Inst 1), .MDGlobal "g"]))
      = some (some { var := none, expr := none, value := .Inst 1
                     location := { row := -1, column := -1 }
                     variableName := "g" }) :=
  ⟨by decide,
    (trace_assignments_without_model_value annotatedFunction [0] [] 0 [] annotatedValueMap 1
      { blocks := [0]
        assignments := [{ var := none, expr := none, value := .Inst 1
                          location := { row := -1, column := -1 }
                          variableName := "g" }] } (by decide)).2.1
      (mkInst 3 "" (.Call (some "gazer.inlined_global.write")
        [.MDValue (.Inst 1), .MDGlobal "g"]))
      (.Inst 1) "g" [] rfl (by intro bits v h; cases h) (by decide)⟩

/-- C10: for the control-flow graph of `passbyref0_false`, whose comparison
`icmp ne i32 %loc, 0` the translator turns into `NotEq(loc, 0)` over 32-bit values,
`encode` produces one query, for the block that calls `__VERIFIER_error`; the query
is satisfiable; every valuation that satisfies it (it gives the 32-bit `loc` and the
Boolean `cmp` values of their sorts and makes the query true) gives `loc` a non-zero
32-bit value; and every non-zero 32-bit value of `loc` is given by a satisfying
valuation. Whatever a valuation gives to the variables, the query is false when
`loc` is the 32-bit zero. -/
theorem passbyref0_query_forces_nonzero_loc :
    Automaton.visitICmpInst Automaton.passbyref0Context Automaton.passbyref0Compare =
      some (Automaton.mExprBuilder.NotEq Automaton.passbyref0LocVariable.getRefExpr
        (Automaton.mExprBuilder.BvLit 0 32)) ∧
    encode (createPredecessorIdentifications passbyref0 (topoBlockMap passbyref0Topo)).1
        passbyref0Topo passbyref0Translator = some [(1, passbyref0Query)] ∧
    (∃ M : Valuation, satisfies passbyref0Sorts M passbyref0Query = true) ∧
    (∀ M : Valuation, satisfies passbyref0Sorts M passbyref0Query = true →
      ∃ v, DenseMap.find M ⟨"loc"⟩ = some (.IntLiteral 32 v) ∧ v ≠ 0 ∧ v < 2 ^ 32) ∧
    (∀ v : Nat, v ≠ 0 → v < 2 ^ 32 →
      satisfies passbyref0Sorts (passbyref0Model v) passbyref0Query = true ∧
      DenseMap.find (passbyref0Model v) ⟨"loc"⟩ = some (.IntLiteral 32 v)) ∧
    (∀ M : Valuation, Expr.holds M passbyref0Query = true →
      DenseMap.find M ⟨"loc"⟩ ≠ some (.IntLiteral 32 0)) := by
  have hzero : ∀ M : Valuation, Expr.holds M passbyref0Query = true →
      DenseMap.find M ⟨"loc"⟩ ≠ some (.IntLiteral 32 0) := by
    intro M hM hloc
    have hloc1 : M.find ⟨"loc"⟩ = some (.IntLiteral 32 0) := hloc
    simp only [passbyref0Query, Expr.holds, Expr.eval, ExprList.evalAll, LiteralExpr.toBool,
      hloc1, Option.getD_some, Bool.and_true, Bool.true_and, Bool.and_eq_true,
      decide_eq_true_eq] at hM
    obtain ⟨h1, h2⟩ := hM
    rw [h1] at h2
    simp [LiteralExpr.toBool] at h2
  refine ⟨by decide, by decide, ⟨passbyref0Model 1, by decide⟩, ?_, ?_, hzero⟩
  · intro M hM
    simp only [satisfies, Bool.and_eq_true] at hM
    obtain ⟨hsorts, hholds⟩ := hM
    have hloc : ∃ value, DenseMap.find M ⟨"loc"⟩ = some value ∧
        value.hasSort (.Bv 32) = true := by
      simp only [respectsSorts, passbyref0Sorts, List.all_cons, List.all_nil, Bool.and_true,
        Bool.and_eq_true] at hsorts
      cases hf : DenseMap.find M ⟨"loc"⟩ with
      | none => simp [hf] at hsorts
      | some value =>
        refine ⟨value, rfl, ?_⟩
        simpa [hf] using hsorts.1
    obtain ⟨value, hfind, hsort⟩ := hloc
    cases value with
    | BoolLiteral b => simp [LiteralExpr.hasSort] at hsort
    | OtherLiteral t => simp [LiteralExpr.hasSort] at hsort
    | IntLiteral bits v =>
      simp only [LiteralExpr.hasSort, Bool.and_eq_true, beq_iff_eq, decide_eq_true_eq] at hsort
      obtain ⟨hbits, hlt⟩ := hsort
      subst hbits
      refine ⟨v, hfind, ?_, hlt⟩
      intro hv
      subst hv
      exact hzero M hholds hfind
  · intro v hv hlt
    have hfl : DenseMap.find (passbyref0Model v) ⟨"loc"⟩ = some (.IntLiteral 32 v) := rfl
    have hfc : DenseMap.find (passbyref0Model v) ⟨"cmp"⟩ = some (.BoolLiteral true) := rfl
    have hholds : Expr.holds (passbyref0Model v) passbyref0Query = true := by
      have hfl1 : (passbyref0Model v).find ⟨"loc"⟩ = some (.IntLiteral 32 v) := hfl
      have hfc1 : (passbyref0Model v).find ⟨"cmp"⟩ = some (.BoolLiteral true) := hfc
      simp only [passbyref0Query, Expr.holds, Expr.eval, ExprList.evalAll,
        LiteralExpr.toBool, hfl1, hfc1, Option.getD_some]
      simp [hv]
    have hsorts : respectsSorts passbyref0Sorts (passbyref0Model v) = true := by
      simp only [respectsSorts, passbyref0Sorts, List.all_cons, List.all_nil, hfl, hfc,
        LiteralExpr.hasSort]
      have hlt1 : v < 4294967296 := by
        have h232 : (2 : Nat) ^ 32 = 4294967296 := by norm_num
        omega
      simp [hlt1]
    refine ⟨?_, hfl⟩
    rw [satisfies, hsorts, hholds]
    rfl

end Claims

namespace Automaton

/-- C11: in the integer representation (the left operand has type `Int`, the
operands have the LLVM type `iw` with `w ≤ 64`), `visitICmpInst` returns for `ugt`,
`uge`, `ult`, `ule` the comparison `Gt`, `GtEq`, `Lt`, `LtEq` of the operands each
replaced by `Select(x < 0, (2^w - 1) + x, x)`, and for the signed predicates the same
comparison of the operands unchanged; so under a valuation that gives the operands
the integer values `x` and `y`, an unsigned predicate compares `(2^w - 1) + x` for a
negative `x` (and `x` itself otherwise), and a signed predicate compares `x` and
`y`. -/
theorem visitICmpInst_integer_comparisons (ctx : Context) (icmp : CmpInst) (l r : Expr)
    (w : Nat) (hl : operand ctx icmp.lhs = some l) (hr : operand ctx icmp.rhs = some r)
    (hty : l.getType = .IntType) (hw : icmp.lhs.type = .IntegerTy w) (h64 : w ≤ 64) :
    (icmp.predicate = .ICMP_UGT → visitICmpInst ctx icmp =
      some (mExprBuilder.Gt (unsignedOperandOf l w) (unsignedOperandOf r w))) ∧
    (icmp.predicate = .ICMP_UGE → visitICmpInst ctx icmp =
      some (mExprBuilder.GtEq (unsignedOperandOf l w) (unsignedOperandOf r w))) ∧
    (icmp.predicate = .ICMP_ULT → visitICmpInst ctx icmp =
      some (mExprBuilder.Lt (unsignedOperandOf l w) (unsignedOperandOf r w))) ∧
    (icmp.predicate = .ICMP_ULE → visitICmpInst ctx icmp =
      some (mExprBuilder.LtEq (unsignedOperandOf l w) (unsignedOperandOf r w))) ∧
    (icmp.predicate = .ICMP_SGT → visitICmpInst ctx icmp = some (mExprBuilder.Gt l r)) ∧
    (icmp.predicate = .ICMP_SGE → visitICmpInst ctx icmp = some (mExprBuilder.GtEq l r)) ∧
    (icmp.predicate = .ICMP_SLT → visitICmpInst ctx icmp = some (mExprBuilder.Lt l r)) ∧
    (icmp.predicate = .ICMP_SLE → visitICmpInst ctx icmp = some (mExprBuilder.LtEq l r)) ∧
    (∀ (env : Valuation) (x y : Int), l.eval env = some (.Int x) →
      r.eval env = some (.Int y) →
      (x < 0 → (unsignedOperandOf l w).eval env = some (.Int ((2 ^ w - 1) + x))) ∧
      (0 ≤ x → (unsignedOperandOf l w).eval env = some (.Int x)) ∧
      (icmp.predicate = .ICMP_UGT → valueOf env (visitICmpInst ctx icmp) =
        some (.Bool (decide (comparedValue w x > comparedValue w y)))) ∧
      (icmp.predicate = .ICMP_UGE → valueOf env (visitICmpInst ctx icmp) =
        some (.Bool (decide (comparedValue w x ≥ comparedValue w y)))) ∧
      (icmp.predicate = .ICMP_ULT → valueOf env (visitICmpInst ctx icmp) =
        some (.Bool (decide (comparedValue w x < comparedValue w y)))) ∧
      (icmp.predicate = .ICMP_ULE → valueOf env (visitICmpInst ctx icmp) =
        some (.Bool (decide (comparedValue w x ≤ comparedValue w y)))) ∧
      (icmp.predicate = .ICMP_SGT → valueOf env (visitICmpInst ctx icmp) =
        some (.Bool (decide (x > y)))) ∧
      (icmp.predicate = .ICMP_SGE → valueOf env (visitICmpInst ctx icmp) =
        some (.Bool (decide (x ≥ y)))) ∧
      (icmp.predicate = .ICMP_SLT → valueOf env (visitICmpInst ctx icmp) =
        some (.Bool (decide (x < y)))) ∧
      (icmp.predicate = .ICMP_SLE → valueOf env (visitICmpInst ctx icmp) =
        some (.Bool (decide (x ≤ y))))) := by
  have hu : ∀ e, unsignedCompareOperand e w = some (unsignedOperandOf e w) :=
    fun e => unsignedCompareOperand_eq e h64
  have h1 : icmp.predicate = .ICMP_UGT → visitICmpInst ctx icmp =
      some (mExprBuilder.Gt (unsignedOperandOf l w) (unsignedOperandOf r w)) := by
    intro hp
    simp [visitICmpInst, hl, hr, hp, hty, hw, hu, GazerType.isBvType, GazerType.isArithmetic,
      LLVMType.getIntegerBitWidth, Predicate.isUnsigned]
  have h2 : icmp.predicate = .ICMP_UGE → visitICmpInst ctx icmp =
      some (mExprBuilder.GtEq (unsignedOperandOf l w) (unsignedOperandOf r w)) := by
    intro hp
    simp [visitICmpInst, hl, hr, hp, hty, hw, hu, GazerType.isBvType, GazerType.isArithmetic,
      LLVMType.getIntegerBitWidth, Predicate.isUnsigned]
  have h3 : icmp.predicate = .ICMP_ULT → visitICmpInst ctx icmp =
      some (mExprBuilder.Lt (unsignedOperandOf l w) (unsignedOperandOf r w)) := by
    intro hp
    simp [visitICmpInst, hl, hr, hp, hty, hw, hu, GazerType.isBvType, GazerType.isArithmetic,
      LLVMType.getIntegerBitWidth, Predicate.isUnsigned]
  have h4 : icmp.predicate = .ICMP_ULE → visitICmpInst ctx icmp =
      some (mExprBuilder.LtEq (unsignedOperandOf l w) (unsignedOperandOf r w)) := by
    intro hp
    simp [visitICmpInst, hl, hr, hp, hty, hw, hu, GazerType.isBvType, GazerType.isArithmetic,
      LLVMType.getIntegerBitWidth, Predicate.isUnsigned]
  have h5 : icmp.predicate = .ICMP_SGT → visitICmpInst ctx icmp =
      some (mExprBuilder.Gt l r) := by
    intro hp
    simp [visitICmpInst, hl, hr, hp, hty, hw, GazerType.isBvType, GazerType.isArithmetic,
      LLVMType.getIntegerBitWidth, Predicate.isUnsigned]
  have h6 : icmp.predicate = .ICMP_SGE → visitICmpInst ctx icmp =
      some (mExprBuilder.GtEq l r) := by
    intro hp
    simp [visitICmpInst, hl, hr, hp, hty, hw, GazerType.isBvType, GazerType.isArithmetic,
      LLVMType.getIntegerBitWidth, Predicate.isUnsigned]
  have h7 : icmp.predicate = .ICMP_SLT → visitICmpInst ctx icmp =
      some (mExprBuilder.Lt l r) := by
    intro hp
    simp [visitICmpInst, hl, hr, hp, hty, hw, GazerType.isBvType, GazerType.isArithmetic,
      LLVMType.getIntegerBitWidth, Predicate.isUnsigned]
  have h8 : icmp.predicate = .ICMP_SLE → visitICmpInst ctx icmp =
      some (mExprBuilder.LtEq l r) := by
    intro hp
    simp [visitICmpInst, hl, hr, hp, hty, hw, GazerType.isBvType, GazerType.isArithmetic,
      LLVMType.getIntegerBitWidth, Predicate.isUnsigned]
  refine ⟨h1, h2, h3, h4, h5, h6, h7, h8, ?_⟩
  intro env x y hx hy
  have hxl := eval_unsignedOperandOf env l w x hx
  have hyr := eval_unsignedOperandOf env r w y hy
  refine ⟨?_, ?_, ?_, ?_, ?_, ?_, ?_, ?_, ?_, ?_⟩
  · intro hneg
    rw [hxl]
    simp [comparedValue, hneg]
  · intro hpos
    rw [hxl]
    simp [comparedValue, not_lt.mpr hpos]
  · intro hp
    rw [valueOf, h1 hp, Option.some_bind, eval_Binary, hxl, hyr]
    rfl
  · intro hp
    rw [valueOf, h2 hp, Option.some_bind, eval_Binary, hxl, hyr]
    rfl
  · intro hp
    rw [valueOf, h3 hp, Option.some_bind, eval_Binary, hxl, hyr]
    rfl
  · intro hp
    rw [valueOf, h4 hp, Option.some_bind, eval_Binary, hxl, hyr]
    rfl
  · intro hp
    rw [valueOf, h5 hp, Option.some_bind, eval_Binary, hx, hy]
    rfl
  · intro hp
    rw [valueOf, h6 hp, Option.some_bind, eval_Binary, hx, hy]
    rfl
  · intro hp
    rw [valueOf, h7 hp, Option.some_bind, eval_Binary, hx, hy]
    rfl
  · intro hp
    rw [valueOf, h8 hp, Option.some_bind, eval_Binary, hx, hy]
    rfl

/-- Witness of C11: `icmp ult i8 %x, %y` in the integer representation is
translated to `Lt` of the two replaced operands, with the literal `255`. -/
theorem visitICmpInst_integer_comparisons_witness :
    visitICmpInst intCompareContext icmpUltXY =
      some (mExprBuilder.Lt (unsignedOperandOf varX.getRefExpr 8)
        (unsignedOperandOf varY.getRefExpr 8)) :=
  (visitICmpInst_integer_comparisons intCompareContext icmpUltXY varX.getRefExpr
    varY.getRefExpr 8 (by decide) (by decide) (by decide) (by decide) (by decide)).2.2.1 rfl

/-- C12: the code does not give the unsigned value `x + 2^w`. For the `i8` operand
`-5` the expression of `unsignedCompareOperand` has the value `250 = (2^8 - 1) - 5`,
not `251`; and `icmp ugt i8 -128, 127`, which holds for the unsigned values `128`
and `127`, is translated in the integer representation to an expression whose value
is `false`, since `-128` is compared as `127`. -/
theorem unsignedCompareOperand_minus_five_is_250 :
    valueOf (exampleValuation []) (unsignedCompareOperand (mExprBuilder.IntLit (-5)) 8) =
      some (.Int 250) ∧
    ((-5 : Int) + 2 ^ 8 = 251) ∧
    valueOf (exampleValuation []) (visitICmpInst intCompareContext icmpUgtMinMax) =
      some (.Bool false) := by
  refine ⟨by decide, by decide, by decide⟩

/-- C13: for `%t = trunc i6 %n to i4` in the integer representation the code returns
an expression built from the literals `15 = 2^4 - 1` and `7 = 2^3 - 1`, not from
`2^4` and `2^3`; for `n = 51` its value is `-9`, where `m = 51 mod 2^4 = 3` and
`(51 / 2^3) mod 2 = 0`, so that the stated value is `3`. -/
theorem visitCastInst_trunc_integer_uses_max_values :
    visitCastInst intTruncContext truncN6To4 =
      some (mExprBuilder.Select
        (mExprBuilder.Eq
          (mExprBuilder.Mod (mExprBuilder.Div varN.getRefExpr (mExprBuilder.IntLit 7))
            (mExprBuilder.IntLit 2))
          (mExprBuilder.IntLit 0))
        (mExprBuilder.Mod varN.getRefExpr (mExprBuilder.IntLit 15))
        (mExprBuilder.Sub (mExprBuilder.Mod varN.getRefExpr (mExprBuilder.IntLit 15))
          (mExprBuilder.IntLit 15))) ∧
    valueOf (exampleValuation [(varN, .Int 51)]) (visitCastInst intTruncContext truncN6To4) =
      some (.Int (-9)) ∧
    specTruncValue 51 4 = 3 := by
  refine ⟨by decide, by decide, by decide⟩

/-- C14: for `%t = trunc i6 %n to i4` in the integer representation the value of the
returned expression is `0` for `n = 60`, where the signed value of the low four bits
is `-4`, and `-9` for `n = 51`, where it is `3`; `-9` is outside `[-2^3, 2^3)`. -/
theorem visitCastInst_trunc_integer_examples :
    valueOf (exampleValuation [(varN, .Int 60)]) (visitCastInst intTruncContext truncN6To4) =
      some (.Int 0) ∧
    signedLowBits 60 4 = -4 ∧
    valueOf (exampleValuation [(varN, .Int 51)]) (visitCastInst intTruncContext truncN6To4) =
      some (.Int (-9)) ∧
    signedLowBits 51 4 = 3 ∧
    ¬ (-(2 : Int) ^ 3 ≤ -9) := by
  refine ⟨by decide, by decide, by decide, by decide, by decide⟩

/-- C15: for a cast whose result variable is `var` and whose operand expression is
the Boolean `cond`, `boolToIntCast` returns, for `zext`, `Select(cond, 1, 0)` with
bit-vector literals of the result width when the variable is a bit-vector and with
integer literals when it is an integer; for `sext`, `Select(cond, 2^w - 1, 0)` of the
result width `w` (all ones and zero) when the variable is a bit-vector and
`Select(cond, -1, -2)` when it is an integer; and `visitCastInst` returns the result
of `boolToIntCast` for every such cast whose result type is neither a floating-point
nor a pointer type. -/
theorem boolToIntCast_returns_select (ctx : Context) (cast : CastInst) (cond : Expr)
    (var : Variable) (hvar : ctx.getVariable cast.toValue = some var) :
    (∀ w, var.type = .BvType w → cast.opcode = .ZExt →
      boolToIntCast ctx cast cond =
        some (mExprBuilder.Select cond (mExprBuilder.BvLit 1 w) (mExprBuilder.BvLit 0 w))) ∧
    (∀ w, var.type = .BvType w → cast.opcode = .SExt →
      boolToIntCast ctx cast cond =
        some (mExprBuilder.Select cond (mExprBuilder.BvLit (2 ^ w - 1) w)
          (mExprBuilder.BvLit 0 w))) ∧
    (var.type = .IntType → cast.opcode = .ZExt →
      boolToIntCast ctx cast cond =
        some (mExprBuilder.Select cond (mExprBuilder.IntLit 1) (mExprBuilder.IntLit 0))) ∧
    (var.type = .IntType → cast.opcode = .SExt →
      boolToIntCast ctx cast cond =
        some (mExprBuilder.Select cond (mExprBuilder.IntLit (-1))
          (mExprBuilder.IntLit (-2)))) ∧
    (operand ctx cast.op = some cond → cond.getType = .BoolType →
      cast.type.isFloatingPointTy = false → cast.type.isPointerTy = false →
      cast.opcode = .ZExt ∨ cast.opcode = .SExt →
      visitCastInst ctx cast = boolToIntCast ctx cast cond) := by
  refine ⟨?_, ?_, ?_, ?_, ?_⟩
  · intro w hw hop
    simp [boolToIntCast, hvar, hw, hop, one_zext, zero_ext]
  · intro w hw hop
    simp [boolToIntCast, hvar, hw, hop, one_sext, zero_ext]
  · intro hw hop
    simp [boolToIntCast, hvar, hw, hop]
  · intro hw hop
    simp [boolToIntCast, hvar, hw, hop]
  · intro hcond hbool hflt hptr hop
    rcases hop with hop | hop <;>
      simp [visitCastInst, visitCastInstRest, hcond, hbool, hflt, hptr, hop,
        GazerType.isBoolType]

/-- Witness of C15: `zext i1 true to i32` with a bit-vector result of width 32. -/
theorem boolToIntCast_returns_select_witness :
    boolToIntCast (boolExtContext .BitVectors) zextTrueTo32 mExprBuilder.True =
      some (mExprBuilder.Select mExprBuilder.True (mExprBuilder.BvLit 1 32)
        (mExprBuilder.BvLit 0 32)) :=
  (boolToIntCast_returns_select (boolExtContext .BitVectors) zextTrueTo32 mExprBuilder.True
    ⟨"e", .BvType 32⟩ (by decide)).1 32 rfl rfl

/-- C16: in the integer representation the expression returned for
`sext i1 false to i32` is `Select(False, -1, -2)`, whose value is `-2` and not `0`;
in the bit-vector representation the expression for the same instruction has the
value zero, and for `sext i1 true to i32` the integer value is `-1`. -/
theorem visitCastInst_sext_false_integer_is_minus_two :
    visitCastInst (boolExtContext .Integers) sextFalseTo32 =
      some (mExprBuilder.Select mExprBuilder.False (mExprBuilder.IntLit (-1))
        (mExprBuilder.IntLit (-2))) ∧
    valueOf (exampleValuation []) (visitCastInst (boolExtContext .Integers) sextFalseTo32) =
      some (.Int (-2)) ∧
    valueOf (exampleValuation []) (visitCastInst (boolExtContext .BitVectors) sextFalseTo32) =
      some (.Bv 32 0) ∧
    valueOf (exampleValuation []) (visitCastInst (boolExtContext .Integers) sextTrueTo32) =
      some (.Int (-1)) := by
  refine ⟨by decide, by decide, by decide, by decide⟩

/-- C17: for `fptoui double %d to i32` the code returns no expression: the branch
that builds `FpToUnsigned` tests the opcode `UIToFP`, so an `FPToUI` cast of a
floating-point operand reaches the final `llvm_unreachable`. -/
theorem visitCastInst_fptoui_is_unreachable :
    visitCastInst floatContext fptouiD = none := by
  decide

/-- C19: for a `trunc` to `i1` whose result variable is Boolean, `visitCastInst`
returns `asBool` of the operand expression, which is
`Select(Eq(operand, 0), False, True)` with the zero literal of the operand's type,
for a bit-vector operand of any width and for an integer operand. -/
theorem visitCastInst_trunc_to_bool (ctx : Context) (cast : CastInst) (castOp : Expr)
    (var : Variable) (hop : operand ctx cast.op = some castOp)
    (hty : cast.type = .IntegerTy 1) (hopc : cast.opcode = .Trunc)
    (hvar : ctx.getVariable cast.toValue = some var) (hbool : var.type = .BoolType) :
    (∀ w, castOp.getType = .BvType w →
      visitCastInst ctx cast = asBool castOp ∧
      asBool castOp =
        some (mExprBuilder.Select (mExprBuilder.Eq castOp (mExprBuilder.BvLit 0 w))
          mExprBuilder.False mExprBuilder.True)) ∧
    (castOp.getType = .IntType →
      visitCastInst ctx cast = asBool castOp ∧
      asBool castOp =
        some (mExprBuilder.Select (mExprBuilder.Eq castOp (mExprBuilder.IntLit 0))
          mExprBuilder.False mExprBuilder.True)) := by
  have htb : isTruncToBool ctx cast = some true := by
    simp [isTruncToBool, hty, hopc, hvar, hbool, LLVMType.isIntegerTy, GazerType.isBoolType]
  refine ⟨?_, ?_⟩
  · intro w hw
    refine ⟨?_, ?_⟩
    · simp [visitCastInst, visitCastInstRest, hop, hty, hopc, htb, hw,
        LLVMType.isFloatingPointTy, LLVMType.isPointerTy, GazerType.isBoolType]
    · simp [asBool, hw]
  · intro hw
    refine ⟨?_, ?_⟩
    · simp [visitCastInst, visitCastInstRest, hop, hty, hopc, htb, hw,
        LLVMType.isFloatingPointTy, LLVMType.isPointerTy, GazerType.isBoolType]
    · simp [asBool, hw]

/-- Witness of C19: `%c = trunc i32 %a to i1` with a Boolean `%c` in the bit-vector
representation. -/
theorem visitCastInst_trunc_to_bool_witness :
    visitCastInst bvTruncContext truncA32To1 =
      some (mExprBuilder.Select
        (mExprBuilder.Eq varA.getRefExpr (mExprBuilder.BvLit 0 32))
        mExprBuilder.False mExprBuilder.True) :=
  ((visitCastInst_trunc_to_bool bvTruncContext truncA32To1 varA.getRefExpr varC
    (by decide) rfl rfl (by decide) rfl).1 32 rfl).1.trans
  ((visitCastInst_trunc_to_bool bvTruncContext truncA32To1 varA.getRefExpr varC
    (by decide) rfl rfl (by decide) rfl).1 32 rfl).2

/-- C20: for operand expressions `l` and `r`, `visitFCmpInst` returns the constant
`False` for `FCMP_FALSE`, `True` for `FCMP_TRUE`, `And(Not(FIsNan(l)), Not(FIsNan(r)))`
for `FCMP_ORD` and `Or(FIsNan(l), FIsNan(r))` for `FCMP_UNO`; under a valuation that
gives the operands the floating-point values `a` and `b`, the expression for `ORD`
is true exactly when neither is a NaN and the expression for `UNO` exactly when at
least one is. -/
theorem visitFCmpInst_constant_and_nan_predicates (ctx : Context) (fcmp : CmpInst)
    (l r : Expr) (hl : operand ctx fcmp.lhs = some l) (hr : operand ctx fcmp.rhs = some r) :
    (fcmp.predicate = .FCMP_FALSE → visitFCmpInst ctx fcmp = some mExprBuilder.False) ∧
    (fcmp.predicate = .FCMP_TRUE → visitFCmpInst ctx fcmp = some mExprBuilder.True) ∧
    (fcmp.predicate = .FCMP_ORD → visitFCmpInst ctx fcmp =
      some (mExprBuilder.And (mExprBuilder.Not (mExprBuilder.FIsNan l))
        (mExprBuilder.Not (mExprBuilder.FIsNan r)))) ∧
    (fcmp.predicate = .FCMP_UNO → visitFCmpInst ctx fcmp =
      some (mExprBuilder.Or (mExprBuilder.FIsNan l) (mExprBuilder.FIsNan r))) ∧
    (∀ (env : Valuation) (a b : APFloat), l.eval env = some (.Float a) →
      r.eval env = some (.Float b) →
      (fcmp.predicate = .FCMP_ORD → valueOf env (visitFCmpInst ctx fcmp) =
        some (.Bool (!a.isNaN && !b.isNaN))) ∧
      (fcmp.predicate = .FCMP_UNO → valueOf env (visitFCmpInst ctx fcmp) =
        some (.Bool (a.isNaN || b.isNaN)))) := by
  have h1 : fcmp.predicate = .FCMP_ORD → visitFCmpInst ctx fcmp =
      some (mExprBuilder.And (mExprBuilder.Not (mExprBuilder.FIsNan l))
        (mExprBuilder.Not (mExprBuilder.FIsNan r))) := by
    intro hp
    simp [visitFCmpInst, hl, hr, hp]
  have h2 : fcmp.predicate = .FCMP_UNO → visitFCmpInst ctx fcmp =
      some (mExprBuilder.Or (mExprBuilder.FIsNan l) (mExprBuilder.FIsNan r)) := by
    intro hp
    simp [visitFCmpInst, hl, hr, hp]
  refine ⟨?_, ?_, h1, h2, ?_⟩
  · intro hp
    simp [visitFCmpInst, hl, hr, hp]
  · intro hp
    simp [visitFCmpInst, hl, hr, hp]
  · intro env a b ha hb
    refine ⟨?_, ?_⟩
    · intro hp
      rw [valueOf, h1 hp, Option.some_bind, eval_Binary, eval_Unary, eval_Unary, eval_Unary,
        eval_Unary, ha, hb]
      rfl
    · intro hp
      rw [valueOf, h2 hp, Option.some_bind, eval_Binary, eval_Unary, eval_Unary, ha, hb]
      rfl

/-- Witness of C20: `fcmp ord double NaN, 1.0` has the value `false` and
`fcmp uno double NaN, 1.0` the value `true`. -/
theorem visitFCmpInst_constant_and_nan_predicates_witness :
    valueOf (exampleValuation []) (visitFCmpInst floatContext (fcmpNaNOne .FCMP_ORD)) =
      some (.Bool false) ∧
    valueOf (exampleValuation []) (visitFCmpInst floatContext (fcmpNaNOne .FCMP_UNO)) =
      some (.Bool true) :=
  ⟨((visitFCmpInst_constant_and_nan_predicates floatContext (fcmpNaNOne .FCMP_ORD)
      (mExprBuilder.FloatLit doubleNaN) (mExprBuilder.FloatLit doubleOne) rfl rfl).2.2.2.2
      (exampleValuation []) doubleNaN doubleOne rfl rfl).1 rfl,
    ((visitFCmpInst_constant_and_nan_predicates floatContext (fcmpNaNOne .FCMP_UNO)
      (mExprBuilder.FloatLit doubleNaN) (mExprBuilder.FloatLit doubleOne) rfl rfl).2.2.2.2
      (exampleValuation []) doubleNaN doubleOne rfl rfl).2 rfl⟩

/-- C21: for an `fcmp` whose operand expressions are `l` and `r`, `visitFCmpInst`
returns for the ordered predicates `oeq`, `ogt`, `oge`, `olt`, `ole`, `one` the
comparison `FEq`, `FGt`, `FGtEq`, `FLt`, `FLtEq`, `Not(FEq)` of `l` and `r` alone, and
for the unordered predicates `ueq`, `ugt`, `uge`, `ult`, `ule`, `une` the three-operand
`Or(FIsNan(l), FIsNan(r), cmp)` with the same comparison. -/
theorem visitFCmpInst_ordered_and_unordered (ctx : Context) (fcmp : CmpInst) (l r : Expr)
    (hl : operand ctx fcmp.lhs = some l) (hr : operand ctx fcmp.rhs = some r) :
    (fcmp.predicate = .FCMP_OEQ → visitFCmpInst ctx fcmp = some (mExprBuilder.FEq l r)) ∧
    (fcmp.predicate = .FCMP_OGT → visitFCmpInst ctx fcmp = some (mExprBuilder.FGt l r)) ∧
    (fcmp.predicate = .FCMP_OGE → visitFCmpInst ctx fcmp = some (mExprBuilder.FGtEq l r)) ∧
    (fcmp.predicate = .FCMP_OLT → visitFCmpInst ctx fcmp = some (mExprBuilder.FLt l r)) ∧
    (fcmp.predicate = .FCMP_OLE → visitFCmpInst ctx fcmp = some (mExprBuilder.FLtEq l r)) ∧
    (fcmp.predicate = .FCMP_ONE → visitFCmpInst ctx fcmp =
      some (mExprBuilder.Not (mExprBuilder.FEq l r))) ∧
    (fcmp.predicate = .FCMP_UEQ → visitFCmpInst ctx fcmp =
      some (mExprBuilder.OrList [mExprBuilder.FIsNan l, mExprBuilder.FIsNan r,
        mExprBuilder.FEq l r])) ∧
    (fcmp.predicate = .FCMP_UGT → visitFCmpInst ctx fcmp =
      some (mExprBuilder.OrList [mExprBuilder.FIsNan l, mExprBuilder.FIsNan r,
        mExprBuilder.FGt l r])) ∧
    (fcmp.predicate = .FCMP_UGE → visitFCmpInst ctx fcmp =
      some (mExprBuilder.OrList [mExprBuilder.FIsNan l, mExprBuilder.FIsNan r,
        mExprBuilder.FGtEq l r])) ∧
    (fcmp.predicate = .FCMP_ULT → visitFCmpInst ctx fcmp =
      some (mExprBuilder.OrList [mExprBuilder.FIsNan l, mExprBuilder.FIsNan r,
        mExprBuilder.FLt l r])) ∧
    (fcmp.predicate = .FCMP_ULE → visitFCmpInst ctx fcmp =
      some (mExprBuilder.OrList [mExprBuilder.FIsNan l, mExprBuilder.FIsNan r,
        mExprBuilder.FLtEq l r])) ∧
    (fcmp.predicate = .FCMP_UNE → visitFCmpInst ctx fcmp =
      some (mExprBuilder.OrList [mExprBuilder.FIsNan l, mExprBuilder.FIsNan r,
        mExprBuilder.Not (mExprBuilder.FEq l r)])) := by
  refine ⟨?_, ?_, ?_, ?_, ?_, ?_, ?_, ?_, ?_, ?_, ?_, ?_⟩ <;> intro hp <;>
    simp [visitFCmpInst, fcmpCompareExpr, hl, hr, hp, Predicate.isOrdered,
      Predicate.isUnordered]

/-- Witness of C21: `fcmp ueq double NaN, 1.0` is translated to the three-operand
disjunction of the two NaN tests and `FEq`. -/
theorem visitFCmpInst_ordered_and_unordered_witness :
    visitFCmpInst floatContext (fcmpNaNOne .FCMP_UEQ) =
      some (mExprBuilder.OrList [mExprBuilder.FIsNan (mExprBuilder.FloatLit doubleNaN),
        mExprBuilder.FIsNan (mExprBuilder.FloatLit doubleOne),
        mExprBuilder.FEq (mExprBuilder.FloatLit doubleNaN)
          (mExprBuilder.FloatLit doubleOne)]) :=
  (visitFCmpInst_ordered_and_unordered floatContext (fcmpNaNOne .FCMP_UEQ)
    (mExprBuilder.FloatLit doubleNaN) (mExprBuilder.FloatLit doubleOne) rfl rfl).2.2.2.2.2.2.1
    rfl

/-- C22: for the ordered predicate `one` the claim fails. Under every meaning of the
comparisons that is false on a NaN argument, the expression that `visitFCmpInst`
returns for `fcmp one double NaN, 1.0` (which is `Not(FEq(NaN, 1.0))`) has the value
`true`, while the expressions for `oeq`, `ogt`, `oge`, `olt` and `ole` on the same
operands have the value `false`; such a meaning exists. -/
theorem visitFCmpInst_one_is_true_on_nan :
    (∀ cmp : FloatComparison, FalseOnNaN cmp →
      valueWith cmp (exampleValuation []) (visitFCmpInst floatContext (fcmpNaNOne .FCMP_ONE)) =
        some (.Bool true)) ∧
    (∀ cmp : FloatComparison, FalseOnNaN cmp →
      ∀ pred ∈ [Predicate.FCMP_OEQ, .FCMP_OGT, .FCMP_OGE, .FCMP_OLT, .FCMP_OLE],
        valueWith cmp (exampleValuation []) (visitFCmpInst floatContext (fcmpNaNOne pred)) =
          some (.Bool false)) ∧
    FalseOnNaN exampleFloatComparison ∧
    visitFCmpInst floatContext (fcmpNaNOne .FCMP_ONE) =
      some (mExprBuilder.Not (mExprBuilder.FEq (mExprBuilder.FloatLit doubleNaN)
        (mExprBuilder.FloatLit doubleOne))) := by
  refine ⟨?_, ?_, exampleFloatComparison_falseOnNaN, by decide⟩
  · intro cmp hcmp
    have h : visitFCmpInst floatContext (fcmpNaNOne .FCMP_ONE) =
        some (mExprBuilder.Not (mExprBuilder.FEq (mExprBuilder.FloatLit doubleNaN)
          (mExprBuilder.FloatLit doubleOne))) := by decide
    rw [valueWith, h, Option.some_bind, evalWith_Unary, evalWith_Binary, evalWith_FloatLit,
      evalWith_FloatLit]
    simp [evalBinaryWith, BinaryKind.isFloatComparison, evalUnary,
      hcmp .FEq doubleNaN doubleOne rfl (Or.inl rfl)]
  · intro cmp hcmp pred hpred
    simp only [List.mem_cons, List.mem_singleton, List.not_mem_nil, or_false] at hpred
    rcases hpred with rfl | rfl | rfl | rfl | rfl
    · have h : visitFCmpInst floatContext (fcmpNaNOne .FCMP_OEQ) =
          some (mExprBuilder.FEq (mExprBuilder.FloatLit doubleNaN)
            (mExprBuilder.FloatLit doubleOne)) := by decide
      rw [valueWith, h, Option.some_bind, evalWith_Binary, evalWith_FloatLit,
        evalWith_FloatLit]
      simp [evalBinaryWith, BinaryKind.isFloatComparison,
        hcmp .FEq doubleNaN doubleOne rfl (Or.inl rfl)]
    · have h : visitFCmpInst floatContext (fcmpNaNOne .FCMP_OGT) =
          some (mExprBuilder.FGt (mExprBuilder.FloatLit doubleNaN)
            (mExprBuilder.FloatLit doubleOne)) := by decide
      rw [valueWith, h, Option.some_bind, evalWith_Binary, evalWith_FloatLit,
        evalWith_FloatLit]
      simp [evalBinaryWith, BinaryKind.isFloatComparison,
        hcmp .FGt doubleNaN doubleOne rfl (Or.inl rfl)]
    · have h : visitFCmpInst floatContext (fcmpNaNOne .FCMP_OGE) =
          some (mExprBuilder.FGtEq (mExprBuilder.FloatLit doubleNaN)
            (mExprBuilder.FloatLit doubleOne)) := by decide
      rw [valueWith, h, Option.some_bind, evalWith_Binary, evalWith_FloatLit,
        evalWith_FloatLit]
      simp [evalBinaryWith, BinaryKind.isFloatComparison,
        hcmp .FGtEq doubleNaN doubleOne rfl (Or.inl rfl)]
    · have h : visitFCmpInst floatContext (fcmpNaNOne .FCMP_OLT) =
          some (mExprBuilder.FLt (mExprBuilder.FloatLit doubleNaN)
            (mExprBuilder.FloatLit doubleOne)) := by decide
      rw [valueWith, h, Option.some_bind, evalWith_Binary, evalWith_FloatLit,
        evalWith_FloatLit]
      simp [evalBinaryWith, BinaryKind.isFloatComparison,
        hcmp .FLt doubleNaN doubleOne rfl (Or.inl rfl)]
    · have h : visitFCmpInst floatContext (fcmpNaNOne .FCMP_OLE) =
          some (mExprBuilder.FLtEq (mExprBuilder.FloatLit doubleNaN)
            (mExprBuilder.FloatLit doubleOne)) := by decide
      rw [valueWith, h, Option.some_bind, evalWith_Binary, evalWith_FloatLit,
        evalWith_FloatLit]
      simp [evalBinaryWith, BinaryKind.isFloatComparison,
        hcmp .FLtEq doubleNaN doubleOne rfl (Or.inl rfl)]

/-- C23: for an instruction of type `i1` whose operand expressions `lhs` and `rhs`
are coerced by `asBool` to `a` and `b`, in either integer representation and
whatever the variable of the instruction is, `visitBinaryOperator` returns the
Boolean `And(a, b)` for `and`, `Or(a, b)` for `or` and `Xor(a, b)` for `xor`; the
returned expression has the Boolean type. -/
theorem visitBinaryOperator_i1_logic (ctx : Context) (binop : BinaryOperator)
    (lhs rhs a b : Expr) (hl : operand ctx binop.lhs = some lhs)
    (hr : operand ctx binop.rhs = some rhs) (hty : binop.type = .IntegerTy 1)
    (ha : asBool lhs = some a) (hb : asBool rhs = some b) :
    (binop.opcode = .And → visitBinaryOperator ctx binop = some (mExprBuilder.And a b)) ∧
    (binop.opcode = .Or → visitBinaryOperator ctx binop = some (mExprBuilder.Or a b)) ∧
    (binop.opcode = .Xor → visitBinaryOperator ctx binop = some (mExprBuilder.Xor a b)) ∧
    (mExprBuilder.And a b).getType = .BoolType ∧
    (mExprBuilder.Or a b).getType = .BoolType ∧
    (mExprBuilder.Xor a b).getType = .BoolType ∧
    a.getType = .BoolType ∧ b.getType = .BoolType := by
  refine ⟨?_, ?_, ?_, rfl, rfl, rfl, asBool_getType ha, asBool_getType hb⟩ <;> intro hp <;>
    simp [visitBinaryOperator, hl, hr, hty, hp, ha, hb, isLogicInstruction,
      LLVMType.isIntegerTy]

/-- Witness of C23: `and i1 %p, %q` in the integer representation. -/
theorem visitBinaryOperator_i1_logic_witness :
    visitBinaryOperator (boolLogicContext .Integers) andPQ =
      some (mExprBuilder.And varP.getRefExpr varQ.getRefExpr) :=
  (visitBinaryOperator_i1_logic (boolLogicContext .Integers) andPQ varP.getRefExpr
    varQ.getRefExpr varP.getRefExpr varQ.getRefExpr (by decide) (by decide) rfl (by decide)
    (by decide)).1 rfl

/-- C24: in the integer representation (the variable `var` of the instruction has
the type `Int`, the result type is not `i1`, and `asInt` accepts the two operand
expressions), `visitBinaryOperator` returns no expression for `srem` and `urem`, and
returns `Undef` of the type of `var` for `shl`, `lshr`, `ashr`, `and`, `or` and `xor`,
whatever the operand expressions are. -/
theorem visitBinaryOperator_integer_unsupported (ctx : Context) (binop : BinaryOperator)
    (lhs rhs intLHS intRHS : Expr) (var : Variable)
    (hl : operand ctx binop.lhs = some lhs) (hr : operand ctx binop.rhs = some rhs)
    (hvar : ctx.getVariable binop.toValue = some var) (hint : var.type = .IntType)
    (hwide : binop.type.isIntegerTy 1 = false)
    (hal : asInt lhs = some intLHS) (har : asInt rhs = some intRHS) :
    (binop.opcode = .SRem → visitBinaryOperator ctx binop = none) ∧
    (binop.opcode = .URem → visitBinaryOperator ctx binop = none) ∧
    (binop.opcode = .Shl → visitBinaryOperator ctx binop =
      some (mExprBuilder.Undef var.type)) ∧
    (binop.opcode = .LShr → visitBinaryOperator ctx binop =
      some (mExprBuilder.Undef var.type)) ∧
    (binop.opcode = .AShr → visitBinaryOperator ctx binop =
      some (mExprBuilder.Undef var.type)) ∧
    (binop.opcode = .And → visitBinaryOperator ctx binop =
      some (mExprBuilder.Undef var.type)) ∧
    (binop.opcode = .Or → visitBinaryOperator ctx binop =
      some (mExprBuilder.Undef var.type)) ∧
    (binop.opcode = .Xor → visitBinaryOperator ctx binop =
      some (mExprBuilder.Undef var.type)) := by
  refine ⟨?_, ?_, ?_, ?_, ?_, ?_, ?_, ?_⟩ <;> intro hp <;>
    simp [visitBinaryOperator, hl, hr, hvar, hint, hwide, hp, hal, har, isLogicInstruction,
      isFloatInstruction]

/-- Witness of C24: `%z = shl i32 %x, %y` in the integer representation is
translated to `Undef` of the integer type. -/
theorem visitBinaryOperator_integer_unsupported_witness :
    visitBinaryOperator intArithContext shlXY = some (mExprBuilder.Undef .IntType) :=
  (visitBinaryOperator_integer_unsupported intArithContext shlXY varX.getRefExpr
    varY.getRefExpr varX.getRefExpr varY.getRefExpr varZ (by decide) (by decide) (by decide)
    rfl rfl (by decide) (by decide)).2.2.1 rfl

/-- C25: in the bit-vector representation (the variable `var` of the instruction
has the type `Bv(w)`, and `asBv(., w)` coerces the operand expressions to `a` and
`b`), `visitBinaryOperator` returns `Add(a, b)`, `Sub(a, b)`, `Mul(a, b)`,
`BvSDiv(a, b)`, `BvUDiv(a, b)`, `BvSRem(a, b)`, `BvURem(a, b)`, `Shl(a, b)`,
`LShr(a, b)`, `AShr(a, b)` for the opcode of the same name, and `BvAnd(a, b)`,
`BvOr(a, b)`, `BvXor(a, b)` for `and`, `or`, `xor` on a result type other than `i1`;
the left operand stays on the left. -/
theorem visitBinaryOperator_bitvector (ctx : Context) (binop : BinaryOperator)
    (lhs rhs a b : Expr) (var : Variable) (w : Nat)
    (hl : operand ctx binop.lhs = some lhs) (hr : operand ctx binop.rhs = some rhs)
    (hvar : ctx.getVariable binop.toValue = some var) (hbv : var.type = .BvType w)
    (ha : asBv lhs w = some a) (hb : asBv rhs w = some b) :
    (binop.opcode = .Add → visitBinaryOperator ctx binop = some (mExprBuilder.Add a b)) ∧
    (binop.opcode = .Sub → visitBinaryOperator ctx binop = some (mExprBuilder.Sub a b)) ∧
    (binop.opcode = .Mul → visitBinaryOperator ctx binop = some (mExprBuilder.Mul a b)) ∧
    (binop.opcode = .SDiv → visitBinaryOperator ctx binop =
      some (mExprBuilder.BvSDiv a b)) ∧
    (binop.opcode = .UDiv → visitBinaryOperator ctx binop =
      some (mExprBuilder.BvUDiv a b)) ∧
    (binop.opcode = .SRem → visitBinaryOperator ctx binop =
      some (mExprBuilder.BvSRem a b)) ∧
    (binop.opcode = .URem → visitBinaryOperator ctx binop =
      some (mExprBuilder.BvURem a b)) ∧
    (binop.opcode = .Shl → visitBinaryOperator ctx binop = some (mExprBuilder.Shl a b)) ∧
    (binop.opcode = .LShr → visitBinaryOperator ctx binop = some (mExprBuilder.LShr a b)) ∧
    (binop.opcode = .AShr → visitBinaryOperator ctx binop = some (mExprBuilder.AShr a b)) ∧
    (binop.type.isIntegerTy 1 = false →
      (binop.opcode = .And → visitBinaryOperator ctx binop =
        some (mExprBuilder.BvAnd a b)) ∧
      (binop.opcode = .Or → visitBinaryOperator ctx binop = some (mExprBuilder.BvOr a b)) ∧
      (binop.opcode = .Xor → visitBinaryOperator ctx binop =
        some (mExprBuilder.BvXor a b))) := by
  refine ⟨?_, ?_, ?_, ?_, ?_, ?_, ?_, ?_, ?_, ?_, ?_⟩
  all_goals first
    | (intro hp
       simp [visitBinaryOperator, hl, hr, hvar, hbv, hp, ha, hb, isLogicInstruction,
         isFloatInstruction]
       done)
    | (intro hwide
       refine ⟨?_, ?_, ?_⟩ <;> intro hp <;>
         simp [visitBinaryOperator, hl, hr, hvar, hbv, hwide, hp, ha, hb, isLogicInstruction,
           isFloatInstruction])

/-- Witness of C25: `%r = sdiv i32 %a, %b` in the bit-vector representation. -/
theorem visitBinaryOperator_bitvector_witness :
    visitBinaryOperator bvArithContext sdivAB =
      some (mExprBuilder.BvSDiv varA.getRefExpr varB.getRefExpr) :=
  (visitBinaryOperator_bitvector bvArithContext sdivAB varA.getRefExpr varB.getRefExpr
    varA.getRefExpr varB.getRefExpr varR 32 (by decide) (by decide) (by decide) rfl
    (by decide) (by decide)).2.2.2.1 rfl

/-- C26: for an `icmp` whose operand expressions are `l` and `r`, `visitICmpInst`
returns `Eq(l, r)` for `eq` and `NotEq(l, r)` for `ne` in every translator; and when
`l` has a bit-vector type it returns `BvUGt`, `BvUGtEq`, `BvULt`, `BvULtEq`, `BvSGt`,
`BvSGtEq`, `BvSLt`, `BvSLtEq` of `l` and `r` for `ugt`, `uge`, `ult`, `ule`, `sgt`,
`sge`, `slt`, `sle`. -/
theorem visitICmpInst_eq_ne_and_bitvector (ctx : Context) (icmp : CmpInst) (l r : Expr)
    (hl : operand ctx icmp.lhs = some l) (hr : operand ctx icmp.rhs = some r) :
    (icmp.predicate = .ICMP_EQ → visitICmpInst ctx icmp = some (mExprBuilder.Eq l r)) ∧
    (icmp.predicate = .ICMP_NE → visitICmpInst ctx icmp = some (mExprBuilder.NotEq l r)) ∧
    (∀ w, l.getType = .BvType w →
      (icmp.predicate = .ICMP_UGT → visitICmpInst ctx icmp =
        some (mExprBuilder.BvUGt l r)) ∧
      (icmp.predicate = .ICMP_UGE → visitICmpInst ctx icmp =
        some (mExprBuilder.BvUGtEq l r)) ∧
      (icmp.predicate = .ICMP_ULT → visitICmpInst ctx icmp =
        some (mExprBuilder.BvULt l r)) ∧
      (icmp.predicate = .ICMP_ULE → visitICmpInst ctx icmp =
        some (mExprBuilder.BvULtEq l r)) ∧
      (icmp.predicate = .ICMP_SGT → visitICmpInst ctx icmp =
        some (mExprBuilder.BvSGt l r)) ∧
      (icmp.predicate = .ICMP_SGE → visitICmpInst ctx icmp =
        some (mExprBuilder.BvSGtEq l r)) ∧
      (icmp.predicate = .ICMP_SLT → visitICmpInst ctx icmp =
        some (mExprBuilder.BvSLt l r)) ∧
      (icmp.predicate = .ICMP_SLE → visitICmpInst ctx icmp =
        some (mExprBuilder.BvSLtEq l r))) := by
  refine ⟨?_, ?_, ?_⟩
  · intro hp
    simp [visitICmpInst, hl, hr, hp]
  · intro hp
    simp [visitICmpInst, hl, hr, hp]
  · intro w hw
    refine ⟨?_, ?_, ?_, ?_, ?_, ?_, ?_, ?_⟩ <;> intro hp <;>
      simp [visitICmpInst, hl, hr, hp, hw, GazerType.isBvType]

/-- Witness of C26: `icmp ult i32 %a, %b` in the bit-vector representation. -/
theorem visitICmpInst_eq_ne_and_bitvector_witness :
    visitICmpInst bvArithContext icmpUltAB =
      some (mExprBuilder.BvULt varA.getRefExpr varB.getRefExpr) :=
  ((visitICmpInst_eq_ne_and_bitvector bvArithContext icmpUltAB varA.getRefExpr
    varB.getRefExpr (by decide) (by decide)).2.2 32 rfl).2.2.1 rfl

/-- C27: for every call instruction, with a called function or without one (an
indirect call), `visitCallInst` returns `Undef` of the translated result type of
the call. -/
theorem visitCallInst_returns_undef (ctx : Context) (call : CallInst) :
    visitCallInst ctx call = some (mExprBuilder.Undef (ctx.translateType call.type)) := by
  unfold visitCallInst
  cases call.calledFunction <;> rfl

/-- C28: in the bit-vector representation the constant `i128 2^64` is translated to
the literal of width 128 with the value `2^64 - 1`, not `2^64`: the value passes
through `getLimitedValue`, which is at most `2^64 - 1`. The constant `i8 -5` is
translated to the literal 251 of width 8, and in the integer representation to the
integer literal `-5`. -/
theorem operand_wide_constant_is_saturated :
    operand (exampleContext .BitVectors []) wideConstant =
      some (mExprBuilder.BvLit (2 ^ 64 - 1) 128) ∧
    operand (exampleContext .BitVectors []) wideConstant ≠
      some (mExprBuilder.BvLit (2 ^ 64) 128) ∧
    operand (exampleContext .BitVectors []) minusFive8 = some (mExprBuilder.BvLit 251 8) ∧
    operand (exampleContext .Integers []) minusFive8 = some (mExprBuilder.IntLit (-5)) := by
  refine ⟨by decide, by decide, by decide, by decide⟩

/-- C29, as stated: `castResult` does not return an expression of a floating-point
type unchanged for that type; it returns no expression. -/
theorem castResult_fails_on_float_type :
    (mExprBuilder.FloatLit doubleOne).getType = .FloatType .Double ∧
    castResult (mExprBuilder.FloatLit doubleOne) (.FloatType .Double) = none := by
  refine ⟨by decide, by decide⟩

/-- C29, amended: `asBool` returns a Boolean operand, `asBv(w)` a bit-vector operand
of width `w` and `asInt` an integer operand unchanged, and `castResult(t)` returns an
operand of type `t` unchanged when `t` is the Boolean, a bit-vector or the integer
type; and whenever one of the four helpers returns a result, applying it again to
that result returns the result unchanged. -/
theorem coercions_idempotent :
    (∀ e : Expr, e.getType = .BoolType → asBool e = some e) ∧
    (∀ (e : Expr) (w : Nat), e.getType = .BvType w → asBv e w = some e) ∧
    (∀ e : Expr, e.getType = .IntType → asInt e = some e) ∧
    (∀ (e : Expr) (t : GazerType), t.isCastResultType = true → e.getType = t →
      castResult e t = some e) ∧
    (∀ e r : Expr, asBool e = some r → asBool r = some r) ∧
    (∀ (e r : Expr) (w : Nat), asBv e w = some r → asBv r w = some r) ∧
    (∀ e r : Expr, asInt e = some r → asInt r = some r) ∧
    (∀ (e r : Expr) (t : GazerType), castResult e t = some r → castResult r t = some r) := by
  have hBool : ∀ e : Expr, e.getType = .BoolType → asBool e = some e := by
    intro e h
    simp [asBool, h]
  have hBv : ∀ (e : Expr) (w w' : Nat), e.getType = .BvType w' → asBv e w = some e := by
    intro e w w' h
    simp [asBv, h]
  have hInt : ∀ e : Expr, e.getType = .IntType → asInt e = some e := by
    intro e h
    simp [asInt, h]
  have iBool : ∀ e r : Expr, asBool e = some r → asBool r = some r :=
    fun e r h => hBool r (asBool_getType h)
  have iBv : ∀ (e r : Expr) (w : Nat), asBv e w = some r → asBv r w = some r := by
    intro e r w h
    obtain ⟨w', hw'⟩ := asBv_getType h
    exact hBv r w w' hw'
  have iInt : ∀ e r : Expr, asInt e = some r → asInt r = some r :=
    fun e r h => hInt r (asInt_getType h)
  refine ⟨hBool, fun e w h => hBv e w w h, hInt, ?_, iBool, iBv, iInt, ?_⟩
  · intro e t ht he
    cases t with
    | BoolType => exact hBool e he
    | IntType => exact hInt e he
    | BvType w => exact hBv e w w he
    | FloatType k => simp [GazerType.isCastResultType, GazerType.isBoolType,
        GazerType.isBvType, GazerType.isIntType] at ht
    | ArrayType i el => simp [GazerType.isCastResultType, GazerType.isBoolType,
        GazerType.isBvType, GazerType.isIntType] at ht
  · intro e r t h
    cases t with
    | BoolType => exact iBool e r h
    | IntType => exact iInt e r h
    | BvType w => exact iBv e r w h
    | FloatType k => simp [castResult] at h
    | ArrayType i el => simp [castResult] at h

/-- C30, as stated: `asBool` does not fail on the integer operand `5`, `asBv(32)`
fails neither on a Boolean operand nor on a bit-vector operand of width 8, and
`asInt` does not fail on a Boolean operand; each returns an expression. -/
theorem coercions_convert_other_types :
    asBool (mExprBuilder.IntLit 5) =
      some (mExprBuilder.Select (mExprBuilder.Eq (mExprBuilder.IntLit 5)
        (mExprBuilder.IntLit 0)) mExprBuilder.False mExprBuilder.True) ∧
    asBv mExprBuilder.True 32 =
      some (mExprBuilder.Select mExprBuilder.True (mExprBuilder.BvLit 1 32)
        (mExprBuilder.BvLit 0 32)) ∧
    asBv (mExprBuilder.BvLit 0 8) 32 = some (mExprBuilder.BvLit 0 8) ∧
    asInt mExprBuilder.True =
      some (mExprBuilder.Select mExprBuilder.True (mExprBuilder.IntLit 1)
        (mExprBuilder.IntLit 0)) := by
  refine ⟨by decide, by decide, by decide, by decide⟩

/-- C30, amended: `asBool` returns no expression exactly on the operands whose type
is none of Boolean, bit-vector and integer; `asBv(w)` exactly on the operands whose
type is neither Boolean nor a bit-vector type of any width; `asInt` exactly on the
operands whose type is neither Boolean nor integer; and `castResult(t)` exactly when
`t` is none of Boolean, bit-vector and integer or the helper of `t` returns no
expression. -/
theorem coercions_fail_exactly :
    (∀ e : Expr, asBool e = none ↔
      (e.getType.isBoolType || e.getType.isBvType || e.getType.isIntType) = false) ∧
    (∀ (e : Expr) (w : Nat), asBv e w = none ↔
      (e.getType.isBoolType || e.getType.isBvType) = false) ∧
    (∀ e : Expr, asInt e = none ↔ (e.getType.isBoolType || e.getType.isIntType) = false) ∧
    (∀ (e : Expr) (t : GazerType), castResult e t = none ↔
      t.isCastResultType = false ∨ (t = .BoolType ∧ asBool e = none) ∨
        (∃ w, t = .BvType w ∧ asBv e w = none) ∨ (t = .IntType ∧ asInt e = none)) := by
  refine ⟨?_, ?_, ?_, ?_⟩
  · intro e
    unfold asBool
    cases e.getType <;> simp [GazerType.isBoolType, GazerType.isBvType, GazerType.isIntType]
  · intro e w
    unfold asBv
    cases e.getType <;> simp [GazerType.isBoolType, GazerType.isBvType]
  · intro e
    unfold asInt
    cases e.getType <;> simp [GazerType.isBoolType, GazerType.isIntType]
  · intro e t
    cases t <;>
      simp [castResult, GazerType.isCastResultType, GazerType.isBoolType,
        GazerType.isBvType, GazerType.isIntType]

end Automaton

namespace Automaton

/-- C31: a freshly created CFA has exactly two locations, the entry with id 0 and the
exit with id 1; on a CFA with `n` locations `createLocation` returns a location with
the id `n`, which is the location at position `n` afterwards, raises the number of
locations to `n + 1` and leaves the locations that were there unchanged; so the ids
of a fresh CFA are dense and stay dense. In the test `CanCreateCfa` the three new
locations have the ids 2, 3 and 4 and the CFA has five locations. -/
theorem cfa_location_ids_dense (name : String) :
    (createCfa name).getNumLocations = 2 ∧
    (createCfa name).getEntry = some ⟨0⟩ ∧
    (createCfa name).getExit = some ⟨1⟩ ∧
    DenseIds (createCfa name) ∧
    (∀ cfa : Cfa,
      cfa.createLocation.1.id = cfa.getNumLocations ∧
      cfa.createLocation.2.getNumLocations = cfa.getNumLocations + 1 ∧
      cfa.createLocation.2.locations[cfa.getNumLocations]? = some cfa.createLocation.1 ∧
      (∀ i, i < cfa.getNumLocations →
        cfa.createLocation.2.locations[i]? = cfa.locations[i]?) ∧
      (DenseIds cfa → DenseIds cfa.createLocation.2)) ∧
    (createCfa "Test").createLocation.1.id = 2 ∧
    (createCfa "Test").createLocation.2.createLocation.1.id = 3 ∧
    (createCfa "Test").createLocation.2.createLocation.2.createLocation.1.id = 4 ∧
    testCfaLocations.getNumLocations = 5 := by
  refine ⟨rfl, rfl, rfl, by simp [DenseIds, createCfa, Cfa.getNumLocations, List.range_succ],
    ?_, by decide, by decide, by decide, by decide⟩
  intro cfa
  refine ⟨rfl, by simp [Cfa.createLocation, Cfa.getNumLocations], ?_, ?_, ?_⟩
  · simp [Cfa.createLocation, Cfa.getNumLocations]
  · intro i hi
    simp only [Cfa.createLocation]
    exact List.getElem?_append_left hi
  · intro h
    unfold DenseIds at h ⊢
    simp only [Cfa.createLocation, Cfa.getNumLocations, List.map_append, List.map_cons,
      List.map_nil, List.length_append, List.length_singleton, List.range_succ]
    rw [h]
    rfl

/-- C32: on a CFA named `C`, `createInput(n, ty)` and `createLocal(n, ty)` return,
when the name is not yet used inside the CFA, a variable with the name `C/n` and the
type `ty`; `createInput` raises the number of inputs by one and leaves the locals,
the outputs and the locations as they were, `createLocal` raises only the number of
locals, and `addOutput` raises only the number of outputs. In the test
`CanCreateCfa` the names are `Test/in1`, `Test/tmp` and `Test/out1`, and the CFA has
one input, one output and two locals. -/
theorem cfa_variable_names_and_counts (cfa : Cfa) (n : String) (ty : GazerType) :
    (cfa.isNameUsed n = false →
      ∃ v cfa1, cfa.createInput n ty = some (v, cfa1) ∧
        v.name = cfa.name ++ "/" ++ n ∧ v.type = ty ∧
        cfa1.getNumInputs = cfa.getNumInputs + 1 ∧ cfa1.getNumLocals = cfa.getNumLocals ∧
        cfa1.getNumOutputs = cfa.getNumOutputs ∧
        cfa1.getNumLocations = cfa.getNumLocations ∧ cfa1.name = cfa.name) ∧
    (cfa.isNameUsed n = false →
      ∃ v cfa1, cfa.createLocal n ty = some (v, cfa1) ∧
        v.name = cfa.name ++ "/" ++ n ∧ v.type = ty ∧
        cfa1.getNumLocals = cfa.getNumLocals + 1 ∧ cfa1.getNumInputs = cfa.getNumInputs ∧
        cfa1.getNumOutputs = cfa.getNumOutputs ∧
        cfa1.getNumLocations = cfa.getNumLocations ∧ cfa1.name = cfa.name) ∧
    (∀ v cfa1, cfa.createInput n ty = some (v, cfa1) → v.name = cfa.name ++ "/" ++ n) ∧
    (∀ v cfa1, cfa.createLocal n ty = some (v, cfa1) → v.name = cfa.name ++ "/" ++ n) ∧
    (∀ v : Variable,
      (cfa.addOutput v).getNumOutputs = cfa.getNumOutputs + 1 ∧
      (cfa.addOutput v).getNumInputs = cfa.getNumInputs ∧
      (cfa.addOutput v).getNumLocals = cfa.getNumLocals ∧
      (cfa.addOutput v).getNumLocations = cfa.getNumLocations) ∧
    testCfaVariables.map (fun r => (r.1.name, r.2.1.name, r.2.2.1.name)) =
      some ("Test/in1", "Test/tmp", "Test/out1") ∧
    testCfaVariables.map (fun r =>
        (r.2.2.2.getNumInputs, r.2.2.2.getNumOutputs, r.2.2.2.getNumLocals)) =
      some (1, 1, 2) := by
  refine ⟨?_, ?_, ?_, ?_, ?_, by decide, by decide⟩
  · intro h
    refine ⟨⟨cfa.variableName n, ty⟩,
      { cfa with inputs := cfa.inputs ++ [⟨cfa.variableName n, ty⟩] }, ?_, rfl, rfl, ?_,
      rfl, rfl, rfl, rfl⟩
    · simp [Cfa.createInput, h]
    · simp [Cfa.getNumInputs]
  · intro h
    refine ⟨⟨cfa.variableName n, ty⟩,
      { cfa with locals := cfa.locals ++ [⟨cfa.variableName n, ty⟩] }, ?_, rfl, rfl, ?_,
      rfl, rfl, rfl, rfl⟩
    · simp [Cfa.createLocal, h]
    · simp [Cfa.getNumLocals]
  · intro v cfa1 h
    unfold Cfa.createInput at h
    split at h
    · cases h
    · cases h
      rfl
  · intro v cfa1 h
    unfold Cfa.createLocal at h
    split at h
    · cases h
    · cases h
      rfl
  · intro v
    refine ⟨by simp [Cfa.addOutput, Cfa.getNumOutputs], rfl, rfl, rfl⟩

end Automaton

/-- C33: the body cache of `encodeEdge` is transparent. For every sequence of
`encodeEdge` calls that starts on the empty cache, as `encode` does, and hands each
call the cache of the call before it, the formulas returned are those of the same
calls on the encoder without the cache (and the sequence fails exactly when that
one fails); no block has its straight-line part translated twice; and a call leaves
the cache as it is when `from` has an entry, and otherwise only sets the entry of
`from` to the formula of its straight-line part. At the end of a run of the
reachability encoding every cache entry is the body formula of its block. -/
theorem encodeEdge_cache_transparent {E : Type} [DecidableEq E] (F : Function)
    (tr : InstToExpr E) :
    (∀ calls : List (BlockId × BlockId),
      (encodeEdgeCalls F tr calls []).map Prod.fst = encodeEdgeUncachedCalls F tr calls) ∧
    (∀ calls : List (BlockId × BlockId), (bodyTranslations F tr calls []).Nodup) ∧
    (∀ (p b : BlockId) (cache : DenseMap BlockId E), CacheCoherent F tr cache →
      (encodeEdge F tr p b cache).map Prod.fst = encodeEdgeUncached F tr p b) ∧
    (∀ (p b : BlockId) (cache cache1 : DenseMap BlockId E) (e : E),
      encodeEdge F tr p b cache = some (e, cache1) →
        ((cache.find p).isSome = true ∧ cache1 = cache) ∨
        (cache.find p = none ∧
          ∃ pb, F.block p = some pb ∧ cache1 = cache.set p (bodyFormula tr pb))) ∧
    (∀ topo : TopologicalSort, TopologicalOrder F topo →
      ∃ dp cache, encodeReachability F topo tr = some (dp, cache) ∧
        CacheCoherent F tr cache) := by
  refine ⟨?_, ?_, ?_, ?_, ?_⟩
  · intro calls
    exact encodeEdgeCalls_fst calls [] (CacheCoherent.nil F tr)
  · intro calls
    exact (bodyTranslations_spec calls []).1
  · intro p b cache hc
    exact encodeEdge_fst p b cache hc
  · intro p b cache cache1 e h
    exact encodeEdge_cache h
  · intro topo hT
    obtain ⟨dp, cache, h1, _, h2⟩ := encodeReachability_spec tr hT
    exact ⟨dp, cache, h1, h2⟩

/-- C34: when every recorded predecessor value (a constant, or the value that the
model gives to the `pred` variable) of a block at index `i` of the topological order
is an index smaller than `i`, the backward walk of `BmcTrace::Create` from the error
block at index `j` ends: with any bound above `j` on its iterations, in particular
the number of blocks, it returns the same block list, which has at most as many
blocks as the function, starts at a block without a recorded predecessor and ends
at the error block. -/
theorem backward_walk_terminates (F : Function) (topo : TopologicalSort)
    (preds : DenseMap BlockId Value) (valueMap : ValueToVariableMap) (model : Valuation)
    (errorBlock : BlockId) (j : Nat) (hlen : topo.length = F.blocks.length)
    (herr : topo[j]? = some errorBlock)
    (hdec : predecessorsDecrease topo preds valueMap model = true) :
    ∃ path first,
      (∀ fuel, j < fuel →
        createTraceBlocks topo preds valueMap model errorBlock fuel = some path) ∧
      createTraceBlocks topo preds valueMap model errorBlock F.blocks.length = some path ∧
      path.length ≤ F.blocks.length ∧
      path.head? = some first ∧ preds.find first = none ∧
      path.getLast? = some errorBlock := by
  obtain ⟨walk, first, hwl, hhead, hlast, hnone, hrun⟩ :=
    traceBlocksLoop_terminates hdec j errorBlock herr
  have hj : j < topo.length := (List.getElem?_eq_some_iff.1 herr).1
  have hall : ∀ fuel, j < fuel →
      createTraceBlocks topo preds valueMap model errorBlock fuel = some walk.reverse := by
    intro fuel hf
    unfold createTraceBlocks
    rw [hrun fuel [] hf]
    simp
  refine ⟨walk.reverse, first, hall, hall _ (by omega), by simp; omega, ?_, hnone, ?_⟩
  · rw [List.head?_reverse]
    exact hlast
  · rw [List.getLast?_reverse]
    exact hhead

/-- Witness of C34: the walk on the diamond-shaped function from its error block,
at index 3 of the topological order. -/
theorem backward_walk_terminates_witness :
    ∃ path first,
      (∀ fuel, 3 < fuel →
        createTraceBlocks diamondTopo diamondPreds diamondValueMap diamondModel 1 fuel =
          some path) ∧
      createTraceBlocks diamondTopo diamondPreds diamondValueMap diamondModel 1
        diamond.blocks.length = some path ∧
      path.length ≤ diamond.blocks.length ∧
      path.head? = some first ∧ diamondPreds.find first = none ∧
      path.getLast? = some 1 :=
  backward_walk_terminates diamond diamondTopo diamondPreds diamondValueMap diamondModel 1 3
    (by decide) (by decide) (by decide)

namespace Automaton

/-- C35, as stated: `castResult` to `Bv(32)` of a bit-vector operand of width 8
returns the operand, whose type is `Bv(8)` and not `Bv(32)`; so does `asBv`. -/
theorem castResult_keeps_other_width :
    castResult (mExprBuilder.BvLit 0 8) (.BvType 32) = some (mExprBuilder.BvLit 0 8) ∧
    (castResult (mExprBuilder.BvLit 0 8) (.BvType 32)).map Expr.getType =
      some (.BvType 8) ∧
    (asBv (mExprBuilder.BvLit 0 8) 32).map Expr.getType = some (.BvType 8) := by
  refine ⟨by decide, by decide, by decide⟩

/-- C35, amended: an expression that `castResult` returns for the target type
`Bool` has the type `Bool`, and for `Int` the type `Int`; for the target type
`Bv(w)`, as for `asBv(., w)`, it has the type `Bv(w)` when the operand is Boolean or
already of type `Bv(w)`, and a bit-vector operand of any width `w'` is returned
unchanged, with its type `Bv(w')`. -/
theorem castResult_type :
    (∀ e r : Expr, castResult e .BoolType = some r → r.getType = .BoolType) ∧
    (∀ e r : Expr, castResult e .IntType = some r → r.getType = .IntType) ∧
    (∀ (e r : Expr) (w : Nat), castResult e (.BvType w) = some r →
      e.getType = .BoolType ∨ e.getType = .BvType w → r.getType = .BvType w) ∧
    (∀ (e : Expr) (w w' : Nat), e.getType = .BvType w' →
      castResult e (.BvType w) = some e ∧ asBv e w = some e) ∧
    (∀ (e r : Expr) (w : Nat), asBv e w = some r →
      e.getType = .BoolType ∨ e.getType = .BvType w → r.getType = .BvType w) := by
  have hbv : ∀ (e r : Expr) (w : Nat), asBv e w = some r →
      e.getType = .BoolType ∨ e.getType = .BvType w → r.getType = .BvType w := by
    intro e r w h ht
    unfold asBv at h
    rcases ht with ht | ht
    · rw [ht] at h
      cases h
      rfl
    · rw [ht] at h
      cases h
      exact ht
  refine ⟨fun e r h => asBool_getType h, fun e r h => asInt_getType h,
    fun e r w h => hbv e r w h, ?_, hbv⟩
  intro e w w' h
  have : asBv e w = some e := by
    unfold asBv
    rw [h]
  exact ⟨this, this⟩

end Automaton

/-- C36: `isErrorBlock` does not return a Boolean for a block with an indirect call:
on the block `call void %fp(); ret` it dereferences the null callee. Only when a
call of an error routine comes first does it return, with `true`. -/
theorem isErrorBlock_fails_on_indirect_call :
    isErrorBlock indirectCallBlock = none ∧
    isErrorBlock errorThenIndirectCallBlock = some true := by
  refine ⟨by decide, by decide⟩

namespace Automaton

/-- C37: `findVariable(v)` returns the variable that `Inputs` maps `v` to when there
is one, otherwise the one of `PhiInputs`, otherwise the one of `Locals`, and the
null pointer when none of the three maps gives a variable, in particular when `v`
is a key of none; after `addLocal(v, x)` with a variable `x`, `findLocal(v)` is `x`,
and `findVariable(v)` is `x` when neither `Inputs` nor `PhiInputs` gives a variable
for `v`, and the variable of `Inputs` or `PhiInputs` otherwise. -/
theorem findVariable_lookup_order (info : CfaGenInfo) (v : Value) :
    (∀ x, lookupVariable info.Inputs v = some x → info.findVariable v = some x) ∧
    (lookupVariable info.Inputs v = none →
      ∀ x, lookupVariable info.PhiInputs v = some x → info.findVariable v = some x) ∧
    (lookupVariable info.Inputs v = none → lookupVariable info.PhiInputs v = none →
      ∀ x, lookupVariable info.Locals v = some x → info.findVariable v = some x) ∧
    (lookupVariable info.Inputs v = none → lookupVariable info.PhiInputs v = none →
      lookupVariable info.Locals v = none → info.findVariable v = none) ∧
    (DenseMap.find info.Inputs v = none → DenseMap.find info.PhiInputs v = none →
      DenseMap.find info.Locals v = none → info.findVariable v = none) ∧
    (∀ x : Variable, (info.addLocal v (some x)).findLocal v = some x) ∧
    (∀ x : Variable, lookupVariable info.Inputs v = none →
      lookupVariable info.PhiInputs v = none →
      (info.addLocal v (some x)).findVariable v = some x) ∧
    (∀ x y : Variable, lookupVariable info.Inputs v = some y →
      (info.addLocal v (some x)).findVariable v = some y) ∧
    (∀ x y : Variable, lookupVariable info.Inputs v = none →
      lookupVariable info.PhiInputs v = some y →
      (info.addLocal v (some x)).findVariable v = some y) := by
  refine ⟨?_, ?_, ?_, ?_, ?_, ?_, ?_, ?_, ?_⟩
  · intro x h
    simp [CfaGenInfo.findVariable, h]
  · intro h1 x h2
    simp [CfaGenInfo.findVariable, h1, h2]
  · intro h1 h2 x h3
    simp [CfaGenInfo.findVariable, h1, h2, h3]
  · intro h1 h2 h3
    simp [CfaGenInfo.findVariable, h1, h2, h3]
  · intro h1 h2 h3
    simp [CfaGenInfo.findVariable, lookupVariable, h1, h2, h3]
  · intro x
    simp [CfaGenInfo.findLocal, CfaGenInfo.addLocal, lookupVariable_set]
  · intro x h1 h2
    simp [CfaGenInfo.findVariable, CfaGenInfo.addLocal, lookupVariable_set, h1, h2]
  · intro x y h1
    simp [CfaGenInfo.findVariable, CfaGenInfo.addLocal, h1]
  · intro x y h1 h2
    simp [CfaGenInfo.findVariable, CfaGenInfo.addLocal, h1, h2]

end Automaton

end Gazer
